import Mathlib

/-!
# Verification of the solster reserve–commit matching engine

A shallow embedding of the slab matching engine
(`programs/slab/src/matching/{reserve,commit,book,risk}.rs`,
`programs/slab/src/state/{pools,header,slab}.rs`,
`programs/common/src/math.rs`, `programs/slab/src/instructions/commit.rs`)
into Lean, together with theorems settling the specification claims.

Conventions of the embedding:
* `u64`/`u128` values are `Nat` with explicit saturating / wrapping
  operations where the Rust code uses them; `i64`/`i128` values are `Int`.
* Pool slots carry their record in a wrapper `Slot` holding the `used`
  flag and freelist pointer.  (The Rust code threads the freelist through
  a field of the record itself; nothing in the modelled code reads those
  fields as data, so the wrapper is observationally equivalent.)
* The sentinel index `u32::MAX` is `NIL`.
* Plain-data record fields that no modelled code path reads or branches
  on (pubkeys, padding, `tif`, `maker_class`, hashes, timestamps that are
  only stored) are omitted from the records.
* `while` loops become fuel-indexed recursion returning `Option`;
  `none` corresponds to a run of the Rust loop that does not terminate
  within the given fuel.  Stateful functions return the `Except` result
  paired with the post-state, matching Rust's in-place mutation where an
  early `?` return keeps all mutations made so far.
-/

namespace Solster

/-- `u32::MAX`, the sentinel "no index" value. -/
def NIL : Nat := 4294967295

def U64MOD : Nat := 18446744073709551616
def U64MAX : Nat := 18446744073709551615
def U128MOD : Nat := 340282366920938463463374607431768211456
def I64MIN : Int := -9223372036854775808
def I64MAX : Int := 9223372036854775807
def I128MIN : Int := -170141183460469231731687303715884105728
def I128MAX : Int := 170141183460469231731687303715884105727

/-- `u64::saturating_add`. -/
def satAdd64 (a b : Nat) : Nat := min (a + b) U64MAX

/-- `u128::saturating_add`. -/
def satAdd128 (a b : Nat) : Nat := min (a + b) (U128MOD - 1)

/-- `u64::wrapping_add`. -/
def wrapAdd64 (a b : Nat) : Nat := (a + b) % U64MOD

/-- `u128` multiplication (wraps on overflow in release builds). -/
def wrapMul128 (a b : Nat) : Nat := (a * b) % U128MOD

/-- `i128::saturating_add`. -/
def satAddI128 (a b : Int) : Int := max I128MIN (min (a + b) I128MAX)

/-- `i64` wrapping of an unbounded integer (release-mode two's complement). -/
def wrapI64 (x : Int) : Int := (x + 9223372036854775808) % 18446744073709551616 - 9223372036854775808

/-- `Side` (common/src/types.rs). -/
inductive Side where
  | Buy
  | Sell
deriving DecidableEq, Repr

/-- `OrderState` (common/src/types.rs). -/
inductive OrderState where
  | LIVE
  | PENDING
deriving DecidableEq, Repr

/-- `PercolatorError` (common/src/error.rs), the kinds reachable from the
modelled operations. -/
inductive PercolatorError where
  | InvalidInstruction
  | InvalidInstrument
  | InvalidQuantity
  | PriceNotAligned
  | QuantityNotAligned
  | OrderNotFound
  | PositionNotFound
  | ReservationNotFound
  | InvalidReservation
  | ReservationExpired
  | PoolFull
  | InvalidAccount
deriving DecidableEq, Repr

/-- `Order` (common/src/types.rs); book-relevant fields. -/
structure Order where
  order_id : Nat
  account_idx : Nat
  instrument_idx : Nat
  side : Side
  state : OrderState
  eligible_epoch : Nat
  price : Nat
  qty : Nat
  reserved_qty : Nat
  next : Nat
  prev : Nat
deriving DecidableEq, Repr

/-- `Position` (common/src/types.rs). -/
structure Position where
  account_idx : Nat
  instrument_idx : Nat
  qty : Int
  entry_px : Nat
  last_funding : Int
  next_in_account : Nat
deriving DecidableEq, Repr

/-- `Reservation` (common/src/types.rs). -/
structure Reservation where
  hold_id : Nat
  route_id : Nat
  account_idx : Nat
  instrument_idx : Nat
  side : Side
  qty : Nat
  vwap_px : Nat
  worst_px : Nat
  max_charge : Nat
  book_seqno : Nat
  expiry_ms : Nat
  slice_head : Nat
  committed : Bool
deriving DecidableEq, Repr

/-- `Slice` (common/src/types.rs). -/
structure Slice where
  order_idx : Nat
  qty : Nat
  next : Nat
deriving DecidableEq, Repr

/-- `Trade` (common/src/types.rs); recorded fields that carry data. -/
structure Trade where
  ts : Nat
  order_id_maker : Nat
  order_id_taker : Nat
  instrument_idx : Nat
  side : Side
  price : Nat
  qty : Nat
  reveal_ms : Nat
deriving DecidableEq, Repr

/-- `Instrument` (common/src/types.rs); fields the modelled code reads. -/
structure Instrument where
  contract_size : Nat
  tick : Nat
  lot : Nat
  index_price : Nat
  cum_funding : Int
  bids_head : Nat
  asks_head : Nat
  bids_pending_head : Nat
  asks_pending_head : Nat
  epoch : Nat
deriving DecidableEq, Repr

/-- `AccountState` (common/src/types.rs). -/
structure AccountState where
  cash : Int
  position_head : Nat
  active : Bool
deriving DecidableEq, Repr

/-- `SlabHeader` (slab/src/state/header.rs); fields the modelled code reads. -/
structure SlabHeader where
  imr : Nat
  mmr : Nat
  maker_fee : Int
  taker_fee : Nat
  next_order_id : Nat
  next_hold_id : Nat
  book_seqno : Nat
  current_ts : Nat
deriving DecidableEq, Repr

/-- A pool slot: the record plus `used` flag and freelist pointer
(the Rust code stores these inside the record via the `PoolItem` trait). -/
structure Slot (α : Type) where
  val : α
  nextFree : Nat
  used : Bool
deriving DecidableEq, Repr

/-- `Pool<T, N>` (slab/src/state/pools.rs); capacity `N` is `items.length`. -/
structure Pool (α : Type) where
  items : List (Slot α)
  free_head : Nat
  used_count : Nat
deriving DecidableEq, Repr

namespace Pool

/-- `Pool::get`: `None` for out-of-range or unused slots. -/
def get (p : Pool α) (i : Nat) : Option α :=
  match p.items[i]? with
  | some s => if s.used then some s.val else none
  | none => none

/-- The `if let Some(x) = pool.get_mut(i) { *mutate* }` pattern: apply `f`
to the record when the slot is in range and used, otherwise no-op. -/
def modifyUsed (p : Pool α) (i : Nat) (f : α → α) : Pool α :=
  match p.items[i]? with
  | some s =>
      if s.used then { p with items := p.items.set i { s with val := f s.val } } else p
  | none => p

/-- `Pool::alloc`. -/
def alloc (p : Pool α) : Option (Nat × Pool α) :=
  if p.used_count ≥ p.items.length then none
  else
    match p.items[p.free_head]? with
    | some s =>
        some (p.free_head,
          { items := p.items.set p.free_head { s with used := true },
            free_head := s.nextFree,
            used_count := p.used_count + 1 })
    | none => none

/-- `Pool::free` (no-op on out-of-range or already-free slots). -/
def free (p : Pool α) (i : Nat) : Pool α :=
  match p.items[i]? with
  | some s =>
      if s.used then
        { items := p.items.set i { s with used := false, nextFree := p.free_head },
          free_head := i,
          used_count := p.used_count - 1 }
      else p
  | none => p

end Pool

/-- `SlabState` (slab/src/state/slab.rs); the components the claims touch.
The trade ring capacity `MAX_TRADES` is `trades.length`. -/
structure SlabState where
  header : SlabHeader
  accounts : List AccountState
  instruments : List Instrument
  instrument_count : Nat
  orders : Pool Order
  positions : Pool Position
  reservations : Pool Reservation
  slices : Pool Slice
  trades : List Trade
  trade_head : Nat
  trade_count : Nat
deriving DecidableEq, Repr

namespace SlabState

/-- `SlabState::get_instrument`. -/
def get_instrument (s : SlabState) (idx : Nat) : Option Instrument :=
  if idx < s.instrument_count then s.instruments[idx]? else none

/-- `SlabState::get_instrument_mut` update under the same guard. -/
def modifyInstrument (s : SlabState) (idx : Nat) (f : Instrument → Instrument) : SlabState :=
  if idx < s.instrument_count then
    match s.instruments[idx]? with
    | some ins => { s with instruments := s.instruments.set idx (f ins) }
    | none => s
  else s

/-- `SlabState::get_account`. -/
def get_account (s : SlabState) (idx : Nat) : Option AccountState :=
  match s.accounts[idx]? with
  | some a => if a.active then some a else none
  | none => none

/-- `SlabState::get_account_mut` update pattern. -/
def modifyAccount (s : SlabState) (idx : Nat) (f : AccountState → AccountState) : SlabState :=
  match s.accounts[idx]? with
  | some a => if a.active then { s with accounts := s.accounts.set idx (f a) } else s
  | none => s

/-- `SlabState::record_trade` (ring buffer). -/
def record_trade (s : SlabState) (t : Trade) : SlabState :=
  { s with
    trades := s.trades.set s.trade_head t,
    trade_head := (s.trade_head + 1) % s.trades.length,
    trade_count := if s.trade_count < s.trades.length then s.trade_count + 1 else s.trade_count }

end SlabState

/-- `orders` field update through `Pool::get_mut`. -/
def SlabState.modifyOrder (s : SlabState) (i : Nat) (f : Order → Order) : SlabState :=
  { s with orders := s.orders.modifyUsed i f }

/-- `positions` field update through `Pool::get_mut`. -/
def SlabState.modifyPosition (s : SlabState) (i : Nat) (f : Position → Position) : SlabState :=
  { s with positions := s.positions.modifyUsed i f }

/-- `reservations` field update through `Pool::get_mut`. -/
def SlabState.modifyReservation (s : SlabState) (i : Nat) (f : Reservation → Reservation) :
    SlabState :=
  { s with reservations := s.reservations.modifyUsed i f }

/-- `SlabHeader::next_hold_id`: returns the id and post-increments. -/
def SlabHeader.nextHoldId (h : SlabHeader) : Nat × SlabHeader :=
  (h.next_hold_id, { h with next_hold_id := wrapAdd64 h.next_hold_id 1 })

/-- `SlabHeader::increment_book_seqno`. -/
def SlabHeader.incrementBookSeqno (h : SlabHeader) : SlabHeader :=
  { h with book_seqno := wrapAdd64 h.book_seqno 1 }

/-! ## common/src/math.rs -/

/-- `mul_u64`: exact, since the product of two `u64` fits in `u128`. -/
def mul_u64 (a b : Nat) : Nat := a * b

/-- `mul_u64_u128`: `u128` multiplication, wrapping on overflow. -/
def mul_u64_u128 (a b : Nat) : Nat := wrapMul128 a b

/-- `calculate_vwap`; the Rust result is cast `as u64` (truncating). -/
def calculate_vwap (total_notional total_qty : Nat) : Nat :=
  if total_qty = 0 then 0 else (total_notional / total_qty) % U64MOD

/-- `calculate_pnl`: `qty * (current - entry)` in `i128` (never overflows
for `i64` quantity and `u64` prices). -/
def calculate_pnl (qty : Int) (entry_price current_price : Nat) : Int :=
  qty * ((current_price : Int) - (entry_price : Int))

/-- `is_tick_aligned` (`price % tick == 0`). -/
def is_tick_aligned (price tick : Nat) : Bool := price % tick = 0

/-- `is_lot_aligned` (`qty % lot == 0`). -/
def is_lot_aligned (qty lot : Nat) : Bool := qty % lot = 0

/-- `calculate_im`: `|qty| * contract_size * mark_price * imr_bps / 10000`,
with the two `u128` products wrapping on overflow. -/
def calculate_im (qty : Int) (contract_size mark_price imr_bps : Nat) : Nat :=
  wrapMul128 (mul_u64_u128 mark_price (mul_u64 qty.natAbs contract_size)) imr_bps / 10000

/-- `calculate_mm`: same shape as `calculate_im` with `mmr_bps`. -/
def calculate_mm (qty : Int) (contract_size mark_price mmr_bps : Nat) : Nat :=
  wrapMul128 (mul_u64_u128 mark_price (mul_u64 qty.natAbs contract_size)) mmr_bps / 10000

end Solster

namespace Solster

/-! ## slab/src/matching/book.rs -/

/-- Head pointer selected by `(side, state)` in `insert_order`/`remove_order`. -/
def Instrument.headOf (ins : Instrument) (side : Side) (state : OrderState) : Nat :=
  match side, state with
  | Side.Buy, OrderState.LIVE => ins.bids_head
  | Side.Buy, OrderState.PENDING => ins.bids_pending_head
  | Side.Sell, OrderState.LIVE => ins.asks_head
  | Side.Sell, OrderState.PENDING => ins.asks_pending_head

/-- Write the head pointer selected by `(side, state)`. -/
def Instrument.setHead (ins : Instrument) (side : Side) (state : OrderState) (v : Nat) : Instrument :=
  match side, state with
  | Side.Buy, OrderState.LIVE => { ins with bids_head := v }
  | Side.Buy, OrderState.PENDING => { ins with bids_pending_head := v }
  | Side.Sell, OrderState.LIVE => { ins with asks_head := v }
  | Side.Sell, OrderState.PENDING => { ins with asks_pending_head := v }

/-- The `while` search loop of `insert_order`: find `(prev_idx, curr_idx)`
such that the new order is spliced between them. -/
def insertFindPos (s : SlabState) (side : Side) (price new_order_id : Nat) :
    Nat → Nat → Nat → Option (Except PercolatorError (Nat × Nat))
  | 0, _, _ => none
  | fuel + 1, curr_idx, prev_idx =>
    if curr_idx = NIL then some (Except.ok (prev_idx, curr_idx))
    else
      match s.orders.get curr_idx with
      | none => some (Except.error PercolatorError.OrderNotFound)
      | some curr =>
        let should_insert_before : Bool :=
          match side with
          | Side.Buy =>
              decide (price > curr.price ∨ (price = curr.price ∧ new_order_id < curr.order_id))
          | Side.Sell =>
              decide (price < curr.price ∨ (price = curr.price ∧ new_order_id < curr.order_id))
        if should_insert_before then some (Except.ok (prev_idx, curr_idx))
        else insertFindPos s side price new_order_id fuel curr.next curr_idx

/-- `insert_order` (book.rs).  `none` means the Rust call does not return
normally within `fuel` loop iterations (or panics on a corrupt state). -/
def insert_order (fuel : Nat) (s : SlabState) (instrument_idx order_idx : Nat)
    (side : Side) (price : Nat) (state : OrderState) :
    Option (Except PercolatorError Unit × SlabState) :=
  match s.get_instrument instrument_idx with
  | none => some (Except.error PercolatorError.InvalidInstrument, s)
  | some ins =>
    let head_ptr := ins.headOf side state
    if head_ptr = NIL then
      let s := s.modifyOrder order_idx (fun o => { o with next := NIL, prev := NIL })
      let s := s.modifyInstrument instrument_idx (fun i => i.setHead side state order_idx)
      let s := { s with header := s.header.incrementBookSeqno }
      some (Except.ok (), s)
    else
      -- `slab.orders.get(order_idx).unwrap().order_id` (panics on a dead slot)
      match s.orders.get order_idx with
      | none => none
      | some newOrder =>
        match insertFindPos s side price newOrder.order_id fuel head_ptr NIL with
        | none => none
        | some (Except.error e) => some (Except.error e, s)
        | some (Except.ok (prev_idx, curr_idx)) =>
          let s := s.modifyOrder order_idx (fun o => { o with next := curr_idx, prev := prev_idx })
          let s :=
            if prev_idx = NIL then
              s.modifyInstrument instrument_idx (fun i => i.setHead side state order_idx)
            else
              s.modifyOrder prev_idx (fun o => { o with next := order_idx })
          let s :=
            if curr_idx ≠ NIL then
              s.modifyOrder curr_idx (fun o => { o with prev := order_idx })
            else s
          let s := { s with header := s.header.incrementBookSeqno }
          some (Except.ok (), s)

/-- `remove_order` (book.rs). -/
def remove_order (s : SlabState) (instrument_idx order_idx : Nat) :
    Except PercolatorError Unit × SlabState :=
  match s.orders.get order_idx with
  | none => (Except.error PercolatorError.OrderNotFound, s)
  | some o =>
    match s.get_instrument instrument_idx with
    | none => (Except.error PercolatorError.InvalidInstrument, s)
    | some _ =>
      let s :=
        if o.prev = NIL then
          s.modifyInstrument instrument_idx (fun i => i.setHead o.side o.state o.next)
        else
          s.modifyOrder o.prev (fun p => { p with next := o.next })
      let s :=
        if o.next ≠ NIL then
          s.modifyOrder o.next (fun n => { n with prev := o.prev })
        else s
      let s := { s with header := s.header.incrementBookSeqno }
      (Except.ok (), s)

/-- Inner search of `promote_side`: first pending order with
`eligible_epoch ≤ epoch`; quits silently on a broken link. -/
def promoteFind (s : SlabState) (epoch : Nat) :
    Nat → Nat → Option (Option (Nat × Nat))
  | 0, _ => none
  | fuel + 1, curr_idx =>
    if curr_idx = NIL then some none
    else
      match s.orders.get curr_idx with
      | none => some none
      | some o =>
        if o.eligible_epoch ≤ epoch then some (some (curr_idx, o.price))
        else promoteFind s epoch fuel o.next

/-- `promote_side` (book.rs): repeatedly promote the first eligible
pending order. -/
def promote_side (s : SlabState) (instrument_idx : Nat) (side : Side) (epoch : Nat) :
    Nat → Option (Except PercolatorError Unit × SlabState)
  | 0 => none
  | fuel + 1 =>
    match s.get_instrument instrument_idx with
    | none => some (Except.error PercolatorError.InvalidInstrument, s)
    | some ins =>
      let pending_head := ins.headOf side OrderState.PENDING
      match promoteFind s epoch (fuel + 1) pending_head with
      | none => none
      | some none => some (Except.ok (), s)
      | some (some (order_idx, price)) =>
        match remove_order s instrument_idx order_idx with
        | (Except.error e, s) => some (Except.error e, s)
        | (Except.ok _, s) =>
          let s := s.modifyOrder order_idx (fun o => { o with state := OrderState.LIVE })
          match insert_order (fuel + 1) s instrument_idx order_idx side price OrderState.LIVE with
          | none => none
          | some (Except.error e, s) => some (Except.error e, s)
          | some (Except.ok _, s) => promote_side s instrument_idx side epoch fuel

/-- `promote_pending` (book.rs). -/
def promote_pending (s : SlabState) (instrument_idx epoch fuel : Nat) :
    Option (Except PercolatorError Unit × SlabState) :=
  match promote_side s instrument_idx Side.Buy epoch fuel with
  | none => none
  | some (Except.error e, s) => some (Except.error e, s)
  | some (Except.ok _, s) => promote_side s instrument_idx Side.Sell epoch fuel

/-! ## slab/src/matching/reserve.rs -/

/-- `ReserveResult` (reserve.rs). -/
structure ReserveResult where
  hold_id : Nat
  vwap_px : Nat
  worst_px : Nat
  max_charge : Nat
  expiry_ms : Nat
  book_seqno : Nat
  filled_qty : Nat
deriving DecidableEq, Repr

/-- `calculate_max_charge` (reserve.rs). -/
def calculate_max_charge (filled_qty price contract_size taker_fee_bps : Nat) : Nat :=
  let notional := mul_u64 filled_qty contract_size
  let value := mul_u64_u128 price notional
  let fee := wrapMul128 value taker_fee_bps / 10000
  satAdd128 value fee

/-- The `while` loop of `walk_and_reserve`: walks the book from `curr_idx`
carrying `(qty_left, total_notional, worst_px, slice_head, slice_tail)`.
After a successful `alloc` the freshly allocated slot is in range and
used, so the `if let Some(..) = get_mut(..)` guards around the slice
write and the local head/tail updates always take the `Some` arm. -/
def walkLoop (side : Side) (limit_px : Nat) :
    Nat → SlabState → Nat → Nat → Nat → Nat → Nat → Nat →
    Option (Except PercolatorError (Nat × Nat × Nat × Nat) × SlabState)
  | 0, _, _, _, _, _, _, _ => none
  | fuel + 1, s, curr_idx, qty_left, total_notional, worst_px, slice_head, slice_tail =>
    if curr_idx ≠ NIL ∧ qty_left > 0 then
      match s.orders.get curr_idx with
      | none => some (Except.error PercolatorError.OrderNotFound, s)
      | some o =>
        let crosses : Bool :=
          match side with
          | Side.Buy => decide (o.price ≤ limit_px)
          | Side.Sell => decide (o.price ≥ limit_px)
        if ¬ crosses then
          some (Except.ok (qty_left, total_notional, worst_px, slice_head), s)
        else
          let available := o.qty - o.reserved_qty
          if available = 0 then
            walkLoop side limit_px fuel s o.next qty_left total_notional worst_px
              slice_head slice_tail
          else
            let take_qty := min qty_left available
            match s.slices.alloc with
            | none => some (Except.error PercolatorError.PoolFull, s)
            | some (slice_idx, sp) =>
              let sp := sp.modifyUsed slice_idx (fun _ =>
                { order_idx := curr_idx, qty := take_qty, next := NIL })
              let sp :=
                if slice_head = NIL then sp
                else sp.modifyUsed slice_tail (fun sl => { sl with next := slice_idx })
              let slice_head' := if slice_head = NIL then slice_idx else slice_head
              let s := { s with slices := sp }
              let s := s.modifyOrder curr_idx
                (fun ord => { ord with reserved_qty := satAdd64 ord.reserved_qty take_qty })
              walkLoop side limit_px fuel s o.next (qty_left - take_qty)
                (satAdd128 total_notional (mul_u64 take_qty o.price)) o.price
                slice_head' slice_idx
    else
      some (Except.ok (qty_left, total_notional, worst_px, slice_head), s)

/-- `walk_and_reserve` (reserve.rs): returns
`(filled_qty, total_notional, worst_px, slice_head)`. -/
def walk_and_reserve (fuel : Nat) (s : SlabState) (instrument_idx : Nat) (side : Side)
    (qty limit_px : Nat) :
    Option (Except PercolatorError (Nat × Nat × Nat × Nat) × SlabState) :=
  match s.get_instrument instrument_idx with
  | none => some (Except.error PercolatorError.InvalidInstrument, s)
  | some ins =>
    let head := match side with
      | Side.Buy => ins.bids_head
      | Side.Sell => ins.asks_head
    match walkLoop side limit_px fuel s head qty 0 limit_px NIL NIL with
    | none => none
    | some (Except.error e, s) => some (Except.error e, s)
    | some (Except.ok (qty_left, total_notional, worst_px, slice_head), s) =>
      some (Except.ok (qty - qty_left, total_notional, worst_px, slice_head), s)

/-- `reserve` (reserve.rs). -/
def reserve (fuel : Nat) (s : SlabState) (account_idx instrument_idx : Nat) (side : Side)
    (qty limit_px ttl_ms : Nat) (_commitment_hash : List Nat) (route_id : Nat) :
    Option (Except PercolatorError ReserveResult × SlabState) :=
  match s.get_instrument instrument_idx with
  | none => some (Except.error PercolatorError.InvalidInstrument, s)
  | some ins =>
    if ¬ is_tick_aligned limit_px ins.tick then
      some (Except.error PercolatorError.PriceNotAligned, s)
    else if ¬ is_lot_aligned qty ins.lot then
      some (Except.error PercolatorError.QuantityNotAligned, s)
    else
      match s.reservations.alloc with
      | none => some (Except.error PercolatorError.PoolFull, s)
      | some (resv_idx, rp) =>
        let s := { s with reservations := rp }
        let (hold_id, hd) := s.header.nextHoldId
        let s := { s with header := hd }
        let contra_side := match side with
          | Side.Buy => Side.Sell
          | Side.Sell => Side.Buy
        match walk_and_reserve fuel s instrument_idx contra_side qty limit_px with
        | none => none
        | some (Except.error e, s) => some (Except.error e, s)
        | some (Except.ok (filled_qty, total_notional, worst_px, slice_head), s) =>
          let vwap_px := if filled_qty > 0 then calculate_vwap total_notional filled_qty
                         else limit_px
          let max_charge :=
            calculate_max_charge filled_qty worst_px ins.contract_size s.header.taker_fee
          let book_seqno := s.header.book_seqno
          let current_ts := s.header.current_ts
          let expiry_ms := satAdd64 current_ts ttl_ms
          let s := s.modifyReservation resv_idx (fun _ =>
            { hold_id := hold_id, route_id := route_id, account_idx := account_idx,
              instrument_idx := instrument_idx, side := side, qty := filled_qty,
              vwap_px := vwap_px, worst_px := worst_px, max_charge := max_charge,
              book_seqno := book_seqno, expiry_ms := expiry_ms,
              slice_head := slice_head, committed := false })
          some (Except.ok
            { hold_id := hold_id, vwap_px := vwap_px, worst_px := worst_px,
              max_charge := max_charge, expiry_ms := expiry_ms,
              book_seqno := book_seqno, filled_qty := filled_qty }, s)

end Solster

namespace Solster

/-! ## slab/src/matching/commit.rs -/

/-- `CommitResult` (commit.rs). -/
structure CommitResult where
  filled_qty : Nat
  avg_price : Nat
  total_fee : Nat
  total_debit : Nat
deriving DecidableEq, Repr

/-- `calculate_fee` (commit.rs): both sign branches compute
`notional * |fee_bps| / 10000` (`u128` multiply wraps on overflow). -/
def calculate_fee (notional : Nat) (fee_bps : Int) : Nat :=
  wrapMul128 notional fee_bps.natAbs / 10000

/-- `u128 as i128` cast (two's complement reinterpretation). -/
def u128AsI128 (x : Nat) : Int :=
  if x < 170141183460469231731687303715884105728 then (x : Int) else (x : Int) - 340282366920938463463374607431768211456

/-- `i128::saturating_sub`. -/
def satSubI128 (a b : Int) : Int := max I128MIN (min (a - b) I128MAX)

/-- `find_reservation` scan body over the reservation slots. -/
def findResvAux (hold_id : Nat) : List (Slot Reservation) → Nat → Option Nat
  | [], _ => none
  | sl :: rest, i =>
    if sl.used ∧ sl.val.hold_id = hold_id then some i
    else findResvAux hold_id rest (i + 1)

/-- `find_reservation` (commit.rs): linear scan by `hold_id`. -/
def find_reservation (s : SlabState) (hold_id : Nat) : Except PercolatorError Nat :=
  match findResvAux hold_id s.reservations.items 0 with
  | some i => Except.ok i
  | none => Except.error PercolatorError.ReservationNotFound

/-- The position-lookup loop of `update_position`. -/
def findPositionLoop (s : SlabState) (instrument_idx : Nat) :
    Nat → Nat → Option (Except PercolatorError (Option Nat))
  | 0, _ => none
  | fuel + 1, position_idx =>
    if position_idx = NIL then some (Except.ok none)
    else
      match s.positions.get position_idx with
      | none => some (Except.error PercolatorError.PositionNotFound)
      | some pos =>
        if pos.instrument_idx = instrument_idx then some (Except.ok (some position_idx))
        else findPositionLoop s instrument_idx fuel pos.next_in_account

/-- The search-and-unlink loop of `remove_position` (succeeds silently
when the position is not reachable). -/
def removePositionLoop (s : SlabState) (account_idx position_idx : Nat) :
    Nat → Nat → Nat → Option (Except PercolatorError Unit × SlabState)
  | 0, _, _ => none
  | fuel + 1, curr, prev =>
    if curr = NIL then some (Except.ok (), s)
    else if curr = position_idx then
      match s.positions.get curr with
      | none => some (Except.error PercolatorError.PositionNotFound, s)
      | some pos =>
        let nxt := pos.next_in_account
        let s :=
          if prev = NIL then
            s.modifyAccount account_idx (fun a => { a with position_head := nxt })
          else
            s.modifyPosition prev (fun p => { p with next_in_account := nxt })
        let s := { s with positions := s.positions.free position_idx }
        some (Except.ok (), s)
    else
      match s.positions.get curr with
      | none => some (Except.ok (), s)
      | some pos => removePositionLoop s account_idx position_idx fuel pos.next_in_account curr

/-- `remove_position` (commit.rs). -/
def remove_position (fuel : Nat) (s : SlabState) (account_idx position_idx : Nat) :
    Option (Except PercolatorError Unit × SlabState) :=
  match s.get_account account_idx with
  | none => some (Except.error PercolatorError.InvalidAccount, s)
  | some account => removePositionLoop s account_idx position_idx fuel account.position_head NIL

/-- `update_position` (commit.rs): find-or-create with VWAP / flat / flip
handling. -/
def update_position (fuel : Nat) (s : SlabState) (account_idx instrument_idx : Nat)
    (qty_delta : Int) (price : Nat) (cum_funding : Int) :
    Option (Except PercolatorError Unit × SlabState) :=
  match s.get_account account_idx with
  | none => some (Except.error PercolatorError.InvalidAccount, s)
  | some account =>
    match findPositionLoop s instrument_idx fuel account.position_head with
    | none => none
    | some (Except.error e) => some (Except.error e, s)
    | some (Except.ok (some position_idx)) =>
      match s.positions.get position_idx with
      | none => some (Except.ok (), s)
      | some pos =>
        let new_qty := wrapI64 (pos.qty + qty_delta)
        if new_qty = 0 then
          let pnl := calculate_pnl pos.qty pos.entry_px price
          let s := s.modifyAccount account_idx (fun a => { a with cash := satAddI128 a.cash pnl })
          remove_position fuel s account_idx position_idx
        else if (pos.qty > 0 ∧ new_qty > 0) ∨ (pos.qty < 0 ∧ new_qty < 0) then
          let abs_old := pos.qty.natAbs
          let abs_delta := qty_delta.natAbs
          let old_notional := mul_u64 abs_old pos.entry_px
          let delta_notional := mul_u64 abs_delta price
          let new_notional := satAdd128 old_notional delta_notional
          let s := s.modifyPosition position_idx (fun p =>
            { p with entry_px := calculate_vwap new_notional (abs_old + abs_delta),
                     qty := new_qty })
          some (Except.ok (), s)
        else
          let pnl := calculate_pnl pos.qty pos.entry_px price
          let s := s.modifyAccount account_idx (fun a => { a with cash := satAddI128 a.cash pnl })
          let s := s.modifyPosition position_idx (fun p =>
            { p with qty := new_qty, entry_px := price, last_funding := cum_funding })
          some (Except.ok (), s)
    | some (Except.ok none) =>
      if qty_delta ≠ 0 then
        match s.positions.alloc with
        | none => some (Except.error PercolatorError.PoolFull, s)
        | some (pos_idx, pp) =>
          let s := { s with positions := pp }
          let s := s.modifyPosition pos_idx (fun _ =>
            { account_idx := account_idx, instrument_idx := instrument_idx,
              qty := qty_delta, entry_px := price, last_funding := cum_funding,
              next_in_account := account.position_head })
          let s := s.modifyAccount account_idx (fun a => { a with position_head := pos_idx })
          some (Except.ok (), s)
      else
        some (Except.ok (), s)

/-- `execute_trade` (commit.rs): positions for taker and maker, then the
trade record.  The `u64 → i64` casts wrap (release semantics). -/
def execute_trade (fuel : Nat) (s : SlabState) (taker_account_idx maker_account_idx : Nat)
    (instrument_idx : Nat) (side : Side) (qty price maker_order_id current_ts : Nat) :
    Option (Except PercolatorError Unit × SlabState) :=
  match s.get_instrument instrument_idx with
  | none => some (Except.error PercolatorError.InvalidInstrument, s)
  | some instrument =>
    let taker_qty : Int :=
      match side with
      | Side.Buy => wrapI64 (qty : Int)
      | Side.Sell => wrapI64 (-(wrapI64 (qty : Int)))
    match update_position fuel s taker_account_idx instrument_idx taker_qty price
        instrument.cum_funding with
    | none => none
    | some (Except.error e, s) => some (Except.error e, s)
    | some (Except.ok _, s) =>
      let maker_qty := wrapI64 (-taker_qty)
      match update_position fuel s maker_account_idx instrument_idx maker_qty price
          instrument.cum_funding with
      | none => none
      | some (Except.error e, s) => some (Except.error e, s)
      | some (Except.ok _, s) =>
        let trade : Trade :=
          { ts := current_ts, order_id_maker := maker_order_id, order_id_taker := 0,
            instrument_idx := instrument_idx, side := side, price := price, qty := qty,
            reveal_ms := current_ts }
        some (Except.ok (), s.record_trade trade)

/-- `remove_order_from_book` (commit.rs): delegates to `book::remove_order`. -/
def remove_order_from_book (s : SlabState) (instrument_idx order_idx : Nat) :
    Except PercolatorError Unit × SlabState :=
  remove_order s instrument_idx order_idx

/-- The slice-execution loop of `execute_slices`, carrying
`(total_qty, total_notional, total_fee)`. -/
def executeSlicesLoop (taker_account_idx instrument_idx : Nat) (side : Side)
    (current_ts : Nat) :
    Nat → SlabState → Nat → Nat → Nat → Nat →
    Option (Except PercolatorError (Nat × Nat × Nat) × SlabState)
  | 0, _, _, _, _, _ => none
  | fuel + 1, s, curr_slice_idx, total_qty, total_notional, total_fee =>
    if curr_slice_idx = NIL then
      some (Except.ok (total_qty, total_notional, total_fee), s)
    else
      match s.slices.get curr_slice_idx with
      | none => some (Except.error PercolatorError.InvalidReservation, s)
      | some slice =>
        let order_idx := slice.order_idx
        let qty := slice.qty
        let next_slice := slice.next
        match s.orders.get order_idx with
        | none => some (Except.error PercolatorError.OrderNotFound, s)
        | some order =>
          let maker_account_idx := order.account_idx
          let price := order.price
          match execute_trade (fuel + 1) s taker_account_idx maker_account_idx
              instrument_idx side qty price order.order_id current_ts with
          | none => none
          | some (Except.error e, s) => some (Except.error e, s)
          | some (Except.ok _, s) =>
            let notional := mul_u64 qty price
            let taker_fee := calculate_fee notional (s.header.taker_fee : Int)
            let maker_fee := calculate_fee notional s.header.maker_fee
            let total_qty := satAdd64 total_qty qty
            let total_notional := satAdd128 total_notional notional
            let total_fee := satAdd128 total_fee taker_fee
            let s := s.modifyAccount maker_account_idx (fun maker =>
              if s.header.maker_fee ≥ 0 then
                { maker with cash := satSubI128 maker.cash (u128AsI128 maker_fee) }
              else
                { maker with cash := satAddI128 maker.cash (u128AsI128 maker_fee) })
            match s.orders.get order_idx with
            | none => executeSlicesLoop taker_account_idx instrument_idx side current_ts
                fuel s next_slice total_qty total_notional total_fee
            | some o2 =>
              let new_order_qty := o2.qty - qty
              let s := s.modifyOrder order_idx (fun o => { o with qty := o.qty - qty })
              if new_order_qty = 0 then
                match remove_order_from_book s instrument_idx order_idx with
                | (Except.error e, s) => some (Except.error e, s)
                | (Except.ok _, s) =>
                  let s := { s with orders := s.orders.free order_idx }
                  executeSlicesLoop taker_account_idx instrument_idx side current_ts
                    fuel s next_slice total_qty total_notional total_fee
              else
                executeSlicesLoop taker_account_idx instrument_idx side current_ts
                  fuel s next_slice total_qty total_notional total_fee

/-- `execute_slices` (commit.rs). -/
def execute_slices (fuel : Nat) (s : SlabState) (slice_head taker_account_idx : Nat)
    (instrument_idx : Nat) (side : Side) (current_ts : Nat) :
    Option (Except PercolatorError (Nat × Nat × Nat) × SlabState) :=
  executeSlicesLoop taker_account_idx instrument_idx side current_ts fuel s slice_head 0 0 0

/-- The loop of `free_slices`. -/
def freeSlicesLoop :
    Nat → SlabState → Nat → Option (Except PercolatorError Unit × SlabState)
  | 0, _, _ => none
  | fuel + 1, s, curr_idx =>
    if curr_idx = NIL then some (Except.ok (), s)
    else
      match s.slices.get curr_idx with
      | none => some (Except.error PercolatorError.InvalidReservation, s)
      | some slice =>
        let s := s.modifyOrder slice.order_idx (fun o =>
          { o with reserved_qty := o.reserved_qty - slice.qty })
        let s := { s with slices := s.slices.free curr_idx }
        freeSlicesLoop fuel s slice.next

/-- `free_slices` (commit.rs): release slice locks (`saturating_sub` on
`reserved_qty` is `Nat` subtraction). -/
def free_slices (fuel : Nat) (s : SlabState) (slice_head : Nat) :
    Option (Except PercolatorError Unit × SlabState) :=
  freeSlicesLoop fuel s slice_head

/-- `commit` (commit.rs). -/
def commit (fuel : Nat) (s : SlabState) (hold_id current_ts : Nat) :
    Option (Except PercolatorError CommitResult × SlabState) :=
  match find_reservation s hold_id with
  | Except.error e => some (Except.error e, s)
  | Except.ok resv_idx =>
    match s.reservations.get resv_idx with
    | none => some (Except.error PercolatorError.ReservationNotFound, s)
    | some resv =>
      if current_ts > resv.expiry_ms then
        some (Except.error PercolatorError.ReservationExpired, s)
      else if resv.committed then
        some (Except.error PercolatorError.InvalidReservation, s)
      else
        match execute_slices fuel s resv.slice_head resv.account_idx resv.instrument_idx
            resv.side current_ts with
        | none => none
        | some (Except.error e, s) => some (Except.error e, s)
        | some (Except.ok (filled_qty, total_notional, total_fee), s) =>
          let avg_price := if filled_qty > 0 then calculate_vwap total_notional filled_qty else 0
          let total_debit := satAdd128 total_notional total_fee
          let s := s.modifyReservation resv_idx (fun r => { r with committed := true })
          match free_slices fuel s resv.slice_head with
          | none => none
          | some (Except.error e, s) => some (Except.error e, s)
          | some (Except.ok _, s) =>
            some (Except.ok
              { filled_qty := filled_qty, avg_price := avg_price,
                total_fee := total_fee, total_debit := total_debit }, s)

/-- `cancel` (commit.rs). -/
def cancel (fuel : Nat) (s : SlabState) (hold_id : Nat) :
    Option (Except PercolatorError Unit × SlabState) :=
  match find_reservation s hold_id with
  | Except.error e => some (Except.error e, s)
  | Except.ok resv_idx =>
    match s.reservations.get resv_idx with
    | none => some (Except.error PercolatorError.ReservationNotFound, s)
    | some resv =>
      if resv.committed then
        some (Except.error PercolatorError.InvalidReservation, s)
      else
        match free_slices fuel s resv.slice_head with
        | none => none
        | some (Except.error e, s) => some (Except.error e, s)
        | some (Except.ok _, s) =>
          let s := { s with reservations := s.reservations.free resv_idx }
          some (Except.ok (), s)

/-! ## slab/src/matching/risk.rs -/

/-- The position walk of `calculate_margin_requirements`, accumulating
`(im_total, mm_total)` with saturating `u128` adds. -/
def marginLoop (s : SlabState) :
    Nat → Nat → Nat → Nat → Option (Except PercolatorError (Nat × Nat))
  | 0, _, _, _ => none
  | fuel + 1, pos_idx, im_total, mm_total =>
    if pos_idx = NIL then some (Except.ok (im_total, mm_total))
    else
      match s.positions.get pos_idx with
      | none => some (Except.error PercolatorError.PositionNotFound)
      | some pos =>
        match s.get_instrument pos.instrument_idx with
        | none => some (Except.error PercolatorError.InvalidInstrument)
        | some instrument =>
          let im := calculate_im pos.qty instrument.contract_size instrument.index_price
            s.header.imr
          let mm := calculate_mm pos.qty instrument.contract_size instrument.index_price
            s.header.mmr
          marginLoop s fuel pos.next_in_account (satAdd128 im_total im) (satAdd128 mm_total mm)

/-- `calculate_margin_requirements` (risk.rs). -/
def calculate_margin_requirements (fuel : Nat) (s : SlabState) (account_idx : Nat) :
    Option (Except PercolatorError (Nat × Nat)) :=
  match s.get_account account_idx with
  | none => some (Except.error PercolatorError.InvalidAccount)
  | some account => marginLoop s fuel account.position_head 0 0

/-! ## slab/src/instructions/commit.rs -/

/-- `process_commit` (instructions/commit.rs): validates the timestamp,
unconditionally overwrites `header.current_ts`, then delegates to
`commit`. -/
def process_commit (fuel : Nat) (s : SlabState) (hold_id current_ts : Nat) :
    Option (Except PercolatorError CommitResult × SlabState) :=
  if current_ts = 0 then some (Except.error PercolatorError.InvalidInstruction, s)
  else
    let s := { s with header := { s.header with current_ts := current_ts } }
    commit fuel s hold_id current_ts

end Solster

namespace Solster

/-! ## Concrete states for witnesses and counterexamples -/

/-- `Order::default()` analogue for pool initialisation. -/
def defOrder : Order :=
  { order_id := 0, account_idx := 0, instrument_idx := 0, side := Side.Buy,
    state := OrderState.LIVE, eligible_epoch := 0, price := 0, qty := 0,
    reserved_qty := 0, next := 0, prev := 0 }

/-- `Position::default()` analogue. -/
def defPosition : Position :=
  { account_idx := 0, instrument_idx := 0, qty := 0, entry_px := 0,
    last_funding := 0, next_in_account := 0 }

/-- `Reservation::default()` analogue. -/
def defReservation : Reservation :=
  { hold_id := 0, route_id := 0, account_idx := 0, instrument_idx := 0,
    side := Side.Buy, qty := 0, vwap_px := 0, worst_px := 0, max_charge := 0,
    book_seqno := 0, expiry_ms := 0, slice_head := 0, committed := false }

/-- `Slice::default()` analogue. -/
def defSlice : Slice := { order_idx := 0, qty := 0, next := 0 }

/-- `Trade::default()` analogue. -/
def defTrade : Trade :=
  { ts := 0, order_id_maker := 0, order_id_taker := 0, instrument_idx := 0,
    side := Side.Buy, price := 0, qty := 0, reveal_ms := 0 }

/-- `Pool::new()`: all slots free, slot `i`'s next-free pointing to `i+1`. -/
def freshPool (d : α) (n : Nat) : Pool α :=
  { items := (List.range n).map (fun i => { val := d, nextFree := i + 1, used := false }),
    free_head := 0, used_count := 0 }

/-- A used pool slot. -/
def usedSlot (a : α) : Slot α := { val := a, nextFree := 0, used := true }

/-- A free pool slot with explicit freelist pointer. -/
def freeSlot (d : α) (nf : Nat) : Slot α := { val := d, nextFree := nf, used := false }

/-- A resting ask maker order `order_id 1` owned by account 1:
price 70, qty 10, alone in the live ask list. -/
def askOrder70 : Order :=
  { order_id := 1, account_idx := 1, instrument_idx := 0, side := Side.Sell,
    state := OrderState.LIVE, eligible_epoch := 0, price := 70, qty := 10,
    reserved_qty := 0, next := NIL, prev := NIL }

/-- Test header: zero fees and margin, `next_hold_id 1`, `current_ts 1000`. -/
def hdr0 : SlabHeader :=
  { imr := 0, mmr := 0, maker_fee := 0, taker_fee := 0, next_order_id := 2,
    next_hold_id := 1, book_seqno := 5, current_ts := 1000 }

/-- Test instrument: tick/lot/contract_size 1, single live ask at slot 0. -/
def inst0 : Instrument :=
  { contract_size := 1, tick := 1, lot := 1, index_price := 70, cum_funding := 0,
    bids_head := NIL, asks_head := 0, bids_pending_head := NIL,
    asks_pending_head := NIL, epoch := 0 }

/-- Base slab: two active accounts, one instrument, one resting ask
(70 × 10) at order slot 0, everything else fresh. -/
def slab1 : SlabState :=
  { header := hdr0,
    accounts := [ { cash := 0, position_head := NIL, active := true },
                  { cash := 0, position_head := NIL, active := true } ],
    instruments := [inst0],
    instrument_count := 1,
    orders := { items := [usedSlot askOrder70, freeSlot defOrder 2, freeSlot defOrder 3],
                free_head := 1, used_count := 1 },
    positions := freshPool defPosition 4,
    reservations := freshPool defReservation 2,
    slices := freshPool defSlice 4,
    trades := [defTrade, defTrade, defTrade, defTrade],
    trade_head := 0, trade_count := 0 }

end Solster

namespace Solster

/-! ## Observers used to state the claims -/

/-- Total reserved quantity for `order_idx` along one slice chain
(`none` when the chain is broken or exceeds `fuel`). -/
def sliceChainQty (s : SlabState) (order_idx : Nat) : Nat → Nat → Option Nat
  | 0, i => if i = NIL then some 0 else none
  | fuel + 1, i =>
    if i = NIL then some 0
    else
      match s.slices.get i with
      | none => none
      | some sl =>
        (sliceChainQty s order_idx fuel sl.next).map
          (fun r => (if sl.order_idx = order_idx then sl.qty else 0) + r)

/-- Sum of `S.qty` over all slices referencing `order_idx` that belong to
used, uncommitted reservations (spec invariant 1's right-hand side). -/
def liveResvSliceSum (s : SlabState) (order_idx fuel : Nat) : Option Nat :=
  (s.reservations.items.mapM (fun sl =>
    if sl.used ∧ ¬ sl.val.committed then sliceChainQty s order_idx fuel sl.val.slice_head
    else some 0)).map List.sum

/-- Traversal of an order list from a head index, collecting
`(index, order)` pairs; `none` on a broken link or fuel exhaustion. -/
def chainFrom (s : SlabState) : Nat → Nat → Option (List (Nat × Order))
  | 0, h => if h = NIL then some [] else none
  | fuel + 1, h =>
    if h = NIL then some []
    else
      match s.orders.get h with
      | none => none
      | some o => (chainFrom s fuel o.next).map ((h, o) :: ·)

/-- Price-time priority for bids: along the list, prices non-increasing
and equal prices in ascending `order_id`. -/
def bidSortedB : List Order → Bool
  | [] => true
  | [_] => true
  | a :: b :: rest =>
    (decide (b.price < a.price ∨ (b.price = a.price ∧ a.order_id ≤ b.order_id))) &&
      bidSortedB (b :: rest)

/-- Price-time priority for asks: prices non-decreasing, ties ascending
`order_id`. -/
def askSortedB : List Order → Bool
  | [] => true
  | [_] => true
  | a :: b :: rest =>
    (decide (a.price < b.price ∨ (a.price = b.price ∧ a.order_id ≤ b.order_id))) &&
      askSortedB (b :: rest)

/-- Priority order by side. -/
def sortedByB (side : Side) (l : List Order) : Bool :=
  match side with
  | Side.Buy => bidSortedB l
  | Side.Sell => askSortedB l

/-- `prev` back-links consistent along a collected chain whose predecessor
is `p` (`NIL` for the head). -/
def prevChainB : Nat → List (Nat × Order) → Bool
  | _, [] => true
  | p, (i, o) :: rest => (decide (o.prev = p)) && prevChainB i rest

/-- Every order in the chain carries the given side and state (spec
invariant 5; `remove_order` relies on it to pick the right head). -/
def sideStateB (side : Side) (st : OrderState) (l : List (Nat × Order)) : Bool :=
  l.all (fun x => decide (x.2.side = side ∧ x.2.state = st))

/-- The freelist reachable from `free_head` (terminated by an index
`≥ capacity`); `none` on a used slot, broken link, or fuel exhaustion. -/
def freelistFrom (p : Pool α) : Nat → Nat → Option (List Nat)
  | 0, _ => none
  | fuel + 1, h =>
    if p.items.length ≤ h then some []
    else
      match p.items.get? h with
      | none => none
      | some sl =>
        if sl.used then none
        else (freelistFrom p fuel sl.nextFree).map (h :: ·)

/-- Pool well-formedness: the freelist is a duplicate-free chain of
unused in-range slots. -/
def poolWFb (p : Pool α) : Bool :=
  match freelistFrom p (p.items.length + 1) p.free_head with
  | some l => decide l.Nodup
  | none => false

/-- Traversal of a position chain, collecting `(index, position)` pairs. -/
def posChainFrom (s : SlabState) : Nat → Nat → Option (List (Nat × Position))
  | 0, h => if h = NIL then some [] else none
  | fuel + 1, h =>
    if h = NIL then some []
    else
      match s.positions.get h with
      | none => none
      | some pos => (posChainFrom s fuel pos.next_in_account).map ((h, pos) :: ·)

/-- Scale the (signed) quantity of every position in the pool by `k`
(the hypothetical transformation quantified over in the margin
monotonicity claim). -/
def scaleSlab (s : SlabState) (k : Nat) : SlabState :=
  { s with positions := { s.positions with
      items := s.positions.items.map (fun sl =>
        { sl with val := { sl.val with qty := (k : Int) * sl.val.qty } }) } }

end Solster

namespace Solster

/-- Ask 70 × 5 at slot 0, linked to slot 1. -/
def ask70q5 : Order := { askOrder70 with qty := 5, next := 1 }

/-- Ask 80 × 5 at slot 1 (tail of the two-order book). -/
def ask80q5 : Order :=
  { askOrder70 with order_id := 2, price := 80, qty := 5, next := NIL, prev := 0 }

/-- Ask 90 × 5 at slot 2 (tail of the three-order book). -/
def ask90q5 : Order :=
  { askOrder70 with order_id := 3, price := 90, qty := 5, next := NIL, prev := 1 }

/-- Slab with two resting asks (70 × 5, 80 × 5) and a slice pool of
capacity 1: a walk needing two slices exhausts it mid-walk. -/
def slab2 : SlabState :=
  { slab1 with
    orders := { items := [usedSlot ask70q5, usedSlot ask80q5, freeSlot defOrder 3],
                free_head := 2, used_count := 2 },
    slices := freshPool defSlice 1 }

/-- Slab with three resting asks (70, 80, 90, 5 each) and a slice pool of
capacity 2. -/
def slab3 : SlabState :=
  { slab1 with
    orders := { items := [usedSlot ask70q5, usedSlot { ask80q5 with next := 2 },
                  usedSlot ask90q5, freeSlot defOrder 4],
                free_head := 3, used_count := 3 },
    slices := freshPool defSlice 2 }

/-- Slab with one account holding a long position 5 @ 100 at slot 0. -/
def longPos5at100 : Position :=
  { account_idx := 0, instrument_idx := 0, qty := 5, entry_px := 100,
    last_funding := 7, next_in_account := NIL }

def slab4 : SlabState :=
  { slab1 with
    accounts := [ { cash := 50, position_head := 0, active := true },
                  { cash := 0, position_head := NIL, active := true } ],
    positions :=
      { items := [usedSlot longPos5at100, freeSlot defPosition 2,
                  freeSlot defPosition 3, freeSlot defPosition 4],
        free_head := 1, used_count := 1 } }

/-- Slab for book mutations: three live asks 70/80/90 at slots 0‑2, a
detached live order (75 × 5, id 9) at slot 3 ready for insertion, and a
pending ask (85 × 5, id 10, eligible epoch 0) at slot 4. -/
def detachedAsk75 : Order :=
  { askOrder70 with order_id := 9, price := 75, qty := 5, next := NIL, prev := NIL }

def pendingAsk85 : Order :=
  { askOrder70 with
    order_id := 10, price := 85, qty := 5,
    state := OrderState.PENDING, eligible_epoch := 0, next := NIL, prev := NIL }

def slab5 : SlabState :=
  { slab1 with
    instruments := [ { inst0 with asks_pending_head := 4 } ],
    orders :=
      { items := [usedSlot ask70q5, usedSlot { ask80q5 with next := 2 },
          usedSlot ask90q5, usedSlot detachedAsk75, usedSlot pendingAsk85,
          freeSlot defOrder 6],
        free_head := 5, used_count := 5 } }

/-- Slab exhibiting inexact `/ 10000` in the margin formulas: one position
of qty 1 on an instrument with `contract_size = index_price = 1` and
`imr = mmr = 5000` bps. -/
def unitPos : Position :=
  { account_idx := 0, instrument_idx := 0, qty := 1, entry_px := 1,
    last_funding := 0, next_in_account := NIL }

def slab7 : SlabState :=
  { slab4 with
    header := { hdr0 with imr := 5000, mmr := 5000 },
    instruments := [ { inst0 with contract_size := 1, index_price := 1 } ],
    positions :=
      { items := [usedSlot unitPos, freeSlot defPosition 2,
                  freeSlot defPosition 3, freeSlot defPosition 4],
        free_head := 1, used_count := 1 } }

end Solster

namespace Solster

/-- A committed reservation: hold 1, expiry 2000, no slices. -/
def resvCommitted : Reservation :=
  { defReservation with
    hold_id := 1, expiry_ms := 2000, committed := true, slice_head := NIL }

/-- Slab with the committed reservation `resvCommitted` in slot 0. -/
def slab8 : SlabState :=
  { slab1 with
    reservations := { items := [usedSlot resvCommitted, freeSlot defReservation 2],
                      free_head := 1, used_count := 1 } }

/-- Per-slot side conditions under which the margin formulas scale
exactly by `k`: for every used position slot whose instrument resolves,
the `/ 10000` divisions are exact and the scaled products fit in `u128`. -/
def marginScaleHypB (s : SlabState) (k : Nat) (sl : Slot Position) : Bool :=
  !sl.used ||
  (match s.get_instrument sl.val.instrument_idx with
   | none => true
   | some ins =>
     decide (10000 ∣ sl.val.qty.natAbs * ins.contract_size * ins.index_price * s.header.imr) &&
     decide (10000 ∣ sl.val.qty.natAbs * ins.contract_size * ins.index_price * s.header.mmr) &&
     decide (k * sl.val.qty.natAbs * ins.contract_size * ins.index_price * s.header.imr <
       U128MOD) &&
     decide (k * sl.val.qty.natAbs * ins.contract_size * ins.index_price * s.header.mmr <
       U128MOD))

/-- A two-lot position: `|qty| * contract_size * index_price * imr_bps`
is exactly 10000, so the margin division is exact. -/
def twoLotPos : Position :=
  { account_idx := 0, instrument_idx := 0, qty := 2, entry_px := 1,
    last_funding := 0, next_in_account := NIL }

/-- Like `slab7` but with a qty-2 position: margins divide exactly. -/
def slab9 : SlabState :=
  { slab7 with
    positions :=
      { items := [usedSlot twoLotPos, freeSlot defPosition 2,
                  freeSlot defPosition 3, freeSlot defPosition 4],
        free_head := 1, used_count := 1 } }

/-- All used order slots carry a `qty` representable in `u64` (every
state decoded from a real slab satisfies this by typing). -/
def ordersQtyBounded (p : Pool Order) : Bool :=
  p.items.all (fun sl => !sl.used || decide (sl.val.qty ≤ U64MAX))

/-- `sliceSeg s h l t`: starting from index `h`, following `next` links
visits exactly the slots `l` (with their records) and ends at link value
`t`. -/
def sliceSeg (s : SlabState) : Nat → List (Nat × Slice) → Nat → Prop
  | h, [], t => h = t
  | h, (i, sl) :: rest, t => h = i ∧ s.slices.get i = some sl ∧ sliceSeg s sl.next rest t

/-- The stable data of a slice chain: slot index, referenced order and
reserved quantity (the `next` links are excluded). -/
def chainData (l : List (Nat × Slice)) : List (Nat × Nat × Nat) :=
  l.map (fun x => (x.1, x.2.order_idx, x.2.qty))

/-- Total quantity a slice-data list reserves against order `j`. -/
def addsOf (d : List (Nat × Nat × Nat)) (j : Nat) : Nat :=
  (d.map (fun x => if x.2.1 = j then x.2.2 else 0)).sum

/-- Two slab states that agree on everything except the order and slice
pools. -/
def eqOffOrdersSlices (s s' : SlabState) : Prop :=
  s'.header = s.header ∧ s'.accounts = s.accounts ∧ s'.instruments = s.instruments ∧
  s'.instrument_count = s.instrument_count ∧ s'.positions = s.positions ∧
  s'.reservations = s.reservations ∧ s'.trades = s.trades ∧
  s'.trade_head = s.trade_head ∧ s'.trade_count = s.trade_count

/-- Outcome package of a successful `walkLoop` run from state `s` to
state `s\'` returning head `sh\'`, relative to an already-built chain `C`:
the final chain extends `C`\'s data by fresh slices `D`, the slice pool
grew by `|D|`, and each order\'s `reserved_qty` grew by the quantities `D`
reserves against it. -/
def walkTraceOut (s s' : SlabState) (sh' : Nat) (C : List (Nat × Slice)) (fuel : Nat) : Prop :=
  ∃ E D,
    sliceSeg s' sh' E NIL ∧
    (E.map Prod.fst).Nodup ∧
    chainData E = chainData C ++ D ∧
    D.length < fuel ∧
    s'.slices.used_count = s.slices.used_count + D.length ∧
    s'.slices.items.length = s.slices.items.length ∧
    poolWFb s'.slices = true ∧
    ordersQtyBounded s'.orders = true ∧
    (∀ j : Nat, s'.orders.get j = (s.orders.get j).map
      (fun o => { o with reserved_qty := o.reserved_qty + addsOf D j })) ∧
    eqOffOrdersSlices s s'

/-- Result of the sample reserve on `slab1` (Buy 10 limit 60). -/
def c6res : ReserveResult :=
  match reserve 20 slab1 0 0 Side.Buy 10 60 1000 [] 0 with
  | some (Except.ok r, _) => r
  | _ => { hold_id := 0, vwap_px := 0, worst_px := 0, max_charge := 0, expiry_ms := 0,
           book_seqno := 0, filled_qty := 0 }

/-- Post-state of the sample reserve on `slab1`. -/
def c6post : SlabState :=
  match reserve 20 slab1 0 0 Side.Buy 10 60 1000 [] 0 with
  | some (_, s) => s
  | none => slab1

/-- `orderSegT s h l t`: starting from order index `h` and following
`next` links, the traversal visits exactly the pairs in `l` and ends at
link value `t`. -/
def orderSegT (s : SlabState) : Nat → List (Nat × Order) → Nat → Prop
  | h, [], t => h = t
  | h, (i, o) :: rest, t => h = i ∧ s.orders.get i = some o ∧ orderSegT s o.next rest t

/-- The `should_insert_before` test of `insert_order`'s search loop. -/
def insBefore (side : Side) (price new_order_id : Nat) (curr : Order) : Bool :=
  match side with
  | Side.Buy =>
      decide (price > curr.price ∨ (price = curr.price ∧ new_order_id < curr.order_id))
  | Side.Sell =>
      decide (price < curr.price ∨ (price = curr.price ∧ new_order_id < curr.order_id))

/-- Priority comparison on the `(price, order_id)` projection. -/
def pairPI (side : Side) (a b : Nat × Nat) : Bool :=
  match side with
  | Side.Buy => decide (b.1 < a.1 ∨ (b.1 = a.1 ∧ a.2 ≤ b.2))
  | Side.Sell => decide (a.1 < b.1 ∨ (a.1 = b.1 ∧ a.2 ≤ b.2))

/-- Price-time sortedness on `(price, order_id)` projections. -/
def sortedPI (side : Side) : List (Nat × Nat) → Bool
  | [] => true
  | [_] => true
  | a :: b :: rest => pairPI side a b && sortedPI side (b :: rest)

/-- The `(price, order_id)` projection of an order. -/
def prId (o : Order) : Nat × Nat := (o.price, o.order_id)

/-- Well-formed sorted book list of `(side, state)` on instrument `ii`:
the head pointer reaches exactly the chain `C`, with distinct slots,
consistent back-links, price-time sortedness and homogeneous
side/state. -/
def bookInv (s : SlabState) (ii : Nat) (side : Side) (st : OrderState)
    (C : List (Nat × Order)) : Prop :=
  ∃ ins, s.get_instrument ii = some ins ∧
    orderSegT s (ins.headOf side st) C NIL ∧
    (C.map Prod.fst).Nodup ∧ prevChainB NIL C = true ∧
    sortedByB side (C.map Prod.snd) = true ∧ sideStateB side st C = true

/-- The state built by `insert_order` when the target list is empty. -/
def insertedHeadState (s : SlabState) (ii oi : Nat) (side : Side) (st : OrderState) :
    SlabState :=
  let s1 := s.modifyOrder oi (fun o => { o with next := NIL, prev := NIL })
  let s2 := s1.modifyInstrument ii (fun i => i.setHead side st oi)
  { s2 with header := s2.header.incrementBookSeqno }

/-- The state built by `insert_order` when splicing between `p` and `c`. -/
def insertedState (s : SlabState) (ii oi : Nat) (side : Side) (st : OrderState)
    (p c : Nat) : SlabState :=
  let s1 := s.modifyOrder oi (fun o => { o with next := c, prev := p })
  let s2 :=
    if p = NIL then s1.modifyInstrument ii (fun i => i.setHead side st oi)
    else s1.modifyOrder p (fun o => { o with next := oi })
  let s3 := if c ≠ NIL then s2.modifyOrder c (fun o => { o with prev := oi }) else s2
  { s3 with header := s3.header.incrementBookSeqno }

/-- The state built by `remove_order` unlinking the order `o`. -/
def removedState (s : SlabState) (ii : Nat) (o : Order) : SlabState :=
  let s1 :=
    if o.prev = NIL then s.modifyInstrument ii (fun i => i.setHead o.side o.state o.next)
    else s.modifyOrder o.prev (fun p => { p with next := o.next })
  let s2 := if o.next ≠ NIL then s1.modifyOrder o.next (fun n => { n with prev := o.prev }) else s1
  { s2 with header := s2.header.incrementBookSeqno }

/-- The state after running the pending-promotion loop on `slab5`
(ask side, epoch 0): the eligible pending ask 85 is spliced between the
resting asks 80 and 90. -/
def slab5post : SlabState :=
  match promote_side slab5 0 Side.Sell 0 10 with
  | some (Except.ok (), s) => s
  | _ => slab5

/-- Decidable equality for `Except` results. -/
instance {ε α : Type} [DecidableEq ε] [DecidableEq α] : DecidableEq (Except ε α) := fun x y =>
  match x, y with
  | Except.error a, Except.error b =>
    if h : a = b then Decidable.isTrue (congrArg Except.error h)
    else Decidable.isFalse (fun hh => h (by cases hh; rfl))
  | Except.error a, Except.ok b => Decidable.isFalse (fun hh => Except.noConfusion hh)
  | Except.ok a, Except.error b => Decidable.isFalse (fun hh => Except.noConfusion hh)
  | Except.ok a, Except.ok b =>
    if h : a = b then Decidable.isTrue (congrArg Except.ok h)
    else Decidable.isFalse (fun hh => h (by cases hh; rfl))

/-!
## Theorems

Everything below is a theorem; no further definitions are introduced.
-/

/-- C1.  The claim is falsified by the code: `walk_and_reserve` receives the
contra (maker) side but applies the crossing test written for the taker
side, so the comparisons are inverted.  On `slab1` (single live ask
70 × 10, tick = lot = 1):
* a taker Buy with `limit_px = 60` *fills* 10 @ 70 — the created slice
  references an order priced 70 > 60 and the returned `worst_px` is 70,
  beyond the buy limit in the disallowed direction;
* a taker Buy with `limit_px = 80` stops at the very first ask
  (70 < 80) and fills nothing, though the spec's stop rule
  (stop only at `p > limit_px`) requires it to fill 10 @ 70. -/
theorem claim_C1_reserve_crossing_check_inverted :
    ((reserve 20 slab1 0 0 Side.Buy 10 60 1000 [] 0).map (fun x =>
        (x.1.toOption.map ReserveResult.filled_qty,
         x.1.toOption.map ReserveResult.worst_px,
         x.2.slices.get 0,
         (x.2.orders.get 0).map Order.price)) =
      some (some 10, some 70, some { order_idx := 0, qty := 10, next := NIL }, some 70))
    ∧ ((reserve 20 slab1 0 0 Side.Buy 10 80 1000 [] 0).map (fun x =>
        (x.1.toOption.map ReserveResult.filled_qty,
         x.1.toOption.map ReserveResult.worst_px)) =
      some (some 0, some 80))
    ∧ 70 > 60 := by
  refine ⟨by decide, by decide, by decide⟩

/-- C2.  The claim is falsified by the code: on `slab2` (asks 70 × 5 and
80 × 5, slice pool of capacity 1) a Buy reserve of 10 exhausts the slice
pool mid-walk and returns `PoolFull`, but the slab is *not* restored: the
reservation slot allocated at the start of `reserve` is still allocated
(`used_count` 0 → 1), the first slice is still allocated (`used_count`
0 → 1), and order 0's `reserved_qty` was left at 5 (was 0). -/
theorem claim_C2_failed_reserve_leaks_state :
    ((reserve 20 slab2 0 0 Side.Buy 10 60 1000 [] 0).map (fun x =>
        (x.1, x.2.reservations.used_count, x.2.slices.used_count,
         (x.2.orders.get 0).map Order.reserved_qty)) =
      some (Except.error PercolatorError.PoolFull, 1, 1, some 5))
    ∧ slab2.reservations.used_count = 0
    ∧ slab2.slices.used_count = 0
    ∧ (slab2.orders.get 0).map Order.reserved_qty = some 0 := by
  refine ⟨by decide, by decide, by decide, by decide⟩

set_option synthInstance.maxSize 512 in
/-- C3.  The claim is falsified by the code via the missing unwind in
`reserve` (same defect as C2).  Starting from the clean slab `slab3`
(asks 70/80/90 × 5, slice pool capacity 2) the operation sequence

  `reserve Buy 10 @ 60` (ok) ; `cancel hold 1` (ok) ; `reserve Buy 15 @ 60` (PoolFull)

ends in a state where order 0 has `reserved_qty = 5` while the sum of
slice quantities referencing order 0 over used, uncommitted reservations
is 0: the leaked slices belong to no reservation (the leaked reservation
slot still carries the stale, re-allocated data of the first, cancelled
reservation, whose `slice_head` chain does not reference order 0). -/
theorem claim_C3_reserved_qty_invariant_violated :
    ((reserve 20 slab3 0 0 Side.Buy 10 60 1000 [] 0).bind (fun x1 =>
      (cancel 20 x1.2 1).bind (fun x2 =>
        (reserve 20 x2.2 0 0 Side.Buy 15 60 1000 [] 0).map (fun x3 =>
          (x1.1.toOption.isSome, x2.1.toOption.isSome, x3.1,
           (x3.2.orders.get 0).map Order.reserved_qty,
           liveResvSliceSum x3.2 0 10))))) =
      some (true, true, Except.error PercolatorError.PoolFull, some 5, some 0)
    ∧ (5 : Nat) ≠ 0 := by
  refine ⟨by decide, by decide⟩

/-- C4.  The claim is falsified by the code: `commit` marks the
reservation `committed = true` and frees its slices but never calls
`reservations.free`, so the pool slot stays allocated.  On `slab1`,
after `reserve` (used count 1) a successful `commit` leaves the used
count at 1 — not one less — and slot 0 still holds the committed
reservation. -/
theorem claim_C4_commit_never_frees_reservation_slot :
    ((reserve 20 slab1 0 0 Side.Buy 10 60 1000 [] 0).bind (fun x1 =>
      (commit 20 x1.2 1 1500).map (fun x2 =>
        (x1.1.toOption.map ReserveResult.hold_id,
         x1.2.reservations.used_count,
         x2.1.toOption.isSome,
         x2.2.reservations.used_count,
         (x2.2.reservations.get 0).map Reservation.committed)))) =
      some (some 1, 1, true, 1, some true) := by
  decide

end Solster

namespace Solster

/-! ### Pool lemmas -/

theorem Pool.get_modifyUsed_self (p : Pool α) (i : Nat) (f : α → α) :
    (p.modifyUsed i f).get i = (p.get i).map f := by
  unfold Pool.modifyUsed Pool.get
  cases hp : p.items[i]? with
  | none => simp [hp]
  | some s =>
    by_cases hu : s.used
    · simp [hp, hu, List.getElem?_set_self', Option.map]
    · simp [hp, hu]

theorem Pool.get_modifyUsed_ne (p : Pool α) (i : Nat) (f : α → α) (j : Nat) (hij : i ≠ j) :
    (p.modifyUsed i f).get j = p.get j := by
  unfold Pool.modifyUsed Pool.get
  cases hp : p.items[i]? with
  | none => rfl
  | some s =>
    by_cases hu : s.used
    · simp [hp, hu, List.getElem?_set_ne hij]
    · simp [hp, hu]

theorem Pool.modifyUsed_used_count (p : Pool α) (i : Nat) (f : α → α) :
    (p.modifyUsed i f).used_count = p.used_count := by
  unfold Pool.modifyUsed
  cases hp : p.items[i]? with
  | none => rfl
  | some s => by_cases hu : s.used <;> simp [hu]

theorem Pool.modifyUsed_length (p : Pool α) (i : Nat) (f : α → α) :
    (p.modifyUsed i f).items.length = p.items.length := by
  unfold Pool.modifyUsed
  cases hp : p.items[i]? with
  | none => rfl
  | some s => by_cases hu : s.used <;> simp [hu]

theorem Pool.get_free_self (p : Pool α) (i : Nat) : (p.free i).get i = none := by
  unfold Pool.free Pool.get
  cases hp : p.items[i]? with
  | none => simp [hp]
  | some s =>
    by_cases hu : s.used
    · simp [hp, hu, List.getElem?_set_self']
    · simp [hp, hu]

theorem Pool.get_free_ne (p : Pool α) (i j : Nat) (hij : i ≠ j) :
    (p.free i).get j = p.get j := by
  unfold Pool.free Pool.get
  cases hp : p.items[i]? with
  | none => rfl
  | some s =>
    by_cases hu : s.used
    · simp [hp, hu, List.getElem?_set_ne hij]
    · simp [hp, hu]

theorem Pool.alloc_some (p : Pool α) (i : Nat) (p' : Pool α) (h : p.alloc = some (i, p')) :
    i = p.free_head ∧ p.used_count < p.items.length ∧
      ∃ sl, p.items[p.free_head]? = some sl ∧
        p' = { items := p.items.set p.free_head { sl with used := true },
               free_head := sl.nextFree, used_count := p.used_count + 1 } := by
  unfold Pool.alloc at h
  by_cases hc : p.used_count ≥ p.items.length
  · simp [hc] at h
  · simp only [hc, if_false] at h
    cases hp : p.items[p.free_head]? with
    | none => rw [hp] at h; exact absurd h (by simp)
    | some sl =>
      rw [hp] at h
      simp only [Option.some.injEq, Prod.mk.injEq] at h
      exact ⟨h.1.symm, Nat.lt_of_not_le hc, sl, rfl, h.2.symm⟩

end Solster

namespace Solster

/-! ### Header frame lemmas -/

theorem SlabState.modifyAccount_header (s : SlabState) (i : Nat) (f : AccountState → AccountState) :
    (s.modifyAccount i f).header = s.header := by
  unfold SlabState.modifyAccount
  cases s.accounts[i]? with
  | none => rfl
  | some a => by_cases h : a.active <;> simp [h]

theorem SlabState.modifyInstrument_header (s : SlabState) (i : Nat) (f : Instrument → Instrument) :
    (s.modifyInstrument i f).header = s.header := by
  unfold SlabState.modifyInstrument
  by_cases hi : i < s.instrument_count
  · simp only [hi, if_true]
    cases s.instruments[i]? with
    | none => rfl
    | some a => rfl
  · simp only [hi, if_false]

theorem freeSlicesLoop_header :
    ∀ fuel s curr r s', freeSlicesLoop fuel s curr = some (r, s') → s'.header = s.header := by
  intro fuel
  induction fuel with
  | zero => intro s curr r s' h; exact absurd h (by simp [freeSlicesLoop])
  | succ n ih =>
    intro s curr r s' h
    rw [freeSlicesLoop] at h
    by_cases hc : curr = NIL
    · rw [if_pos hc] at h
      cases h
      rfl
    · rw [if_neg hc] at h
      cases hg : s.slices.get curr with
      | none => rw [hg] at h; cases h; rfl
      | some slice =>
        rw [hg] at h
        exact (ih _ _ _ _ h).trans rfl

theorem removePositionLoop_header (s : SlabState) (acc pos : Nat) :
    ∀ fuel curr prev r s', removePositionLoop s acc pos fuel curr prev = some (r, s') →
      s'.header = s.header := by
  intro fuel
  induction fuel with
  | zero => intro curr prev r s' h; exact absurd h (by simp [removePositionLoop])
  | succ n ih =>
    intro curr prev r s' h
    rw [removePositionLoop] at h
    by_cases hc : curr = NIL
    · rw [if_pos hc] at h; cases h; rfl
    · rw [if_neg hc] at h
      by_cases he : curr = pos
      · rw [if_pos he] at h
        cases hg : s.positions.get curr with
        | none => rw [hg] at h; cases h; rfl
        | some p =>
          rw [hg] at h
          cases h
          by_cases hp : prev = NIL
          · rw [if_pos hp]
            exact (SlabState.modifyAccount_header _ _ _)
          · rw [if_neg hp]
            rfl
      · rw [if_neg he] at h
        cases hg : s.positions.get curr with
        | none => rw [hg] at h; cases h; rfl
        | some p =>
          rw [hg] at h
          exact ih _ _ _ _ h

theorem remove_position_header (fuel : Nat) (s : SlabState) (acc pos : Nat) (r : Except PercolatorError Unit) (s' : SlabState)
    (h : remove_position fuel s acc pos = some (r, s')) : s'.header = s.header := by
  unfold remove_position at h
  cases hg : s.get_account acc with
  | none => rw [hg] at h; cases h; rfl
  | some account =>
    rw [hg] at h
    exact removePositionLoop_header s acc pos fuel _ _ _ _ h

end Solster

namespace Solster

@[simp] theorem SlabState.modifyOrder_header (s : SlabState) (i : Nat) (f : Order → Order) :
    (s.modifyOrder i f).header = s.header := rfl

@[simp] theorem SlabState.modifyPosition_header (s : SlabState) (i : Nat) (f : Position → Position) :
    (s.modifyPosition i f).header = s.header := rfl

@[simp] theorem SlabState.modifyReservation_header (s : SlabState) (i : Nat)
    (f : Reservation → Reservation) : (s.modifyReservation i f).header = s.header := rfl

@[simp] theorem SlabState.record_trade_header (s : SlabState) (t : Trade) :
    (s.record_trade t).header = s.header := rfl

@[simp] theorem SlabHeader.incrementBookSeqno_ts (h : SlabHeader) :
    h.incrementBookSeqno.current_ts = h.current_ts := rfl

theorem update_position_header (fuel : Nat) (s : SlabState) (ai ii : Nat) (qd : Int)
    (px : Nat) (cf : Int) (r : Except PercolatorError Unit) (s' : SlabState)
    (h : update_position fuel s ai ii qd px cf = some (r, s')) : s'.header = s.header := by
  unfold update_position at h
  split at h
  · cases h; rfl
  · split at h
    · cases h
    · cases h; rfl
    · split at h
      · cases h; rfl
      · dsimp only at h
        split at h
        · exact (remove_position_header _ _ _ _ _ _ h).trans
            (SlabState.modifyAccount_header _ _ _)
        · split at h
          · cases h; rfl
          · cases h
            exact (SlabState.modifyPosition_header _ _ _).trans
              (SlabState.modifyAccount_header _ _ _)
    · split at h
      · split at h
        · cases h; rfl
        · cases h
          exact (SlabState.modifyAccount_header _ _ _).trans
            ((SlabState.modifyPosition_header _ _ _).trans rfl)
      · cases h; rfl

theorem execute_trade_header (fuel : Nat) (s : SlabState) (ta ma ii : Nat) (side : Side)
    (qty px oid ts : Nat) (r : Except PercolatorError Unit) (s' : SlabState)
    (h : execute_trade fuel s ta ma ii side qty px oid ts = some (r, s')) :
    s'.header = s.header := by
  unfold execute_trade at h
  cases hg : s.get_instrument ii with
  | none => rw [hg] at h; dsimp only at h; cases h; rfl
  | some instrument =>
    rw [hg] at h
    cases side with
    | Buy =>
      dsimp only at h
      cases h1 : update_position fuel s ta ii (wrapI64 (qty : Int)) px
          instrument.cum_funding with
      | none => rw [h1] at h; dsimp only at h; cases h
      | some res1 =>
        rw [h1] at h
        obtain ⟨r1, s1⟩ := res1
        have hh1 := update_position_header _ _ _ _ _ _ _ _ _ h1
        cases r1 with
        | error e => dsimp only at h; cases h; exact hh1
        | ok u =>
          dsimp only at h
          cases h2 : update_position fuel s1 ma ii (wrapI64 (-wrapI64 (qty : Int))) px
              instrument.cum_funding with
          | none => rw [h2] at h; dsimp only at h; cases h
          | some res2 =>
            rw [h2] at h
            obtain ⟨r2, s2⟩ := res2
            have hh2 := update_position_header _ _ _ _ _ _ _ _ _ h2
            cases r2 with
            | error e => dsimp only at h; cases h; exact hh2.trans hh1
            | ok u2 =>
              dsimp only at h; cases h
              exact (SlabState.record_trade_header _ _).trans (hh2.trans hh1)
    | Sell =>
      dsimp only at h
      cases h1 : update_position fuel s ta ii (wrapI64 (-wrapI64 (qty : Int))) px
          instrument.cum_funding with
      | none => rw [h1] at h; dsimp only at h; cases h
      | some res1 =>
        rw [h1] at h
        obtain ⟨r1, s1⟩ := res1
        have hh1 := update_position_header _ _ _ _ _ _ _ _ _ h1
        cases r1 with
        | error e => dsimp only at h; cases h; exact hh1
        | ok u =>
          dsimp only at h
          cases h2 : update_position fuel s1 ma ii
              (wrapI64 (-wrapI64 (-wrapI64 (qty : Int)))) px instrument.cum_funding with
          | none => rw [h2] at h; dsimp only at h; cases h
          | some res2 =>
            rw [h2] at h
            obtain ⟨r2, s2⟩ := res2
            have hh2 := update_position_header _ _ _ _ _ _ _ _ _ h2
            cases r2 with
            | error e => dsimp only at h; cases h; exact hh2.trans hh1
            | ok u2 =>
              dsimp only at h; cases h
              exact (SlabState.record_trade_header _ _).trans (hh2.trans hh1)

end Solster

namespace Solster

theorem remove_order_ts (s : SlabState) (ii oi : Nat) :
    ((remove_order s ii oi).2).header.current_ts = s.header.current_ts := by
  unfold remove_order
  cases s.orders.get oi with
  | none => rfl
  | some o =>
    cases s.get_instrument ii with
    | none => rfl
    | some ins =>
      dsimp only
      by_cases hp : o.prev = NIL <;> by_cases hn : o.next ≠ NIL <;>
        simp [hp, hn, SlabState.modifyInstrument_header, SlabHeader.incrementBookSeqno]

theorem executeSlicesLoop_ts (ta ii : Nat) (side : Side) (ts : Nat) :
    ∀ fuel s curr tq tn tf r s',
      executeSlicesLoop ta ii side ts fuel s curr tq tn tf = some (r, s') →
      s'.header.current_ts = s.header.current_ts := by
  intro fuel
  induction fuel with
  | zero => intro s curr tq tn tf r s' h; exact absurd h (by simp [executeSlicesLoop])
  | succ n ih =>
    intro s curr tq tn tf r s' h
    rw [executeSlicesLoop] at h
    by_cases hc : curr = NIL
    · rw [if_pos hc] at h; cases h; rfl
    · rw [if_neg hc] at h
      cases hs : s.slices.get curr with
      | none => rw [hs] at h; dsimp only at h; cases h; rfl
      | some slice =>
        rw [hs] at h
        dsimp only at h
        cases ho : s.orders.get slice.order_idx with
        | none => rw [ho] at h; dsimp only at h; cases h; rfl
        | some order =>
          rw [ho] at h
          dsimp only at h
          cases h1 : execute_trade (n + 1) s ta order.account_idx ii side slice.qty
              order.price order.order_id ts with
          | none => rw [h1] at h; dsimp only at h; cases h
          | some res1 =>
            rw [h1] at h
            obtain ⟨r1, s1⟩ := res1
            have hh1 := execute_trade_header _ _ _ _ _ _ _ _ _ _ _ _ h1
            cases r1 with
            | error e => dsimp only at h; cases h; rw [hh1]
            | ok u =>
              dsimp only at h
              split at h
              · -- order vanished: recurse on the fee-updated state
                have := ih _ _ _ _ _ _ _ h
                rw [this]
                simp [SlabState.modifyAccount_header, hh1]
              · -- order present: quantity update, maybe removal
                split at h
                · -- fully filled: remove from book and free
                  split at h
                  · next e ss heqro =>
                    cases h
                    have h4 := congrArg (fun x => x.2.header.current_ts) heqro
                    dsimp only at h4
                    rw [← h4]
                    unfold remove_order_from_book
                    rw [remove_order_ts]
                    simp [SlabState.modifyAccount_header, hh1]
                  · next uu ss heqro =>
                    have := ih _ _ _ _ _ _ _ h
                    rw [this]
                    have h4 := congrArg (fun x => x.2.header.current_ts) heqro
                    dsimp only at h4
                    rw [show ({ ss with orders := ss.orders.free slice.order_idx } :
                        SlabState).header.current_ts = ss.header.current_ts from rfl]
                    rw [← h4]
                    unfold remove_order_from_book
                    rw [remove_order_ts]
                    simp [SlabState.modifyAccount_header, hh1]
                · -- partial fill: recurse
                  have := ih _ _ _ _ _ _ _ h
                  rw [this]
                  simp [SlabState.modifyAccount_header, hh1]

end Solster

namespace Solster

theorem execute_slices_ts (fuel : Nat) (s : SlabState) (sh ta ii : Nat) (side : Side)
    (ts : Nat) (r : Except PercolatorError (Nat × Nat × Nat)) (s' : SlabState)
    (h : execute_slices fuel s sh ta ii side ts = some (r, s')) :
    s'.header.current_ts = s.header.current_ts :=
  executeSlicesLoop_ts ta ii side ts fuel s sh 0 0 0 r s' h

theorem free_slices_header (fuel : Nat) (s : SlabState) (sh : Nat)
    (r : Except PercolatorError Unit) (s' : SlabState)
    (h : free_slices fuel s sh = some (r, s')) : s'.header = s.header :=
  freeSlicesLoop_header fuel s sh r s' h

theorem commit_ts (fuel : Nat) (s : SlabState) (hold ts : Nat)
    (r : Except PercolatorError CommitResult) (s' : SlabState)
    (h : commit fuel s hold ts = some (r, s')) :
    s'.header.current_ts = s.header.current_ts := by
  unfold commit at h
  split at h
  · cases h; rfl
  · split at h
    · cases h; rfl
    · split at h
      · cases h; rfl
      · split at h
        · cases h; rfl
        · split at h
          · cases h
          · next e s1 heq =>
            cases h
            exact execute_slices_ts _ _ _ _ _ _ _ _ _ heq
          · next fq tn tf s1 heq =>
            have hts1 := execute_slices_ts _ _ _ _ _ _ _ _ _ heq
            dsimp only at h
            split at h
            · cases h
            · next e2 s2 heq2 =>
              cases h
              have := free_slices_header _ _ _ _ _ heq2
              rw [this, SlabState.modifyReservation_header, hts1]
            · next u2 s2 heq2 =>
              cases h
              have := free_slices_header _ _ _ _ _ heq2
              rw [this, SlabState.modifyReservation_header, hts1]

/-- C10.  Confirmed: `process_commit` validates only `current_ts ≠ 0`, then
unconditionally overwrites `header.current_ts` *before* looking up or
validating the reservation, and no code on the commit path writes
`current_ts` again — so after every terminating `process_commit` call
with `current_ts ≠ 0`, including those returning `ReservationNotFound`,
`ReservationExpired` or `InvalidReservation`, the slab clock equals the
supplied `current_ts` (which is the baseline for the `expiry_ms` of
subsequently created reservations, `reserve` computing
`expiry_ms = current_ts + ttl`). -/
theorem claim_C10_process_commit_overwrites_clock (fuel : Nat) (s : SlabState)
    (hold_id current_ts : Nat) (hts : current_ts ≠ 0)
    (r : Except PercolatorError CommitResult) (s' : SlabState)
    (h : process_commit fuel s hold_id current_ts = some (r, s')) :
    s'.header.current_ts = current_ts := by
  unfold process_commit at h
  rw [if_neg hts] at h
  exact (commit_ts _ _ _ _ _ _ h).trans rfl

/-- Witness for C10: a concrete run that *fails* with
`ReservationNotFound` (no reservation with hold 99 exists in `slab1`)
still sets the clock to the supplied timestamp 5. -/
theorem claim_C10_witness :
    (5 : Nat) ≠ 0 ∧
    ∃ r s', process_commit 20 slab1 99 5 = some (r, s') ∧ s'.header.current_ts = 5 := by
  have hrun : process_commit 20 slab1 99 5 =
      some (Except.error PercolatorError.ReservationNotFound,
        { slab1 with header := { slab1.header with current_ts := 5 } }) := by decide
  exact ⟨by decide, _, _, hrun,
    claim_C10_process_commit_overwrites_clock 20 slab1 99 5 (by decide) _ _ hrun⟩
end Solster

namespace Solster

/-! ### find_reservation characterisation -/

theorem findResvAux_none_iff (hold : Nat) :
    ∀ (items : List (Slot Reservation)) (i : Nat),
      findResvAux hold items i = none ↔
        ∀ sl ∈ items, ¬(sl.used = true ∧ sl.val.hold_id = hold) := by
  intro items
  induction items with
  | nil => intro i; simp [findResvAux]
  | cons sl rest ih =>
    intro i
    rw [findResvAux]
    by_cases hm : sl.used = true ∧ sl.val.hold_id = hold
    · rw [if_pos hm]
      simp only [List.mem_cons]
      constructor
      · intro h; exact absurd h (by simp)
      · intro h; exact absurd hm (h sl (Or.inl rfl))
    · rw [if_neg hm]
      rw [ih (i + 1)]
      constructor
      · intro h x hx
        rcases List.mem_cons.mp hx with h1 | h2
        · rw [h1]; exact hm
        · exact h x h2
      · intro h x hx; exact h x (List.mem_cons_of_mem _ hx)

theorem findResvAux_some_get (hold : Nat) :
    ∀ (items : List (Slot Reservation)) (i j : Nat),
      findResvAux hold items i = some j →
      i ≤ j ∧ ∃ sl, items[j - i]? = some sl ∧ sl.used = true ∧ sl.val.hold_id = hold := by
  intro items
  induction items with
  | nil => intro i j h; exact absurd h (by simp [findResvAux])
  | cons sl rest ih =>
    intro i j h
    rw [findResvAux] at h
    by_cases hm : sl.used = true ∧ sl.val.hold_id = hold
    · rw [if_pos hm] at h
      cases h
      exact ⟨Nat.le_refl _, sl, by simp, hm⟩
    · rw [if_neg hm] at h
      obtain ⟨hij, sl', hget, hrest⟩ := ih (i + 1) j h
      refine ⟨Nat.le_of_succ_le hij, sl', ?_, hrest⟩
      have hd : j - i = (j - (i + 1)) + 1 := by omega
      rw [hd]
      simpa using hget

theorem find_reservation_error_iff (s : SlabState) (hold : Nat) :
    find_reservation s hold = Except.error PercolatorError.ReservationNotFound ↔
      ∀ sl ∈ s.reservations.items, ¬(sl.used = true ∧ sl.val.hold_id = hold) := by
  rw [← findResvAux_none_iff hold s.reservations.items 0]
  unfold find_reservation
  cases hf : findResvAux hold s.reservations.items 0 with
  | none => simp
  | some j => simp

theorem find_reservation_ok_get (s : SlabState) (hold i : Nat)
    (h : find_reservation s hold = Except.ok i) :
    ∃ r, s.reservations.get i = some r ∧ r.hold_id = hold := by
  unfold find_reservation at h
  cases hf : findResvAux hold s.reservations.items 0 with
  | none => rw [hf] at h; cases h
  | some j =>
    rw [hf] at h
    cases h
    obtain ⟨_, sl, hget, hu, hh⟩ := findResvAux_some_get hold _ 0 _ hf
    refine ⟨sl.val, ?_, hh⟩
    unfold Pool.get
    rw [Nat.sub_zero] at hget
    rw [hget]
    simp [hu]

end Solster

namespace Solster

/-! ### Which errors each helper can produce -/

theorem findPositionLoop_err (s : SlabState) (ii : Nat) :
    ∀ fuel hd e, findPositionLoop s ii fuel hd = some (Except.error e) →
      e = PercolatorError.PositionNotFound := by
  intro fuel
  induction fuel with
  | zero => intro hd e hh; exact absurd hh (by simp [findPositionLoop])
  | succ n ih =>
    intro hd e hh
    rw [findPositionLoop] at hh
    by_cases hc : hd = NIL
    · rw [if_pos hc] at hh; cases hh
    · rw [if_neg hc] at hh
      cases hg : s.positions.get hd with
      | none => rw [hg] at hh; cases hh; rfl
      | some pos =>
        rw [hg] at hh
        dsimp only at hh
        by_cases hm : pos.instrument_idx = ii
        · rw [if_pos hm] at hh; cases hh
        · rw [if_neg hm] at hh; exact ih _ _ hh

theorem removePositionLoop_err (s : SlabState) (acc pos : Nat) :
    ∀ fuel curr prev e s', removePositionLoop s acc pos fuel curr prev =
        some (Except.error e, s') → e = PercolatorError.PositionNotFound := by
  intro fuel
  induction fuel with
  | zero => intro curr prev e s' h; exact absurd h (by simp [removePositionLoop])
  | succ n ih =>
    intro curr prev e s' h
    rw [removePositionLoop] at h
    by_cases hc : curr = NIL
    · rw [if_pos hc] at h; cases h
    · rw [if_neg hc] at h
      by_cases he : curr = pos
      · rw [if_pos he] at h
        cases hg : s.positions.get curr with
        | none => rw [hg] at h; cases h; rfl
        | some p => rw [hg] at h; dsimp only at h; cases h
      · rw [if_neg he] at h
        cases hg : s.positions.get curr with
        | none => rw [hg] at h; cases h
        | some p => rw [hg] at h; exact ih _ _ _ _ h

theorem remove_position_err (fuel : Nat) (s : SlabState) (acc pos : Nat) (e : PercolatorError)
    (s' : SlabState) (h : remove_position fuel s acc pos = some (Except.error e, s')) :
    e = PercolatorError.InvalidAccount ∨ e = PercolatorError.PositionNotFound := by
  unfold remove_position at h
  cases hg : s.get_account acc with
  | none => rw [hg] at h; cases h; exact Or.inl rfl
  | some account =>
    rw [hg] at h
    exact Or.inr (removePositionLoop_err s acc pos fuel _ _ _ _ h)

theorem update_position_err (fuel : Nat) (s : SlabState) (ai ii : Nat) (qd : Int)
    (px : Nat) (cf : Int) (e : PercolatorError) (s' : SlabState)
    (h : update_position fuel s ai ii qd px cf = some (Except.error e, s')) :
    e = PercolatorError.InvalidAccount ∨ e = PercolatorError.PositionNotFound ∨
      e = PercolatorError.PoolFull := by
  unfold update_position at h
  split at h
  · cases h; exact Or.inl rfl
  · split at h
    · cases h
    · next heq =>
      cases h
      exact Or.inr (Or.inl (findPositionLoop_err _ _ _ _ _ heq))
    · split at h
      · cases h
      · dsimp only at h
        split at h
        · rcases remove_position_err _ _ _ _ _ _ h with h1 | h1
          · exact Or.inl h1
          · exact Or.inr (Or.inl h1)
        · split at h
          · cases h
          · cases h
    · split at h
      · split at h
        · cases h; exact Or.inr (Or.inr rfl)
        · cases h
      · cases h

theorem execute_trade_err (fuel : Nat) (s : SlabState) (ta ma ii : Nat) (side : Side)
    (qty px oid ts : Nat) (e : PercolatorError) (s' : SlabState)
    (h : execute_trade fuel s ta ma ii side qty px oid ts = some (Except.error e, s')) :
    e = PercolatorError.InvalidInstrument ∨ e = PercolatorError.InvalidAccount ∨
      e = PercolatorError.PositionNotFound ∨ e = PercolatorError.PoolFull := by
  unfold execute_trade at h
  split at h
  · cases h; exact Or.inl rfl
  · dsimp only at h
    split at h
    · cases h
    · next heq =>
      cases h
      exact Or.inr (update_position_err _ _ _ _ _ _ _ _ _ heq)
    · split at h
      · cases h
      · next heq2 =>
        cases h
        exact Or.inr (update_position_err _ _ _ _ _ _ _ _ _ heq2)
      · cases h

theorem remove_order_err (s : SlabState) (ii oi : Nat) (e : PercolatorError) (s' : SlabState)
    (h : remove_order s ii oi = (Except.error e, s')) :
    e = PercolatorError.OrderNotFound ∨ e = PercolatorError.InvalidInstrument := by
  unfold remove_order at h
  split at h
  · cases h; exact Or.inl rfl
  · split at h
    · cases h; exact Or.inr rfl
    · dsimp only at h; cases h

end Solster

namespace Solster

theorem freeSlicesLoop_err :
    ∀ fuel s curr e s', freeSlicesLoop fuel s curr = some (Except.error e, s') →
      e = PercolatorError.InvalidReservation := by
  intro fuel
  induction fuel with
  | zero => intro s curr e s' h; exact absurd h (by simp [freeSlicesLoop])
  | succ n ih =>
    intro s curr e s' h
    rw [freeSlicesLoop] at h
    by_cases hc : curr = NIL
    · rw [if_pos hc] at h; cases h
    · rw [if_neg hc] at h
      cases hg : s.slices.get curr with
      | none => rw [hg] at h; cases h; rfl
      | some slice => rw [hg] at h; exact ih _ _ _ _ h

theorem walkLoop_err (side : Side) (limit_px : Nat) :
    ∀ fuel s curr ql tn wp sh st e s',
      walkLoop side limit_px fuel s curr ql tn wp sh st = some (Except.error e, s') →
      e = PercolatorError.OrderNotFound ∨ e = PercolatorError.PoolFull := by
  intro fuel
  induction fuel with
  | zero => intro s curr ql tn wp sh st e s' h; exact absurd h (by simp [walkLoop])
  | succ n ih =>
    intro s curr ql tn wp sh st e s' h
    rw [walkLoop] at h
    split at h
    · split at h
      · cases h; exact Or.inl rfl
      · dsimp only at h
        split at h
        · cases h
        · split at h
          · exact ih _ _ _ _ _ _ _ _ _ h
          · split at h
            · cases h; exact Or.inr rfl
            · exact ih _ _ _ _ _ _ _ _ _ h
    · cases h

theorem executeSlicesLoop_err (ta ii : Nat) (side : Side) (ts : Nat) :
    ∀ fuel s curr tq tn tf e s',
      executeSlicesLoop ta ii side ts fuel s curr tq tn tf = some (Except.error e, s') →
      e ≠ PercolatorError.ReservationNotFound ∧ e ≠ PercolatorError.ReservationExpired := by
  intro fuel
  induction fuel with
  | zero => intro s curr tq tn tf e s' h; exact absurd h (by simp [executeSlicesLoop])
  | succ n ih =>
    intro s curr tq tn tf e s' h
    rw [executeSlicesLoop] at h
    by_cases hc : curr = NIL
    · rw [if_pos hc] at h; cases h
    · rw [if_neg hc] at h
      cases hs : s.slices.get curr with
      | none => rw [hs] at h; dsimp only at h; cases h; exact ⟨by decide, by decide⟩
      | some slice =>
        rw [hs] at h
        dsimp only at h
        cases ho : s.orders.get slice.order_idx with
        | none => rw [ho] at h; dsimp only at h; cases h; exact ⟨by decide, by decide⟩
        | some order =>
          rw [ho] at h
          dsimp only at h
          cases h1 : execute_trade (n + 1) s ta order.account_idx ii side slice.qty
              order.price order.order_id ts with
          | none => rw [h1] at h; dsimp only at h; cases h
          | some res1 =>
            rw [h1] at h
            obtain ⟨r1, s1⟩ := res1
            cases r1 with
            | error e1 =>
              dsimp only at h; cases h
              rcases execute_trade_err _ _ _ _ _ _ _ _ _ _ _ _ h1 with h2 | h2 | h2 | h2 <;>
                (rw [h2]; exact ⟨by decide, by decide⟩)
            | ok u =>
              dsimp only at h
              split at h
              · exact ih _ _ _ _ _ _ _ h
              · split at h
                · split at h
                  · next e2 ss heqro =>
                    cases h
                    rcases remove_order_err _ _ _ _ _ heqro with h2 | h2 <;>
                      (rw [h2]; exact ⟨by decide, by decide⟩)
                  · exact ih _ _ _ _ _ _ _ h
                · exact ih _ _ _ _ _ _ _ h

end Solster

namespace Solster

/-! ### Reserve leaves order prices unchanged -/

theorem walkLoop_orders_price (side : Side) (limit_px : Nat) :
    ∀ fuel s curr ql tn wp sh st r s',
      walkLoop side limit_px fuel s curr ql tn wp sh st = some (r, s') →
      ∀ j, (s'.orders.get j).map Order.price = (s.orders.get j).map Order.price := by
  intro fuel
  induction fuel with
  | zero => intro s curr ql tn wp sh st r s' h; exact absurd h (by simp [walkLoop])
  | succ n ih =>
    intro s curr ql tn wp sh st r s' h
    rw [walkLoop] at h
    split at h
    · split at h
      · cases h; intro j; rfl
      · dsimp only at h
        split at h
        · cases h; intro j; rfl
        · split at h
          · exact ih _ _ _ _ _ _ _ _ _ h
          · split at h
            · cases h; intro j; rfl
            · next slice_idx sp halloc =>
              intro j
              rw [ih _ _ _ _ _ _ _ _ _ h j]
              show ((SlabState.modifyOrder _ _ _).orders.get j).map Order.price =
                (s.orders.get j).map Order.price
              unfold SlabState.modifyOrder
              by_cases hj : curr = j
              · subst hj
                show ((Pool.modifyUsed _ _ _).get curr).map Order.price = _
                rw [Pool.get_modifyUsed_self]
                cases (s.orders.get curr) <;> rfl
              · show ((Pool.modifyUsed _ _ _).get j).map Order.price = _
                rw [Pool.get_modifyUsed_ne _ _ _ _ hj]
    · cases h; intro j; rfl

theorem walk_and_reserve_orders_price (fuel : Nat) (s : SlabState) (ii : Nat) (side : Side)
    (qty limit_px : Nat) (r : Except PercolatorError (Nat × Nat × Nat × Nat)) (s' : SlabState)
    (h : walk_and_reserve fuel s ii side qty limit_px = some (r, s')) :
    ∀ j, (s'.orders.get j).map Order.price = (s.orders.get j).map Order.price := by
  unfold walk_and_reserve at h
  split at h
  · cases h; intro j; rfl
  · dsimp only at h
    split at h
    · cases h
    · next heq => cases h; exact walkLoop_orders_price _ _ _ _ _ _ _ _ _ _ _ _ heq
    · next heq =>
      cases h
      exact walkLoop_orders_price _ _ _ _ _ _ _ _ _ _ _ _ heq

theorem reserve_orders_price (fuel : Nat) (s : SlabState) (ai ii : Nat) (side : Side)
    (qty px ttl : Nat) (ch : List Nat) (rid : Nat)
    (res : Except PercolatorError ReserveResult) (s' : SlabState)
    (h : reserve fuel s ai ii side qty px ttl ch rid = some (res, s')) :
    ∀ j, (s'.orders.get j).map Order.price = (s.orders.get j).map Order.price := by
  unfold reserve at h
  split at h
  · cases h; intro j; rfl
  · split at h
    · cases h; intro j; rfl
    · split at h
      · cases h; intro j; rfl
      · split at h
        · cases h; intro j; rfl
        · dsimp only at h
          split at h
          · cases h
          · next heq =>
            cases h
            intro j
            exact walk_and_reserve_orders_price _ _ _ _ _ _ _ _ heq j
          · next fq tn wp sh s2 heq =>
            cases h
            intro j
            have := walk_and_reserve_orders_price _ _ _ _ _ _ _ _ heq j
            exact this

/-! ### reserve and cancel never report expiry -/

theorem reserve_err (fuel : Nat) (s : SlabState) (ai ii : Nat) (side : Side)
    (qty px ttl : Nat) (ch : List Nat) (rid : Nat) (e : PercolatorError) (s' : SlabState)
    (h : reserve fuel s ai ii side qty px ttl ch rid = some (Except.error e, s')) :
    e ≠ PercolatorError.ReservationExpired ∧ e ≠ PercolatorError.ReservationNotFound := by
  unfold reserve at h
  split at h
  · cases h; exact ⟨by decide, by decide⟩
  · split at h
    · cases h; exact ⟨by decide, by decide⟩
    · split at h
      · cases h; exact ⟨by decide, by decide⟩
      · split at h
        · cases h; exact ⟨by decide, by decide⟩
        · dsimp only at h
          split at h
          · cases h
          · next heq =>
            cases h
            unfold walk_and_reserve at heq
            split at heq
            · cases heq; exact ⟨by decide, by decide⟩
            · dsimp only at heq
              split at heq
              · cases heq
              · next heq2 =>
                cases heq
                rcases walkLoop_err _ _ _ _ _ _ _ _ _ _ _ _ heq2 with h2 | h2 <;>
                  (rw [h2]; exact ⟨by decide, by decide⟩)
              · next heq2 => cases heq
          · cases h

theorem cancel_err (fuel : Nat) (s : SlabState) (hold : Nat) (e : PercolatorError)
    (s' : SlabState) (h : cancel fuel s hold = some (Except.error e, s')) :
    e ≠ PercolatorError.ReservationExpired := by
  unfold cancel at h
  split at h
  · next e2 heq =>
    cases h
    unfold find_reservation at heq
    cases hf : findResvAux hold s.reservations.items 0 with
    | none => rw [hf] at heq; cases heq; decide
    | some j => rw [hf] at heq; cases heq
  · split at h
    · cases h; decide
    · split at h
      · cases h; decide
      · split at h
        · cases h
        · next heq2 =>
          cases h
          rw [freeSlicesLoop_err _ _ _ _ _ heq2]
          decide
        · cases h

end Solster

namespace Solster

theorem find_reservation_error_is_notfound (s : SlabState) (hold : Nat) (e : PercolatorError)
    (h : find_reservation s hold = Except.error e) :
    e = PercolatorError.ReservationNotFound := by
  unfold find_reservation at h
  cases hf : findResvAux hold s.reservations.items 0 with
  | none => rw [hf] at h; cases h; rfl
  | some j => rw [hf] at h; cases h

theorem commit_notfound_iff (fuel : Nat) (s : SlabState) (hold ts : Nat) :
    (∃ s', commit fuel s hold ts =
        some (Except.error PercolatorError.ReservationNotFound, s')) ↔
      ∀ sl ∈ s.reservations.items, ¬(sl.used = true ∧ sl.val.hold_id = hold) := by
  constructor
  · rintro ⟨s', h⟩
    unfold commit at h
    split at h
    · next e heq =>
      cases h
      have he := find_reservation_error_is_notfound _ _ _ heq
      rw [he] at heq
      exact (find_reservation_error_iff s hold).mp heq
    · next i heq =>
      obtain ⟨r, hr, hh⟩ := find_reservation_ok_get s hold i heq
      exfalso
      rw [hr] at h
      dsimp only at h
      split at h
      · cases h
      · split at h
        · cases h
        · split at h
          · cases h
          · next e2 s2 heq2 =>
            cases h
            exact (executeSlicesLoop_err _ _ _ _ _ _ _ _ _ _ _ _ heq2).1 rfl
          · next fq tn tf s2 heq2 =>
            try dsimp only at h
            split at h
            · cases h
            · next e3 s3 heq3 =>
              cases h
              have := freeSlicesLoop_err _ _ _ _ _ heq3
              exact absurd this (by decide)
            · cases h
  · intro hall
    refine ⟨s, ?_⟩
    unfold commit
    rw [show find_reservation s hold =
      Except.error PercolatorError.ReservationNotFound from
        (find_reservation_error_iff s hold).mpr hall]

theorem commit_expired_iff (fuel : Nat) (s : SlabState) (hold ts i : Nat) (r : Reservation)
    (hfind : find_reservation s hold = Except.ok i)
    (hget : s.reservations.get i = some r) :
    (∃ s', commit fuel s hold ts =
        some (Except.error PercolatorError.ReservationExpired, s')) ↔ ts > r.expiry_ms := by
  constructor
  · rintro ⟨s', h⟩
    unfold commit at h
    rw [hfind] at h
    try dsimp only at h
    rw [hget] at h
    try dsimp only at h
    by_cases hex : ts > r.expiry_ms
    · exact hex
    · exfalso
      rw [if_neg hex] at h
      split at h
      · cases h
      · split at h
        · cases h
        · next e2 s2 heq2 =>
          cases h
          exact (executeSlicesLoop_err _ _ _ _ _ _ _ _ _ _ _ _ heq2).2 rfl
        · next fq tn tf s2 heq2 =>
          try dsimp only at h
          split at h
          · cases h
          · next e3 s3 heq3 =>
            cases h
            have := freeSlicesLoop_err _ _ _ _ _ heq3
            exact absurd this (by decide)
          · cases h
  · intro hex
    refine ⟨s, ?_⟩
    unfold commit
    rw [hfind]
    try dsimp only
    rw [hget]
    try dsimp only
    rw [if_pos hex]

theorem commit_committed_invalid (fuel : Nat) (s : SlabState) (hold ts i : Nat)
    (r : Reservation) (hfind : find_reservation s hold = Except.ok i)
    (hget : s.reservations.get i = some r) (hex : ts ≤ r.expiry_ms)
    (hc : r.committed = true) :
    commit fuel s hold ts = some (Except.error PercolatorError.InvalidReservation, s) := by
  unfold commit
  rw [hfind]
  try dsimp only
  rw [hget]
  try dsimp only
  rw [if_neg (by omega : ¬ ts > r.expiry_ms), if_pos hc]

end Solster

namespace Solster

/-- C5.  Confirmed: commit's validation failures behave exactly as
claimed: (a) it returns `ReservationNotFound` iff no used reservation
slot carries the requested `hold_id`; (b) for a found reservation it
returns `ReservationExpired` iff `current_ts > expiry_ms` (no later
stage of commit can produce that error); (c) for a found, unexpired,
already-committed reservation it returns `InvalidReservation` leaving
the slab untouched; (d) expiry is enforced only at commit time —
`reserve` and `cancel` never return `ReservationExpired`; (e) the maker
price commit reads from each slice's order is the price captured at
reserve time, since `reserve` never changes any order's price. -/
theorem claim_C5_commit_failure_conditions (fuel : Nat) (s : SlabState) (hold ts : Nat) :
    ((∃ s', commit fuel s hold ts =
        some (Except.error PercolatorError.ReservationNotFound, s')) ↔
      ∀ sl ∈ s.reservations.items, ¬(sl.used = true ∧ sl.val.hold_id = hold))
    ∧ (∀ i r, find_reservation s hold = Except.ok i → s.reservations.get i = some r →
        ((∃ s', commit fuel s hold ts =
            some (Except.error PercolatorError.ReservationExpired, s')) ↔ ts > r.expiry_ms))
    ∧ (∀ i r, find_reservation s hold = Except.ok i → s.reservations.get i = some r →
        ts ≤ r.expiry_ms → r.committed = true →
        commit fuel s hold ts = some (Except.error PercolatorError.InvalidReservation, s))
    ∧ (∀ ai ii side qty px ttl ch rid e s',
        reserve fuel s ai ii side qty px ttl ch rid = some (Except.error e, s') →
        e ≠ PercolatorError.ReservationExpired)
    ∧ (∀ e s', cancel fuel s hold = some (Except.error e, s') →
        e ≠ PercolatorError.ReservationExpired)
    ∧ (∀ ai ii side qty px ttl ch rid res s',
        reserve fuel s ai ii side qty px ttl ch rid = some (res, s') →
        ∀ j, (s'.orders.get j).map Order.price = (s.orders.get j).map Order.price) := by
  refine ⟨commit_notfound_iff fuel s hold ts, ?_, ?_, ?_, ?_, ?_⟩
  · intro i r hfind hget
    exact commit_expired_iff fuel s hold ts i r hfind hget
  · intro i r hfind hget hex hc
    exact commit_committed_invalid fuel s hold ts i r hfind hget hex hc
  · intro ai ii side qty px ttl ch rid e s' h
    exact (reserve_err fuel s ai ii side qty px ttl ch rid e s' h).1
  · intro e s' h
    exact cancel_err fuel s hold e s' h
  · intro ai ii side qty px ttl ch rid res s' h
    exact reserve_orders_price fuel s ai ii side qty px ttl ch rid res s' h

/-- Witness for C5 on the concrete slab `slab8` (one committed
reservation, hold 1, expiry 2000): an unknown hold yields
`ReservationNotFound`, `current_ts 2500 > 2000` yields
`ReservationExpired`, and `current_ts 1500 ≤ 2000` on the committed
reservation yields `InvalidReservation` with the state unchanged. -/
theorem claim_C5_witness :
    (∃ s', commit 20 slab8 99 1500 =
        some (Except.error PercolatorError.ReservationNotFound, s'))
    ∧ (∃ s', commit 20 slab8 1 2500 =
        some (Except.error PercolatorError.ReservationExpired, s'))
    ∧ commit 20 slab8 1 1500 =
        some (Except.error PercolatorError.InvalidReservation, slab8) := by
  refine ⟨?_, ?_, ?_⟩
  · exact (claim_C5_commit_failure_conditions 20 slab8 99 1500).1.mpr (by decide)
  · exact ((claim_C5_commit_failure_conditions 20 slab8 1 2500).2.1 0 resvCommitted
      (by decide) (by decide)).mpr (by decide)
  · exact (claim_C5_commit_failure_conditions 20 slab8 1 1500).2.2.1 0 resvCommitted
      (by decide) (by decide) (by decide) (by decide)

end Solster

namespace Solster

/-! ### Arithmetic range lemmas -/

theorem wrapI64_eq_self (x : Int) (h1 : I64MIN ≤ x) (h2 : x ≤ I64MAX) : wrapI64 x = x := by
  unfold wrapI64 I64MIN I64MAX at *
  omega

theorem satAddI128_eq (a b : Int) (h1 : I128MIN ≤ a + b) (h2 : a + b ≤ I128MAX) :
    satAddI128 a b = a + b := by
  unfold satAddI128 I128MIN I128MAX at *
  omega

theorem satAdd128_eq (a b : Nat) (h : a + b ≤ U128MOD - 1) : satAdd128 a b = a + b := by
  unfold satAdd128 U128MOD at *
  omega

theorem weighted_div_le_max (a x b y : Nat) :
    (a * x + b * y) / (a + b) ≤ max x y := by
  apply Nat.div_le_of_le_mul
  calc a * x + b * y ≤ a * max x y + b * max x y :=
        Nat.add_le_add (Nat.mul_le_mul_left a (Nat.le_max_left x y))
          (Nat.mul_le_mul_left b (Nat.le_max_right x y))
    _ = (a + b) * max x y := by ring

/-! ### Account / position frame lemmas -/

theorem SlabState.modifyAccount_positions (s : SlabState) (i : Nat)
    (f : AccountState → AccountState) : (s.modifyAccount i f).positions = s.positions := by
  unfold SlabState.modifyAccount
  cases s.accounts[i]? with
  | none => rfl
  | some a => by_cases h : a.active <;> simp [h]

theorem SlabState.modifyAccount_get_self (s : SlabState) (i : Nat)
    (f : AccountState → AccountState) (a : AccountState) (ha : s.get_account i = some a)
    (hact : ∀ x, (f x).active = x.active) :
    (s.modifyAccount i f).get_account i = some (f a) := by
  unfold SlabState.get_account at ha ⊢
  unfold SlabState.modifyAccount
  cases hg : s.accounts[i]? with
  | none => rw [hg] at ha; cases ha
  | some a0 =>
    rw [hg] at ha
    dsimp only at ha
    by_cases hac : a0.active
    · rw [if_pos hac] at ha
      cases ha
      simp only [hg, hac, if_true]
      rw [List.getElem?_set_self', hg]
      simp [hact a, hac]
    · rw [if_neg hac] at ha; cases ha

theorem SlabState.modifyAccount_accounts_cash (s : SlabState) (i : Nat)
    (f : AccountState → AccountState)
    (hcash : ∀ x, (f x).cash = x.cash ∧ (f x).active = x.active) :
    ∀ j : Nat, ((s.modifyAccount i f).accounts[j]?).map
        (fun (a : AccountState) => (a.cash, a.active)) =
      (s.accounts[j]?).map (fun (a : AccountState) => (a.cash, a.active)) := by
  intro j
  unfold SlabState.modifyAccount
  cases hg : s.accounts[i]? with
  | none => rfl
  | some a0 =>
    by_cases hac : a0.active
    · simp only [hac, if_true]
      by_cases hij : i = j
      · subst hij
        show ((s.accounts.set i (f a0))[i]?).map
            (fun (a : AccountState) => (a.cash, a.active)) = _
        rw [List.getElem?_set_self', hg]
        simp [(hcash a0).1, (hcash a0).2]
      · show ((s.accounts.set i (f a0))[j]?).map
            (fun (a : AccountState) => (a.cash, a.active)) = _
        rw [List.getElem?_set_ne hij]
    · simp [hac]

end Solster

namespace Solster

theorem get_account_accounts (s : SlabState) (j : Nat) (a : AccountState)
    (h : s.get_account j = some a) : s.accounts[j]? = some a ∧ a.active = true := by
  unfold SlabState.get_account at h
  cases hg : s.accounts[j]? with
  | none => rw [hg] at h; cases h
  | some a0 =>
    rw [hg] at h
    dsimp only at h
    by_cases hac : a0.active
    · rw [if_pos hac] at h; cases h; exact ⟨rfl, hac⟩
    · rw [if_neg hac] at h; cases h

theorem findPositionLoop_found (s : SlabState) (ii : Nat) :
    ∀ fuel hd pidx, findPositionLoop s ii fuel hd = some (Except.ok (some pidx)) →
      ∃ p, s.positions.get pidx = some p ∧ p.instrument_idx = ii := by
  intro fuel
  induction fuel with
  | zero => intro hd pidx h; exact absurd h (by simp [findPositionLoop])
  | succ n ih =>
    intro hd pidx h
    rw [findPositionLoop] at h
    by_cases hc : hd = NIL
    · rw [if_pos hc] at h; cases h
    · rw [if_neg hc] at h
      cases hg : s.positions.get hd with
      | none => rw [hg] at h; cases h
      | some pos =>
        rw [hg] at h
        dsimp only at h
        by_cases hm : pos.instrument_idx = ii
        · rw [if_pos hm] at h; cases h; exact ⟨pos, hg, hm⟩
        · rw [if_neg hm] at h; exact ih _ _ h

theorem findRemove (s : SlabState) (ii ai pidx : Nat) (pos : Position)
    (hpos : s.positions.get pidx = some pos) (hins : pos.instrument_idx = ii) :
    ∀ fuel hd prev (s2 : SlabState), s2.positions = s.positions →
      findPositionLoop s ii fuel hd = some (Except.ok (some pidx)) →
      ∃ s3, removePositionLoop s2 ai pidx fuel hd prev = some (Except.ok (), s3) ∧
        s3.positions.get pidx = none ∧
        (∀ j : Nat, (s3.accounts[j]?).map (fun (a : AccountState) => (a.cash, a.active)) =
          (s2.accounts[j]?).map (fun (a : AccountState) => (a.cash, a.active))) := by
  intro fuel
  induction fuel with
  | zero => intro hd prev s2 hs2 h; exact absurd h (by simp [findPositionLoop])
  | succ n ih =>
    intro hd prev s2 hs2 h
    rw [findPositionLoop] at h
    by_cases hc : hd = NIL
    · rw [if_pos hc] at h; cases h
    · rw [if_neg hc] at h
      cases hg : s.positions.get hd with
      | none => rw [hg] at h; cases h
      | some p =>
        rw [hg] at h
        dsimp only at h
        by_cases hm : p.instrument_idx = ii
        · rw [if_pos hm] at h
          cases h
          -- found here: hd = pidx, p = pos
          have hp : p = pos := by
            rw [hpos] at hg; cases hg; rfl
          rw [removePositionLoop]
          rw [if_neg hc, if_pos rfl]
          rw [hs2, hpos]
          dsimp only
          by_cases hprev : prev = NIL
          · rw [if_pos hprev]
            refine ⟨_, rfl, ?_, ?_⟩
            · show (Pool.free _ _).get pidx = none
              exact Pool.get_free_self _ _
            · intro j
              exact SlabState.modifyAccount_accounts_cash s2 ai
                (fun a => { a with position_head := pos.next_in_account })
                (fun x => ⟨rfl, rfl⟩) j
          · rw [if_neg hprev]
            refine ⟨_, rfl, ?_, ?_⟩
            · show (Pool.free _ _).get pidx = none
              exact Pool.get_free_self _ _
            · intro j; rfl
        · rw [if_neg hm] at h
          have hne : hd ≠ pidx := by
            intro he
            rw [he, hpos] at hg
            cases hg
            exact hm hins
          rw [removePositionLoop]
          rw [if_neg hc, if_neg hne]
          rw [hs2, hg]
          exact ih _ _ s2 hs2 h

end Solster

namespace Solster

/-- C7.  Confirmed: for an existing position found by `update_position`
(all machine values in range, so the Rust `i64`/`i128`/`u128` operations
neither wrap nor saturate):
* if `P.qty + qty_delta = 0`, the PnL `P.qty * (fill_price − P.entry_px)`
  is added to the account's cash and the position slot is freed;
* if the sign is unchanged, the position's `entry_px` becomes
  `⌊(|P.qty|·P.entry_px + |qty_delta|·fill_price) / (|P.qty|+|qty_delta|)⌋`
  and `qty` becomes the new quantity, cash untouched;
* if the sign flips, the PnL on the entire old leg is realized into
  cash, `qty` becomes the new quantity, `entry_px` becomes the fill
  price and `last_funding` is set to the `cum_funding` argument (which
  `execute_trade` passes as the instrument's current `cum_funding`). -/
theorem claim_C7_update_position_cases
    (fuel : Nat) (s : SlabState) (ai ii : Nat) (qd : Int) (px : Nat) (cf : Int)
    (account : AccountState) (pidx : Nat) (pos : Position)
    (hacct : s.get_account ai = some account)
    (hfind : findPositionLoop s ii fuel account.position_head = some (Except.ok (some pidx)))
    (hget : s.positions.get pidx = some pos)
    (hq64 : pos.qty.natAbs < 9223372036854775808)
    (hd64 : qd.natAbs < 9223372036854775808)
    (hr1 : I64MIN ≤ pos.qty + qd) (hr2 : pos.qty + qd ≤ I64MAX)
    (hpx : px < U64MOD) (hent : pos.entry_px < U64MOD)
    (hcashlo : I128MIN ≤ account.cash + pos.qty * ((px : Int) - pos.entry_px))
    (hcashhi : account.cash + pos.qty * ((px : Int) - pos.entry_px) ≤ I128MAX) :
    (pos.qty + qd = 0 →
      ∃ s', update_position fuel s ai ii qd px cf = some (Except.ok (), s') ∧
        (s'.get_account ai).map AccountState.cash =
          some (account.cash + pos.qty * ((px : Int) - pos.entry_px)) ∧
        s'.positions.get pidx = none)
    ∧ ((pos.qty > 0 ∧ pos.qty + qd > 0) ∨ (pos.qty < 0 ∧ pos.qty + qd < 0) →
      ∃ s', update_position fuel s ai ii qd px cf = some (Except.ok (), s') ∧
        s'.positions.get pidx = some { pos with
          qty := pos.qty + qd,
          entry_px := (pos.qty.natAbs * pos.entry_px + qd.natAbs * px) /
            (pos.qty.natAbs + qd.natAbs) } ∧
        (s'.get_account ai).map AccountState.cash = some account.cash)
    ∧ ((pos.qty > 0 ∧ pos.qty + qd < 0) ∨ (pos.qty < 0 ∧ pos.qty + qd > 0) →
      ∃ s', update_position fuel s ai ii qd px cf = some (Except.ok (), s') ∧
        s'.positions.get pidx = some { pos with
          qty := pos.qty + qd, entry_px := px, last_funding := cf } ∧
        (s'.get_account ai).map AccountState.cash =
          some (account.cash + pos.qty * ((px : Int) - pos.entry_px))) := by
  have hw : wrapI64 (pos.qty + qd) = pos.qty + qd := wrapI64_eq_self _ hr1 hr2
  have hsat : satAddI128 account.cash (calculate_pnl pos.qty pos.entry_px px) =
      account.cash + pos.qty * ((px : Int) - pos.entry_px) := by
    unfold calculate_pnl
    exact satAddI128_eq _ _ hcashlo hcashhi
  have hins : pos.instrument_idx = ii := by
    obtain ⟨p, hp, hpins⟩ := findPositionLoop_found s ii fuel account.position_head pidx hfind
    rw [hget] at hp; cases hp; exact hpins
  refine ⟨?_, ?_, ?_⟩
  · -- flat: realize PnL and remove the position
    intro h0
    unfold update_position
    rw [hacct]
    try dsimp only
    rw [hfind]
    try dsimp only
    rw [hget]
    try dsimp only
    rw [hw, if_pos h0]
    have hs2pos : (s.modifyAccount ai (fun a =>
        { a with cash := satAddI128 a.cash (calculate_pnl pos.qty pos.entry_px px) })).positions
        = s.positions := SlabState.modifyAccount_positions _ _ _
    have hs2acct := SlabState.modifyAccount_get_self s ai
      (fun a => { a with cash := satAddI128 a.cash (calculate_pnl pos.qty pos.entry_px px) })
      account hacct (fun x => rfl)
    unfold remove_position
    rw [hs2acct]
    try dsimp only
    obtain ⟨s3, hrem, hnone, hcash⟩ :=
      findRemove s ii ai pidx pos hget hins fuel account.position_head NIL _ hs2pos hfind
    refine ⟨s3, hrem, ?_, hnone⟩
    have hs2a := get_account_accounts _ ai _ hs2acct
    have hc := hcash ai
    rw [hs2a.1] at hc
    cases hg3 : s3.accounts[ai]? with
    | none => rw [hg3] at hc; cases hc
    | some a3 =>
      rw [hg3] at hc
      simp only [Option.map_some] at hc
      have ha3 : a3.cash = satAddI128 account.cash (calculate_pnl pos.qty pos.entry_px px)
          ∧ a3.active = true := by
        have h1 := congrArg Prod.fst (Option.some.inj hc)
        have h2 := congrArg Prod.snd (Option.some.inj hc)
        exact ⟨h1, h2.trans hs2a.2⟩
      unfold SlabState.get_account
      rw [hg3]
      try dsimp only
      rw [if_pos ha3.2]
      simp [ha3.1, hsat]
  · -- same sign: VWAP update
    intro hcase
    have hne0 : ¬ (pos.qty + qd = 0) := by rcases hcase with ⟨h1, h2⟩ | ⟨h1, h2⟩ <;> omega
    unfold update_position
    rw [hacct]
    try dsimp only
    rw [hfind]
    try dsimp only
    rw [hget]
    try dsimp only
    rw [hw, if_neg hne0, if_pos hcase]
    refine ⟨_, rfl, ?_, ?_⟩
    · show ((s.positions.modifyUsed pidx _).get pidx) = _
      rw [Pool.get_modifyUsed_self, hget]
      have hq0 : pos.qty.natAbs + qd.natAbs ≠ 0 := by
        rcases hcase with ⟨h1, _⟩ | ⟨h1, _⟩ <;>
          (have hqa : 0 < pos.qty.natAbs := Int.natAbs_pos.mpr (by omega); omega)
      have hsum : mul_u64 pos.qty.natAbs pos.entry_px + mul_u64 qd.natAbs px ≤
          U128MOD - 1 := by
        unfold mul_u64 U128MOD U64MOD at *
        have h1 : pos.qty.natAbs * pos.entry_px ≤
            9223372036854775807 * 18446744073709551615 :=
          Nat.mul_le_mul (by omega) (by omega)
        have h2 : qd.natAbs * px ≤ 9223372036854775807 * 18446744073709551615 :=
          Nat.mul_le_mul (by omega) (by omega)
        omega
      rw [satAdd128_eq _ _ hsum]
      unfold calculate_vwap
      rw [if_neg hq0]
      have hlt : (mul_u64 pos.qty.natAbs pos.entry_px + mul_u64 qd.natAbs px) /
          (pos.qty.natAbs + qd.natAbs) < U64MOD := by
        apply Nat.lt_of_le_of_lt (weighted_div_le_max _ _ _ _)
        exact max_lt hent hpx
      rw [Nat.mod_eq_of_lt hlt]
      rfl
    · show ((s.modifyPosition pidx _).get_account ai).map AccountState.cash = _
      rw [show (s.modifyPosition pidx _).get_account ai = s.get_account ai from rfl, hacct]
      rfl
  · -- flip: realize PnL on the old leg, restart at the fill price
    intro hcase
    have hne0 : ¬ (pos.qty + qd = 0) := by rcases hcase with ⟨h1, h2⟩ | ⟨h1, h2⟩ <;> omega
    have hns : ¬ ((pos.qty > 0 ∧ pos.qty + qd > 0) ∨ (pos.qty < 0 ∧ pos.qty + qd < 0)) := by
      rcases hcase with ⟨h1, h2⟩ | ⟨h1, h2⟩ <;> (push_neg; omega)
    unfold update_position
    rw [hacct]
    try dsimp only
    rw [hfind]
    try dsimp only
    rw [hget]
    try dsimp only
    rw [hw, if_neg hne0, if_neg hns]
    refine ⟨_, rfl, ?_, ?_⟩
    · have hpp : (s.modifyAccount ai (fun a =>
          { a with cash := satAddI128 a.cash (calculate_pnl pos.qty pos.entry_px px) })).positions
          = s.positions := SlabState.modifyAccount_positions _ _ _
      show (((s.modifyAccount ai _).positions.modifyUsed pidx _).get pidx) = _
      rw [show (s.modifyAccount ai (fun a =>
          { a with cash := satAddI128 a.cash (calculate_pnl pos.qty pos.entry_px px) })).positions
          = s.positions from hpp]
      rw [Pool.get_modifyUsed_self, hget]
      rfl
    · have hs2acct := SlabState.modifyAccount_get_self s ai
        (fun a => { a with cash := satAddI128 a.cash (calculate_pnl pos.qty pos.entry_px px) })
        account hacct (fun x => rfl)
      show (((s.modifyAccount ai _).modifyPosition pidx _).get_account ai).map
        AccountState.cash = _
      rw [show ((s.modifyAccount ai (fun a =>
          { a with cash := satAddI128 a.cash (calculate_pnl pos.qty pos.entry_px px) })).modifyPosition
            pidx (fun p => { p with qty := pos.qty + qd, entry_px := px, last_funding := cf })).get_account ai =
          (s.modifyAccount ai (fun a =>
            { a with cash := satAddI128 a.cash (calculate_pnl pos.qty pos.entry_px px) })).get_account ai
          from rfl]
      rw [hs2acct]
      simp [hsat]


end Solster

namespace Solster

/-- Witness for C7 on `slab4` (account 0 holds +5 @ 100, cash 50),
fill price 110, `cum_funding` 7: closing (−5) realizes +50 into cash and
frees the slot; adding (+5) re-averages the entry to 105; flipping (−8)
realizes +50, leaves qty −3 with entry 110 and `last_funding` 7. -/
theorem claim_C7_witness :
    (∃ s', update_position 20 slab4 0 0 (-5) 110 7 = some (Except.ok (), s') ∧
      (s'.get_account 0).map AccountState.cash = some 100 ∧ s'.positions.get 0 = none)
    ∧ (∃ s', update_position 20 slab4 0 0 5 110 7 = some (Except.ok (), s') ∧
      s'.positions.get 0 = some { longPos5at100 with qty := 10, entry_px := 105 } ∧
      (s'.get_account 0).map AccountState.cash = some 50)
    ∧ (∃ s', update_position 20 slab4 0 0 (-8) 110 7 = some (Except.ok (), s') ∧
      s'.positions.get 0 = some { longPos5at100 with
        qty := -3, entry_px := 110, last_funding := 7 } ∧
      (s'.get_account 0).map AccountState.cash = some 100) := by
  refine ⟨?_, ?_, ?_⟩
  · obtain ⟨s', h1, h2, h3⟩ :=
      (claim_C7_update_position_cases 20 slab4 0 0 (-5) 110 7
        { cash := 50, position_head := 0, active := true } 0 longPos5at100
        (by decide) (by decide) (by decide) (by decide) (by decide) (by decide)
        (by decide) (by decide) (by decide) (by decide) (by decide)).1 (by decide)
    exact ⟨s', h1, h2.trans (by decide), h3⟩
  · obtain ⟨s', h1, h2, h3⟩ :=
      (claim_C7_update_position_cases 20 slab4 0 0 5 110 7
        { cash := 50, position_head := 0, active := true } 0 longPos5at100
        (by decide) (by decide) (by decide) (by decide) (by decide) (by decide)
        (by decide) (by decide) (by decide) (by decide) (by decide)).2.1 (by decide)
    exact ⟨s', h1, h2.trans (by decide), h3⟩
  · obtain ⟨s', h1, h2, h3⟩ :=
      (claim_C7_update_position_cases 20 slab4 0 0 (-8) 110 7
        { cash := 50, position_head := 0, active := true } 0 longPos5at100
        (by decide) (by decide) (by decide) (by decide) (by decide) (by decide)
        (by decide) (by decide) (by decide) (by decide) (by decide)).2.2 (by decide)
    exact ⟨s', h1, h2.trans (by decide), h3.trans (by decide)⟩

end Solster

namespace Solster

/-! ### Margin scaling lemmas (C9) -/

theorem scaleSlab_get_pos (s : SlabState) (k j : Nat) :
    (scaleSlab s k).positions.get j =
      (s.positions.get j).map (fun p => { p with qty := (k : Int) * p.qty }) := by
  unfold scaleSlab Pool.get
  dsimp only
  rw [List.getElem?_map]
  cases s.positions.items[j]? with
  | none => rfl
  | some sl =>
    by_cases hu : sl.used <;> simp [hu]

theorem scaleSlab_get_instrument (s : SlabState) (k i : Nat) :
    (scaleSlab s k).get_instrument i = s.get_instrument i := rfl

theorem scaleSlab_get_account (s : SlabState) (k i : Nat) :
    (scaleSlab s k).get_account i = s.get_account i := rfl

theorem scaleSlab_header (s : SlabState) (k : Nat) :
    (scaleSlab s k).header = s.header := rfl

theorem satAdd128_le (a b : Nat) : satAdd128 a b ≤ U128MOD - 1 := by
  unfold satAdd128; omega

theorem satAdd128_ge_left (a b : Nat) (ha : a ≤ U128MOD - 1) : a ≤ satAdd128 a b := by
  unfold satAdd128 at *; omega

theorem satAdd128_scale (k a b total : Nat) (hk : 0 < k)
    (hmono : satAdd128 a b ≤ total) (hb : k * total < U128MOD) :
    satAdd128 (k * a) (k * b) = k * satAdd128 a b := by
  by_cases hs : a + b ≤ U128MOD - 1
  · rw [satAdd128_eq _ _ hs]
    have h1 : a + b ≤ total := by rw [satAdd128_eq _ _ hs] at hmono; exact hmono
    have h2 : k * (a + b) ≤ k * total := Nat.mul_le_mul_left k h1
    have h3 : k * (a + b) = k * a + k * b := by ring
    rw [satAdd128_eq _ _ (by omega : k * a + k * b ≤ U128MOD - 1)]
    ring
  · have hsat : satAdd128 a b = U128MOD - 1 := by unfold satAdd128 at *; omega
    have htot : total = U128MOD - 1 := by
      rw [hsat] at hmono
      have h0 : total ≤ k * total := Nat.le_mul_of_pos_left _ hk
      unfold U128MOD at *
      omega
    have hk1 : k = 1 := by
      rw [htot] at hb
      by_contra hne
      have hk2 : 2 ≤ k := by omega
      have h2 : 2 * (U128MOD - 1) ≤ k * (U128MOD - 1) := Nat.mul_le_mul_right _ hk2
      unfold U128MOD at *
      omega
    subst hk1
    simp [hsat]

theorem calculate_im_scale (q : Int) (cs px bps k : Nat) (hk : 0 < k)
    (hdiv : 10000 ∣ q.natAbs * cs * px * bps)
    (hbound : k * q.natAbs * cs * px * bps < U128MOD) :
    calculate_im ((k : Int) * q) cs px bps = k * calculate_im q cs px bps := by
  have habs : ((k : Int) * q).natAbs = k * q.natAbs := by
    rw [Int.natAbs_mul, Int.natAbs_ofNat]
  unfold calculate_im mul_u64_u128 wrapMul128 mul_u64
  rw [habs]
  by_cases hb0 : bps = 0
  · subst hb0; simp
  · have hbps : 1 ≤ bps := Nat.one_le_iff_ne_zero.mpr hb0
    have hinner : px * (k * q.natAbs * cs) < U128MOD := by
      have h1 : px * (k * q.natAbs * cs) * 1 ≤ k * q.natAbs * cs * px * bps := by
        calc px * (k * q.natAbs * cs) * 1 = k * q.natAbs * cs * px := by ring
          _ ≤ k * q.natAbs * cs * px * bps :=
              Nat.le_mul_of_pos_right _ (by omega)
      omega
    have houter : px * (k * q.natAbs * cs) * bps < U128MOD := by
      have : px * (k * q.natAbs * cs) * bps = k * q.natAbs * cs * px * bps := by ring
      omega
    have hinner1 : px * (q.natAbs * cs) < U128MOD := by
      have h1 : px * (q.natAbs * cs) ≤ px * (k * q.natAbs * cs) := by
        apply Nat.mul_le_mul_left
        calc q.natAbs * cs = 1 * q.natAbs * cs := by ring
          _ ≤ k * q.natAbs * cs := by
              apply Nat.mul_le_mul_right
              exact Nat.mul_le_mul_right _ hk
      omega
    have houter1 : px * (q.natAbs * cs) * bps < U128MOD := by
      have h1 : px * (q.natAbs * cs) * bps ≤ px * (k * q.natAbs * cs) * bps := by
        apply Nat.mul_le_mul_right
        apply Nat.mul_le_mul_left
        calc q.natAbs * cs = 1 * q.natAbs * cs := by ring
          _ ≤ k * q.natAbs * cs := by
              apply Nat.mul_le_mul_right
              exact Nat.mul_le_mul_right _ hk
      omega
    rw [Nat.mod_eq_of_lt hinner, Nat.mod_eq_of_lt houter,
        Nat.mod_eq_of_lt hinner1, Nat.mod_eq_of_lt houter1]
    have hdiv' : 10000 ∣ px * (q.natAbs * cs) * bps := by
      have : px * (q.natAbs * cs) * bps = q.natAbs * cs * px * bps := by ring
      rw [this]; exact hdiv
    have : px * (k * q.natAbs * cs) * bps = k * (px * (q.natAbs * cs) * bps) := by ring
    rw [this, Nat.mul_div_assoc k hdiv']

theorem calculate_mm_scale (q : Int) (cs px bps k : Nat) (hk : 0 < k)
    (hdiv : 10000 ∣ q.natAbs * cs * px * bps)
    (hbound : k * q.natAbs * cs * px * bps < U128MOD) :
    calculate_mm ((k : Int) * q) cs px bps = k * calculate_mm q cs px bps :=
  calculate_im_scale q cs px bps k hk hdiv hbound

end Solster

namespace Solster

theorem marginLoop_mono (s : SlabState) :
    ∀ fuel hd im mm res, marginLoop s fuel hd im mm = some (Except.ok res) →
      im ≤ U128MOD - 1 → mm ≤ U128MOD - 1 → im ≤ res.1 ∧ mm ≤ res.2 := by
  intro fuel
  induction fuel with
  | zero => intro hd im mm res h _ _; exact absurd h (by simp [marginLoop])
  | succ n ih =>
    intro hd im mm res h him hmm
    rw [marginLoop] at h
    by_cases hc : hd = NIL
    · rw [if_pos hc] at h; cases h; exact ⟨Nat.le_refl _, Nat.le_refl _⟩
    · rw [if_neg hc] at h
      cases hg : s.positions.get hd with
      | none => rw [hg] at h; cases h
      | some pos =>
        rw [hg] at h
        dsimp only at h
        cases hi : s.get_instrument pos.instrument_idx with
        | none => rw [hi] at h; cases h
        | some ins =>
          rw [hi] at h
          dsimp only at h
          have := ih _ _ _ _ h (satAdd128_le _ _) (satAdd128_le _ _)
          exact ⟨Nat.le_trans (satAdd128_ge_left _ _ him) this.1,
                 Nat.le_trans (satAdd128_ge_left _ _ hmm) this.2⟩

theorem marginLoop_scale (s : SlabState) (k : Nat) (hk : 0 < k)
    (H : ∀ sl ∈ s.positions.items, marginScaleHypB s k sl = true) :
    ∀ fuel hd im mm res, marginLoop s fuel hd im mm = some (Except.ok res) →
      im ≤ U128MOD - 1 → mm ≤ U128MOD - 1 →
      k * res.1 < U128MOD → k * res.2 < U128MOD →
      marginLoop (scaleSlab s k) fuel hd (k * im) (k * mm) =
        some (Except.ok (k * res.1, k * res.2)) := by
  intro fuel
  induction fuel with
  | zero => intro hd im mm res h _ _ _ _; exact absurd h (by simp [marginLoop])
  | succ n ih =>
    intro hd im mm res h him hmm hb1 hb2
    rw [marginLoop] at h
    rw [marginLoop]
    by_cases hc : hd = NIL
    · rw [if_pos hc] at h
      rw [if_pos hc]
      cases h
      rfl
    · rw [if_neg hc] at h
      rw [if_neg hc]
      cases hg : s.positions.get hd with
      | none => rw [hg] at h; cases h
      | some pos =>
        rw [hg] at h
        dsimp only at h
        have hg2 : (scaleSlab s k).positions.get hd =
            some { pos with qty := (k : Int) * pos.qty } := by
          rw [scaleSlab_get_pos, hg]; rfl
        rw [hg2]
        try dsimp only
        cases hi : s.get_instrument pos.instrument_idx with
        | none => rw [hi] at h; cases h
        | some ins =>
          rw [hi] at h
          dsimp only at h
          rw [scaleSlab_get_instrument, hi]
          dsimp only
          have hsl : ∃ sl, s.positions.items[hd]? = some sl ∧ sl.used = true ∧
              sl.val = pos := by
            unfold Pool.get at hg
            cases hq : s.positions.items[hd]? with
            | none => rw [hq] at hg; cases hg
            | some sl =>
              rw [hq] at hg
              dsimp only at hg
              by_cases hu : sl.used
              · rw [if_pos hu] at hg; cases hg; exact ⟨sl, rfl, hu, rfl⟩
              · rw [if_neg hu] at hg; cases hg
          obtain ⟨sl, hslq, hused, hval⟩ := hsl
          have hcond := H sl (List.getElem?_mem hslq)
          unfold marginScaleHypB at hcond
          rw [hused, hval, hi] at hcond
          simp only [Bool.not_true, Bool.false_or, Bool.and_eq_true,
            decide_eq_true_eq] at hcond
          obtain ⟨⟨⟨hdiv1, hdiv2⟩, hbnd1⟩, hbnd2⟩ := hcond
          have hmono := marginLoop_mono s n _ _ _ res h (satAdd128_le _ _) (satAdd128_le _ _)
          rw [scaleSlab_header]
          try dsimp only
          rw [calculate_im_scale pos.qty ins.contract_size ins.index_price
              s.header.imr k hk hdiv1 hbnd1]
          rw [calculate_mm_scale pos.qty ins.contract_size ins.index_price
              s.header.mmr k hk hdiv2 hbnd2]
          rw [satAdd128_scale k im _ res.1 hk hmono.1 hb1]
          rw [satAdd128_scale k mm _ res.2 hk hmono.2 hb2]
          exact ih _ _ _ res h (satAdd128_le _ _) (satAdd128_le _ _) hb1 hb2

end Solster

namespace Solster

/-- C9, counterexample.  The claim as stated is false: on `slab7`
(one position qty 1, contract_size = index_price = 1, imr = mmr = 5000 bps)
the computed IM and MM are 0, but scaling the quantity by k = 2 gives
IM = MM = 1 ≠ 2·0 — floor division by 10000 does not commute with
scaling when the division is inexact. -/
theorem claim_C9_counterexample :
    calculate_margin_requirements 10 slab7 0 = some (Except.ok (0, 0))
    ∧ calculate_margin_requirements 10 (scaleSlab slab7 2) 0 = some (Except.ok (1, 1))
    ∧ (1 : Nat) ≠ 2 * 0 := by
  refine ⟨by decide, by decide, by decide⟩

/-- C9, amended.  Margin scaling holds exactly when the `/ 10000`
divisions are exact: for `k > 0`, if every used position slot satisfies
the exact-division and `u128`-range side conditions
(`marginScaleHypB`), and the scaled totals fit in `u128`, then scaling
every position quantity by `k` scales the computed IM and MM totals
exactly by `k`. -/
theorem claim_C9_margin_scaling_amended (fuel : Nat) (s : SlabState) (ai k : Nat)
    (hk : 0 < k) (im mm : Nat)
    (hrun : calculate_margin_requirements fuel s ai = some (Except.ok (im, mm)))
    (H : ∀ sl ∈ s.positions.items, marginScaleHypB s k sl = true)
    (hb1 : k * im < U128MOD) (hb2 : k * mm < U128MOD) :
    calculate_margin_requirements fuel (scaleSlab s k) ai =
      some (Except.ok (k * im, k * mm)) := by
  unfold calculate_margin_requirements at hrun ⊢
  rw [scaleSlab_get_account]
  cases hg : s.get_account ai with
  | none => rw [hg] at hrun; cases hrun
  | some account =>
    rw [hg] at hrun
    try dsimp only at hrun
    have := marginLoop_scale s k hk H fuel account.position_head 0 0 (im, mm) hrun
      (by unfold U128MOD; omega) (by unfold U128MOD; omega) hb1 hb2
    simpa using this

/-- Witness for the amended C9 on `slab9` (one position qty 2,
contract_size = index_price = 1, imr = mmr = 5000 bps, so
`|qty|·cs·px·imr = 10000` divides exactly): IM = MM = 1, and scaling by
k = 3 gives exactly (3, 3). -/
theorem claim_C9_witness :
    0 < 3 ∧ calculate_margin_requirements 10 slab9 0 = some (Except.ok (1, 1)) ∧
    calculate_margin_requirements 10 (scaleSlab slab9 3) 0 = some (Except.ok (3 * 1, 3 * 1)) := by
  refine ⟨by decide, by decide, ?_⟩
  exact claim_C9_margin_scaling_amended 10 slab9 0 3 (by decide) 1 1 (by decide)
    (by decide) (by decide) (by decide)


/-! ### Freelist machinery (C6) -/

/-- Freelist walks are monotone in fuel. -/
theorem freelistFrom_mono {α : Type} (p : Pool α) :
    ∀ fuel fuel' h l, freelistFrom p fuel h = some l → fuel ≤ fuel' →
      freelistFrom p fuel' h = some l := by
  intro fuel
  induction fuel with
  | zero => intro fuel' h l hrun _; cases hrun
  | succ n ih =>
    intro fuel' h l hrun hle
    cases fuel' with
    | zero => omega
    | succ m =>
      unfold freelistFrom at hrun ⊢
      by_cases hh : p.items.length ≤ h
      · simpa [hh] using hrun
      · simp only [hh, if_false] at hrun ⊢
        cases hg : p.items.get? h with
        | none => rw [hg] at hrun; cases hrun
        | some sl =>
          rw [hg] at hrun
          dsimp only at hrun ⊢
          by_cases hu : sl.used = true
          · rw [if_pos hu] at hrun; cases hrun
          · rw [if_neg hu] at hrun
            rw [if_neg hu]
            cases hr : freelistFrom p n sl.nextFree with
            | none => rw [hr] at hrun; cases hrun
            | some l0 =>
              rw [hr] at hrun
              rw [ih m sl.nextFree l0 hr (by omega)]
              exact hrun

/-- A freelist walk only looks at the slots it returns, so it transports
to any pool of the same capacity agreeing on those slots. -/
theorem freelistFrom_transport {α : Type} (p p2 : Pool α)
    (hlen : p2.items.length = p.items.length) :
    ∀ fuel h l, freelistFrom p fuel h = some l →
      (∀ i ∈ l, p2.items.get? i = p.items.get? i) →
      freelistFrom p2 fuel h = some l := by
  intro fuel
  induction fuel with
  | zero => intro h l hrun _; cases hrun
  | succ n ih =>
    intro h l hrun hag
    unfold freelistFrom at hrun ⊢
    rw [hlen]
    by_cases hh : p.items.length ≤ h
    · simpa [hh] using hrun
    · simp only [hh, if_false] at hrun ⊢
      cases hg : p.items.get? h with
      | none => rw [hg] at hrun; cases hrun
      | some sl =>
        rw [hg] at hrun
        dsimp only at hrun
        by_cases hu : sl.used = true
        · rw [if_pos hu] at hrun; cases hrun
        · rw [if_neg hu] at hrun
          cases hr : freelistFrom p n sl.nextFree with
          | none => rw [hr] at hrun; cases hrun
          | some l0 =>
            rw [hr] at hrun
            simp only [Option.map_some', Option.some.injEq] at hrun
            have hl : l = h :: l0 := hrun.symm
            subst hl
            have hgh : p2.items.get? h = some sl := by
              rw [hag h (by simp), hg]
            rw [hgh]
            dsimp only
            rw [if_neg hu,
              ih sl.nextFree l0 hr (fun i hi => hag i (by simp [hi]))]
            rfl

/-- Every slot on a freelist walk is in range and unused. -/
theorem freelistFrom_unused {α : Type} (p : Pool α) :
    ∀ fuel h l, freelistFrom p fuel h = some l →
      ∀ i ∈ l, ∃ sl, p.items.get? i = some sl ∧ sl.used = false := by
  intro fuel
  induction fuel with
  | zero => intro h l hrun; cases hrun
  | succ n ih =>
    intro h l hrun
    unfold freelistFrom at hrun
    by_cases hh : p.items.length ≤ h
    · simp only [hh, if_true] at hrun
      cases hrun
      intro i hi; cases hi
    · simp only [hh, if_false] at hrun
      cases hg : p.items.get? h with
      | none => rw [hg] at hrun; cases hrun
      | some sl =>
        rw [hg] at hrun
        dsimp only at hrun
        by_cases hu : sl.used = true
        · rw [if_pos hu] at hrun; cases hrun
        · rw [if_neg hu] at hrun
          cases hr : freelistFrom p n sl.nextFree with
          | none => rw [hr] at hrun; cases hrun
          | some l0 =>
            rw [hr] at hrun
            simp only [Option.map_some', Option.some.injEq] at hrun
            have hl : l = h :: l0 := hrun.symm
            subst hl
            intro i hi
            rcases List.mem_cons.mp hi with hih | hit
            · exact ⟨sl, by rw [hih]; exact hg, Bool.eq_false_iff.mpr hu⟩
            · exact ih sl.nextFree l0 hr i hit


/-- Saturating `u64` addition is exact below the cap. -/
theorem satAdd64_eq (a b : Nat) (h : a + b ≤ U64MAX) : satAdd64 a b = a + b := by
  unfold satAdd64; omega

/-- `Pool::free` on an allocated slot decrements the used counter and
keeps the capacity. -/
theorem Pool.free_used_count {α : Type} (p : Pool α) (i : Nat) (v : α)
    (h : p.get i = some v) :
    (p.free i).used_count = p.used_count - 1 ∧ (p.free i).items.length = p.items.length := by
  unfold Pool.get at h
  unfold Pool.free
  cases hp : p.items[i]? with
  | none => rw [hp] at h; cases h
  | some s =>
    rw [hp] at h
    dsimp only at h
    by_cases hu : s.used = true
    · constructor <;> simp [hu]
    · rw [if_neg hu] at h; cases h

/-- `Pool::alloc` under well-formedness: the slot handed out was unused,
every other slot is untouched, and well-formedness is preserved. -/
theorem Pool.alloc_WF {α : Type} (p : Pool α) (i : Nat) (p' : Pool α)
    (hwf : poolWFb p = true) (h : p.alloc = some (i, p')) :
    p.get i = none ∧ p'.used_count = p.used_count + 1 ∧
    p'.items.length = p.items.length ∧
    (∀ j, j ≠ i → p'.items.get? j = p.items.get? j) ∧
    (∃ sl, p.items.get? i = some sl ∧ sl.used = false ∧
       p'.items.get? i = some { sl with used := true }) ∧
    poolWFb p' = true := by
  obtain ⟨hi, hcnt, sl, hsl, hp'⟩ := Pool.alloc_some p i p' h
  subst hi
  have hlt : p.free_head < p.items.length := by
    cases hq : p.items[p.free_head]? with
    | none => rw [hq] at hsl; cases hsl
    | some s => exact (List.getElem?_eq_some.mp hq).1
  have hsl' : p.items.get? p.free_head = some sl := by
    rw [List.get?_eq_getElem?]; exact hsl
  unfold poolWFb at hwf
  cases hf : freelistFrom p (p.items.length + 1) p.free_head with
  | none => rw [hf] at hwf; cases hwf
  | some l =>
    rw [hf] at hwf
    have hnd : l.Nodup := of_decide_eq_true hwf
    unfold freelistFrom at hf
    rw [if_neg (Nat.not_le.mpr hlt), hsl'] at hf
    dsimp only at hf
    by_cases hu : sl.used = true
    · rw [if_pos hu] at hf; cases hf
    · rw [if_neg hu] at hf
      cases hr : freelistFrom p p.items.length sl.nextFree with
      | none => rw [hr] at hf; cases hf
      | some l0 =>
        rw [hr] at hf
        simp only [Option.map_some', Option.some.injEq] at hf
        have hl : l = p.free_head :: l0 := hf.symm
        subst hl
        have hni : p.free_head ∉ l0 := (List.nodup_cons.mp hnd).1
        have hnd0 : l0.Nodup := (List.nodup_cons.mp hnd).2
        subst hp'
        have hgetnone : p.get p.free_head = none := by
          unfold Pool.get
          rw [hsl]
          simp [hu]
        have hlen : (p.items.set p.free_head { sl with used := true }).length
            = p.items.length := by simp
        have hne : ∀ j, j ≠ p.free_head →
            (p.items.set p.free_head { sl with used := true }).get? j = p.items.get? j := by
          intro j hj
          rw [List.get?_eq_getElem?, List.get?_eq_getElem?]
          exact List.getElem?_set_ne (fun hc => hj hc.symm)
        refine ⟨hgetnone, rfl, hlen, hne, ⟨sl, hsl', Bool.eq_false_iff.mpr hu, ?_⟩, ?_⟩
        · rw [List.get?_eq_getElem?]
          rw [List.getElem?_set_self', hsl]
          rfl
        · have hr' := freelistFrom_mono p p.items.length (p.items.length + 1)
            sl.nextFree l0 hr (Nat.le_succ _)
          have htr := freelistFrom_transport p
            { items := p.items.set p.free_head { sl with used := true },
              free_head := sl.nextFree, used_count := p.used_count + 1 }
            hlen (p.items.length + 1) sl.nextFree l0 hr'
            (fun j hj => hne j (fun hc => hni (hc ▸ hj)))
          unfold poolWFb
          dsimp only
          rw [hlen, htr]
          exact decide_eq_true hnd0

/-- `Pool::get_mut` updates keep pool well-formedness. -/
theorem Pool.modifyUsed_WF {α : Type} (p : Pool α) (i : Nat) (f : α → α)
    (hwf : poolWFb p = true) : poolWFb (p.modifyUsed i f) = true := by
  unfold Pool.modifyUsed
  cases hp : p.items[i]? with
  | none => exact hwf
  | some s =>
    dsimp only
    by_cases hu : s.used = true
    · rw [if_pos hu]
      unfold poolWFb at hwf ⊢
      cases hf : freelistFrom p (p.items.length + 1) p.free_head with
      | none => rw [hf] at hwf; cases hwf
      | some l =>
        rw [hf] at hwf
        have hlen : (p.items.set i { s with val := f s.val }).length = p.items.length := by
          simp
        have hag : ∀ j ∈ l,
            (p.items.set i { s with val := f s.val }).get? j = p.items.get? j := by
          intro j hj
          obtain ⟨slj, hslj, huj⟩ := freelistFrom_unused p (p.items.length + 1)
            p.free_head l hf j hj
          have hji : j ≠ i := by
            intro hc
            rw [hc, List.get?_eq_getElem?, hp] at hslj
            cases hslj
            rw [huj] at hu
            exact Bool.noConfusion hu
          rw [List.get?_eq_getElem?, List.get?_eq_getElem?]
          exact List.getElem?_set_ne (fun hc => hji hc.symm)
        have htr := freelistFrom_transport p
          { p with items := p.items.set i { s with val := f s.val } }
          hlen (p.items.length + 1) p.free_head l hf hag
        dsimp only
        rw [hlen, htr]
        exact hwf
    · rw [if_neg hu]; exact hwf

/-- Well-formedness survives record updates that do not change the order
pool quantities. -/
theorem ordersQtyBounded_modifyUsed (p : Pool Order) (i : Nat) (f : Order → Order)
    (hf : ∀ o, (f o).qty = o.qty) (hb : ordersQtyBounded p = true) :
    ordersQtyBounded (p.modifyUsed i f) = true := by
  unfold Pool.modifyUsed
  cases hp : p.items[i]? with
  | none => exact hb
  | some s =>
    dsimp only
    by_cases hu : s.used = true
    · rw [if_pos hu]
      unfold ordersQtyBounded at hb ⊢
      rw [List.all_eq_true] at hb ⊢
      intro sl hsl
      rcases List.mem_or_eq_of_mem_set hsl with hmem | heq
      · exact hb sl hmem
      · subst heq
        have hmem : s ∈ p.items := List.getElem?_mem hp
        have := hb s hmem
        simp only [hu, Bool.not_true, Bool.false_or, decide_eq_true_eq] at this
        simp [hf, this]
    · rw [if_neg hu]; exact hb

/-- A live order of a bounded pool has a bounded quantity. -/
theorem ordersQtyBounded_get (p : Pool Order) (i : Nat) (o : Order)
    (hb : ordersQtyBounded p = true) (h : p.get i = some o) : o.qty ≤ U64MAX := by
  unfold Pool.get at h
  cases hp : p.items[i]? with
  | none => rw [hp] at h; cases h
  | some s =>
    rw [hp] at h
    dsimp only at h
    by_cases hu : s.used = true
    · rw [if_pos hu] at h
      have hmem : s ∈ p.items := List.getElem?_mem hp
      unfold ordersQtyBounded at hb
      rw [List.all_eq_true] at hb
      have := hb s hmem
      simp only [hu, Bool.not_true, Bool.false_or, decide_eq_true_eq] at this
      cases h
      exact this
    · rw [if_neg hu] at h; cases h


/-! ### Slice-chain machinery (C6) -/

/-- Every pair listed by a chain walk is live in the slice pool. -/
theorem sliceSeg_mem {s : SlabState} :
    ∀ C sh t, sliceSeg s sh C t → ∀ x ∈ C, s.slices.get x.1 = some x.2 := by
  intro C
  induction C with
  | nil => intro sh t _ x hx; cases hx
  | cons y C ih =>
    intro sh t hseg x hx
    obtain ⟨i, sl⟩ := y
    obtain ⟨_, hget, hseg'⟩ := hseg
    rcases List.mem_cons.mp hx with hx | hx
    · rw [hx]; exact hget
    · exact ih sl.next t hseg' x hx

/-- Chain walks transport along states agreeing on the chain's slots. -/
theorem sliceSeg_transport {s s2 : SlabState} :
    ∀ C sh t, sliceSeg s sh C t →
      (∀ x ∈ C, s2.slices.get x.1 = s.slices.get x.1) → sliceSeg s2 sh C t := by
  intro C
  induction C with
  | nil => intro sh t hseg _; exact hseg
  | cons y C ih =>
    intro sh t hseg hag
    obtain ⟨i, sl⟩ := y
    obtain ⟨hsh, hget, hseg'⟩ := hseg
    exact ⟨hsh, by rw [hag (i, sl) (by simp)]; exact hget,
      ih sl.next t hseg' (fun x hx => hag x (List.mem_cons_of_mem _ hx))⟩

/-- A slot absent from the pool cannot appear on a chain. -/
theorem sliceSeg_not_mem {s : SlabState} (d : Nat) (hd : s.slices.get d = none) :
    ∀ C sh t, sliceSeg s sh C t → d ∉ C.map Prod.fst := by
  intro C sh t hseg hmem
  obtain ⟨x, hx, hfst⟩ := List.mem_map.mp hmem
  have := sliceSeg_mem C sh t hseg x hx
  rw [hfst, hd] at this
  cases this

/-- Decomposition of a list at its last element. -/
theorem dropLast_getLast?_decomp {β : Type} :
    ∀ (l : List β) (a : β), l.getLast? = some a → l.dropLast ++ [a] = l := by
  intro l
  induction l with
  | nil => intro a h; cases h
  | cons x xs ih =>
    intro a h
    cases xs with
    | nil =>
      rw [List.getLast?_singleton] at h
      cases h
      rfl
    | cons y ys =>
      rw [List.getLast?_cons_cons] at h
      have hx := ih a h
      show x :: ((y :: ys).dropLast ++ [a]) = x :: (y :: ys)
      rw [hx]

/-- Extending a NIL-terminated chain by one fresh slice: the stored data
grows by the new slice, the indices by its slot. -/
theorem chainData_snoc_chain (C : List (Nat × Slice)) (st d : Nat) (stRec dRec : Slice)
    (hlast : C.getLast? = some (st, stRec)) :
    chainData (C.dropLast ++ [(st, { stRec with next := d }), (d, dRec)])
      = chainData C ++ [(d, dRec.order_idx, dRec.qty)] := by
  have hdec := dropLast_getLast?_decomp C (st, stRec) hlast
  conv_rhs => rw [← hdec]
  unfold chainData
  simp

/-- Slot indices of the extended chain. -/
theorem fst_snoc_chain (C : List (Nat × Slice)) (st d : Nat) (stRec dRec : Slice)
    (hlast : C.getLast? = some (st, stRec)) :
    (C.dropLast ++ [(st, { stRec with next := d }), (d, dRec)]).map Prod.fst
      = C.map Prod.fst ++ [d] := by
  have hdec := dropLast_getLast?_decomp C (st, stRec) hlast
  conv_rhs => rw [← hdec]
  simp

/-- The extended chain ends at the new slice. -/
theorem getLast?_snoc_chain (C : List (Nat × Slice)) (st d : Nat) (stRec dRec : Slice) :
    (C.dropLast ++ [(st, { stRec with next := d }), (d, dRec)]).getLast? = some (d, dRec) := by
  rw [show C.dropLast ++ [(st, { stRec with next := d }), (d, dRec)]
      = (C.dropLast ++ [(st, { stRec with next := d })]) ++ [(d, dRec)] by simp]
  exact List.getLast?_concat _

/-- Appending a fresh slice to a nonempty NIL-terminated chain by
rewriting the old tail's link. -/
theorem sliceSeg_snoc {s s2 : SlabState} (d st : Nat) (dRec stRec : Slice) :
    ∀ C sh, sliceSeg s sh C NIL → C.getLast? = some (st, stRec) →
      (C.map Prod.fst).Nodup →
      s2.slices.get st = some { stRec with next := d } →
      s2.slices.get d = some dRec → dRec.next = NIL →
      (∀ x ∈ C, x.1 ≠ st → s2.slices.get x.1 = s.slices.get x.1) →
      sliceSeg s2 sh (C.dropLast ++ [(st, { stRec with next := d }), (d, dRec)]) NIL := by
  intro C
  induction C with
  | nil => intro sh _ hlast; cases hlast
  | cons y C ih =>
    intro sh hseg hlast hnd hst2 hd2 hdn hoth
    obtain ⟨i, sl⟩ := y
    obtain ⟨hsh, hget, hseg'⟩ := hseg
    cases C with
    | nil =>
      rw [List.getLast?_singleton] at hlast
      cases hlast
      exact ⟨hsh, hst2, rfl, hd2, hdn⟩
    | cons z C' =>
      rw [List.getLast?_cons_cons] at hlast
      have hstmem : st ∈ (z :: C').map Prod.fst := by
        have : (st, stRec) ∈ z :: C' := by
          have hdec := dropLast_getLast?_decomp (z :: C') (st, stRec) hlast
          rw [← hdec]
          simp
        exact List.mem_map.mpr ⟨(st, stRec), this, rfl⟩
      have hine : i ≠ st := by
        intro hc
        have := (List.nodup_cons.mp hnd).1
        rw [hc] at this
        exact this hstmem
      refine ⟨hsh, ?_, ?_⟩
      · rw [hoth (i, sl) (by simp) hine]
        exact hget
      · exact ih sl.next hseg' hlast (List.nodup_cons.mp hnd).2 hst2 hd2 hdn
          (fun x hx hne => hoth x (List.mem_cons_of_mem _ hx) hne)


/-- `Pool::free` never changes the capacity. -/
theorem Pool.free_length {α : Type} (p : Pool α) (i : Nat) :
    (p.free i).items.length = p.items.length := by
  unfold Pool.free
  cases hp : p.items[i]? with
  | none => rfl
  | some s => by_cases hu : s.used <;> simp [hu]

/-- Walking `free_slices` over a duplicate-free NIL-terminated chain
frees exactly the chain's slots and subtracts exactly the chain's
quantities from the referenced orders. -/
theorem freeSlicesLoop_effects :
    ∀ (E : List (Nat × Slice)) (fuel : Nat) (t : SlabState) (h : Nat),
      sliceSeg t h E NIL → (E.map Prod.fst).Nodup →
      t.slices.items.length ≤ NIL → E.length < fuel →
      ∃ t2, freeSlicesLoop fuel t h = some (Except.ok (), t2) ∧
        (∀ j : Nat, t2.orders.get j = (t.orders.get j).map
          (fun o => { o with reserved_qty := o.reserved_qty - addsOf (chainData E) j })) ∧
        t2.slices.used_count = t.slices.used_count - E.length ∧
        t2.slices.items.length = t.slices.items.length ∧
        eqOffOrdersSlices t t2 := by
  intro E
  induction E with
  | nil =>
    intro fuel t h hseg _ _ hfuel
    have hh : h = NIL := hseg
    cases fuel with
    | zero => omega
    | succ f =>
      refine ⟨t, ?_, ?_, rfl, rfl, ⟨rfl, rfl, rfl, rfl, rfl, rfl, rfl, rfl, rfl⟩⟩
      · unfold freeSlicesLoop
        rw [if_pos hh]
      · intro j
        cases hg : t.orders.get j with
        | none => rfl
        | some o => simp [addsOf, chainData]
  | cons x E ih =>
    intro fuel t h hseg hnd hcap hfuel
    obtain ⟨i, sl⟩ := x
    obtain ⟨hsh, hget, hseg'⟩ := hseg
    cases fuel with
    | zero => simp at hfuel
    | succ f =>
      rw [hsh]
      have hlt : i < t.slices.items.length := by
        unfold Pool.get at hget
        cases hq : t.slices.items[i]? with
        | none => rw [hq] at hget; cases hget
        | some s => exact (List.getElem?_eq_some.mp hq).1
      have hine : ¬ i = NIL := by
        intro hc
        rw [hc] at hlt
        unfold NIL at hlt hcap
        omega
      have hinotmem : i ∉ E.map Prod.fst := (List.nodup_cons.mp hnd).1
      obtain ⟨t2, hrun2, hord2, hcnt2, hlen2, hoff2⟩ :=
        ih f
          { t.modifyOrder sl.order_idx
              (fun o => { o with reserved_qty := o.reserved_qty - sl.qty }) with
            slices := t.slices.free i } sl.next
          (sliceSeg_transport E sl.next NIL hseg'
            (fun x hx => Pool.get_free_ne t.slices i x.1
              (fun hc => hinotmem (hc ▸ List.mem_map.mpr ⟨x, hx, rfl⟩))))
          (List.nodup_cons.mp hnd).2
          (by show (t.slices.free i).items.length ≤ NIL
              rw [Pool.free_length]; exact hcap)
          (by simp only [List.length_cons] at hfuel; omega)
      refine ⟨t2, ?_, ?_, ?_, ?_, ?_⟩
      · unfold freeSlicesLoop
        rw [if_neg hine, hget]
        exact hrun2
      · intro j
        have h1 : t2.orders.get j
            = ((t.orders.modifyUsed sl.order_idx
                (fun o => { o with reserved_qty := o.reserved_qty - sl.qty })).get j).map
              (fun o => { o with reserved_qty := o.reserved_qty - addsOf (chainData E) j }) :=
          hord2 j
        rw [h1]
        by_cases hj : sl.order_idx = j
        · subst hj
          rw [Pool.get_modifyUsed_self]
          cases hg : t.orders.get sl.order_idx with
          | none => rfl
          | some o => simp [addsOf, chainData, Nat.sub_sub]
        · rw [Pool.get_modifyUsed_ne t.orders sl.order_idx _ j hj]
          cases hg : t.orders.get j with
          | none => rfl
          | some o => simp [addsOf, chainData, hj]
      · have h2 : t2.slices.used_count = (t.slices.free i).used_count - E.length := hcnt2
        rw [h2, (Pool.free_used_count t.slices i sl hget).1]
        simp only [List.length_cons]
        omega
      · have h3 : t2.slices.items.length = (t.slices.free i).items.length := hlen2
        rw [h3, Pool.free_length]
      · exact hoff2


/-- `Pool::get` only depends on the slot. -/
theorem Pool.get_congr {α : Type} (p p2 : Pool α) (j : Nat)
    (h : p2.items.get? j = p.items.get? j) : p2.get j = p.get j := by
  have h2 : p2.items[j]? = p.items[j]? := by
    rw [← List.get?_eq_getElem?, ← List.get?_eq_getElem?, h]
  unfold Pool.get
  rw [h2]

/-- The trivial walk outcome: nothing was reserved. -/
theorem walkTraceOut_refl (s : SlabState) (sh : Nat) (C : List (Nat × Slice)) (fuel : Nat)
    (hwf : poolWFb s.slices = true) (hbnd : ordersQtyBounded s.orders = true)
    (hseg : sliceSeg s sh C NIL) (hnd : (C.map Prod.fst).Nodup) (hf : 0 < fuel) :
    walkTraceOut s s sh C fuel := by
  refine ⟨C, [], hseg, hnd, by simp, by simpa using hf, rfl, rfl, hwf, hbnd, ?_,
    ⟨rfl, rfl, rfl, rfl, rfl, rfl, rfl, rfl, rfl⟩⟩
  intro j
  cases hg : s.orders.get j with
  | none => rfl
  | some o => simp [addsOf]

/-- Walk outcomes are monotone in the fuel bound. -/
theorem walkTraceOut_mono (s s' : SlabState) (sh' : Nat) (C : List (Nat × Slice))
    (fuel fuel' : Nat) (hle : fuel ≤ fuel') (h : walkTraceOut s s' sh' C fuel) :
    walkTraceOut s s' sh' C fuel' := by
  obtain ⟨E, D, h1, h2, h3, h4, h5⟩ := h
  exact ⟨E, D, h1, h2, h3, by omega, h5⟩


/-- Trace of a successful book walk: relative to the partial chain `C`
already built (ending at slot `st`), a successful `walkLoop` run extends
it by fresh slices and increments the walked orders' reservations by
exactly the new slices' quantities. -/
theorem walkLoop_trace (side : Side) (limit_px : Nat) :
    ∀ fuel s curr ql tn wp sh st C ql' tn' wp' sh' s',
      walkLoop side limit_px fuel s curr ql tn wp sh st
        = some (Except.ok (ql', tn', wp', sh'), s') →
      poolWFb s.slices = true →
      ordersQtyBounded s.orders = true →
      s.slices.items.length ≤ NIL →
      sliceSeg s sh C NIL →
      (C.map Prod.fst).Nodup →
      (C.getLast?.map Prod.fst = some st ∨ (C = [] ∧ sh = NIL ∧ st = NIL)) →
      walkTraceOut s s' sh' C fuel := by
  intro fuel
  induction fuel with
  | zero =>
    intro s curr ql tn wp sh st C ql' tn' wp' sh' s' h
    exact absurd h (by simp [walkLoop])
  | succ n ih =>
    intro s curr ql tn wp sh st C ql' tn' wp' sh' s' h hwf hbnd hcap hseg hnd hdisj
    rw [walkLoop] at h
    split at h
    · split at h
      · cases h
      · next o ho =>
        dsimp only at h
        split at h
        · cases h
          exact walkTraceOut_refl s sh C (n + 1) hwf hbnd hseg hnd (by omega)
        · split at h
          · exact walkTraceOut_mono _ _ _ _ n (n + 1) (by omega)
              (ih _ _ _ _ _ _ _ C _ _ _ _ _ h hwf hbnd hcap hseg hnd hdisj)
          · next havail =>
            split at h
            · cases h
            · next slice_idx sp halloc =>
              obtain ⟨hfreshd, hcntSp, hlenSp, hneSp, ⟨sl0, hsl0, hsl0u, hsl0'⟩, hwfSp⟩ :=
                Pool.alloc_WF s.slices slice_idx sp hwf halloc
              have hspd : sp.get slice_idx = some sl0.val := by
                have h2 : sp.items[slice_idx]? = some { sl0 with used := true } := by
                  rw [← List.get?_eq_getElem?]; exact hsl0'
                unfold Pool.get
                rw [h2]
                rfl
              have hspAd : (sp.modifyUsed slice_idx (fun _ =>
                  { order_idx := curr, qty := min ql (o.qty - o.reserved_qty), next := NIL })).get slice_idx
                  = some { order_idx := curr, qty := min ql (o.qty - o.reserved_qty), next := NIL } := by
                rw [Pool.get_modifyUsed_self, hspd]
                rfl
              have hqbnd : o.qty ≤ U64MAX := ordersQtyBounded_get s.orders curr o hbnd ho
              have hbnd2 : ordersQtyBounded (s.orders.modifyUsed curr (fun ord =>
                  { ord with reserved_qty := satAdd64 ord.reserved_qty (min ql (o.qty - o.reserved_qty)) })) = true :=
                ordersQtyBounded_modifyUsed _ _ _ (fun _ => rfl) hbnd
              have hdnotC : slice_idx ∉ C.map Prod.fst :=
                sliceSeg_not_mem slice_idx hfreshd C sh NIL hseg
              rcases hdisj with hlastC | ⟨hCnil, hshN, hstN⟩
              · -- nonempty chain: rewrite the tail link and append
                cases hgl : C.getLast? with
                | none => rw [hgl] at hlastC; cases hlastC
                | some pr =>
                  rw [hgl] at hlastC
                  simp only [Option.map_some', Option.some.injEq] at hlastC
                  have hlast : C.getLast? = some (st, pr.2) := by
                    rw [hgl, ← hlastC]
                  have hstmem : (st, pr.2) ∈ C := by
                    rw [← dropLast_getLast?_decomp C (st, pr.2) hlast]
                    simp
                  have hgetst : s.slices.get st = some pr.2 :=
                    sliceSeg_mem C sh NIL hseg (st, pr.2) hstmem
                  have hstd : st ≠ slice_idx := by
                    intro hc
                    exact hdnotC (hc ▸ List.mem_map.mpr ⟨(st, pr.2), hstmem, rfl⟩)
                  have hshne : ¬ sh = NIL := by
                    cases C with
                    | nil => simp at hgl
                    | cons y C1 =>
                      obtain ⟨i1, sl1⟩ := y
                      obtain ⟨hsh1, hget1, _⟩ := hseg
                      have hlt1 : i1 < s.slices.items.length := by
                        unfold Pool.get at hget1
                        cases hq : s.slices.items[i1]? with
                        | none => rw [hq] at hget1; cases hget1
                        | some w => exact (List.getElem?_eq_some.mp hq).1
                      intro hc
                      rw [hsh1] at hc
                      rw [hc] at hlt1
                      unfold NIL at hlt1 hcap
                      omega
                  simp only [if_neg hshne] at h
                  have hst2 : ((sp.modifyUsed slice_idx (fun _ =>
                      { order_idx := curr, qty := min ql (o.qty - o.reserved_qty), next := NIL })).modifyUsed st
                        (fun sl => { sl with next := slice_idx })).get st
                      = some { pr.2 with next := slice_idx } := by
                    rw [Pool.get_modifyUsed_self,
                      Pool.get_modifyUsed_ne sp slice_idx _ st (fun hc => hstd hc.symm),
                      Pool.get_congr s.slices sp st (hneSp st hstd), hgetst]
                    rfl
                  have hd2 : ((sp.modifyUsed slice_idx (fun _ =>
                      { order_idx := curr, qty := min ql (o.qty - o.reserved_qty), next := NIL })).modifyUsed st
                        (fun sl => { sl with next := slice_idx })).get slice_idx
                      = some { order_idx := curr, qty := min ql (o.qty - o.reserved_qty), next := NIL } := by
                    rw [Pool.get_modifyUsed_ne _ st _ slice_idx hstd, hspAd]
                  have hoth : ∀ x ∈ C, x.1 ≠ st →
                      ((sp.modifyUsed slice_idx (fun _ =>
                        { order_idx := curr, qty := min ql (o.qty - o.reserved_qty), next := NIL })).modifyUsed st
                          (fun sl => { sl with next := slice_idx })).get x.1
                        = s.slices.get x.1 := by
                    intro x hx hne
                    have hxd : x.1 ≠ slice_idx := by
                      intro hc
                      exact hdnotC (hc ▸ List.mem_map.mpr ⟨x, hx, rfl⟩)
                    rw [Pool.get_modifyUsed_ne _ st _ x.1 (fun hc => hne hc.symm),
                      Pool.get_modifyUsed_ne _ slice_idx _ x.1 (fun hc => hxd hc.symm)]
                    exact Pool.get_congr s.slices sp x.1 (hneSp x.1 hxd)
                  have hwf2 : poolWFb ((sp.modifyUsed slice_idx (fun _ =>
                      { order_idx := curr, qty := min ql (o.qty - o.reserved_qty), next := NIL })).modifyUsed st
                        (fun sl => { sl with next := slice_idx })) = true :=
                    Pool.modifyUsed_WF _ _ _ (Pool.modifyUsed_WF _ _ _ hwfSp)
                  have hcap2 : ((sp.modifyUsed slice_idx (fun _ =>
                      { order_idx := curr, qty := min ql (o.qty - o.reserved_qty), next := NIL })).modifyUsed st
                        (fun sl => { sl with next := slice_idx })).items.length ≤ NIL := by
                    rw [Pool.modifyUsed_length, Pool.modifyUsed_length, hlenSp]
                    exact hcap
                  have hnd2 : ((C.dropLast ++ [(st, { pr.2 with next := slice_idx }),
                      (slice_idx, { order_idx := curr, qty := min ql (o.qty - o.reserved_qty), next := NIL })]).map Prod.fst).Nodup := by
                    rw [fst_snoc_chain C st slice_idx pr.2 _ hlast]
                    refine List.Nodup.append hnd (List.nodup_singleton _) ?_
                    intro a ha hb
                    exact hdnotC ((List.mem_singleton.mp hb) ▸ ha)
                  have tr := ih _ _ _ _ _ _ _
                    (C.dropLast ++ [(st, { pr.2 with next := slice_idx }),
                      (slice_idx, { order_idx := curr, qty := min ql (o.qty - o.reserved_qty), next := NIL })])
                    _ _ _ _ _ h hwf2 hbnd2 hcap2
                    (sliceSeg_snoc slice_idx st _ pr.2 C sh hseg hlast hnd hst2 hd2 rfl hoth)
                    hnd2
                    (Or.inl (by rw [getLast?_snoc_chain]; rfl))
                  obtain ⟨E, D', hsegE, hndE, hdataE, hDlen, hcntE, hlenE, hwfE, hbndE,
                    hordE, hoffE⟩ := tr
                  refine ⟨E, (slice_idx, curr, min ql (o.qty - o.reserved_qty)) :: D',
                    hsegE, hndE, ?_, ?_, ?_, ?_, hwfE, hbndE, ?_, ?_⟩
                  · rw [hdataE, chainData_snoc_chain C st slice_idx pr.2 _ hlast]
                    simp
                  · simp only [List.length_cons]
                    omega
                  · have h1 : s'.slices.used_count
                        = ((sp.modifyUsed slice_idx (fun _ =>
                            { order_idx := curr, qty := min ql (o.qty - o.reserved_qty), next := NIL })).modifyUsed st
                            (fun sl => { sl with next := slice_idx })).used_count
                          + D'.length := hcntE
                    rw [Pool.modifyUsed_used_count, Pool.modifyUsed_used_count, hcntSp] at h1
                    rw [h1]
                    simp only [List.length_cons]
                    omega
                  · have h1 : s'.slices.items.length
                        = ((sp.modifyUsed slice_idx (fun _ =>
                            { order_idx := curr, qty := min ql (o.qty - o.reserved_qty), next := NIL })).modifyUsed st
                            (fun sl => { sl with next := slice_idx })).items.length := hlenE
                    rw [Pool.modifyUsed_length, Pool.modifyUsed_length, hlenSp] at h1
                    exact h1
                  · intro j
                    have h1 : s'.orders.get j
                        = ((s.orders.modifyUsed curr (fun ord =>
                            { ord with reserved_qty := satAdd64 ord.reserved_qty (min ql (o.qty - o.reserved_qty)) })).get j).map
                          (fun o => { o with reserved_qty := o.reserved_qty + addsOf D' j }) := hordE j
                    rw [h1]
                    by_cases hj : curr = j
                    · subst hj
                      rw [Pool.get_modifyUsed_self, ho]
                      have hsat : satAdd64 o.reserved_qty (min ql (o.qty - o.reserved_qty))
                          = o.reserved_qty + min ql (o.qty - o.reserved_qty) := by
                        apply satAdd64_eq
                        have := Nat.min_le_right ql (o.qty - o.reserved_qty)
                        omega
                      simp [addsOf, hsat, Nat.add_assoc]
                    · rw [Pool.get_modifyUsed_ne _ _ _ _ hj]
                      cases hg : s.orders.get j with
                      | none => rfl
                      | some o2 => simp [addsOf, hj]
                  · exact hoffE
              · -- empty chain: the new slice starts it
                subst hCnil
                simp only [if_pos hshN] at h
                have hd2nil : (sp.modifyUsed slice_idx (fun _ =>
                    { order_idx := curr, qty := min ql (o.qty - o.reserved_qty), next := NIL })).get slice_idx
                    = some { order_idx := curr, qty := min ql (o.qty - o.reserved_qty), next := NIL } := hspAd
                have hwf2 : poolWFb (sp.modifyUsed slice_idx (fun _ =>
                    { order_idx := curr, qty := min ql (o.qty - o.reserved_qty), next := NIL })) = true := Pool.modifyUsed_WF _ _ _ hwfSp
                have hcap2 : (sp.modifyUsed slice_idx (fun _ =>
                    { order_idx := curr, qty := min ql (o.qty - o.reserved_qty), next := NIL })).items.length ≤ NIL := by
                  rw [Pool.modifyUsed_length, hlenSp]
                  exact hcap
                have tr := ih _ _ _ _ _ _ _
                  [(slice_idx, { order_idx := curr, qty := min ql (o.qty - o.reserved_qty), next := NIL })]
                  _ _ _ _ _ h hwf2 hbnd2 hcap2
                  ⟨rfl, hd2nil, rfl⟩
                  (by simp)
                  (Or.inl (by simp [List.getLast?_singleton]))
                obtain ⟨E, D', hsegE, hndE, hdataE, hDlen, hcntE, hlenE, hwfE, hbndE,
                  hordE, hoffE⟩ := tr
                refine ⟨E, (slice_idx, curr, min ql (o.qty - o.reserved_qty)) :: D',
                  hsegE, hndE, ?_, ?_, ?_, ?_, hwfE, hbndE, ?_, ?_⟩
                · rw [hdataE]
                  simp [chainData]
                · simp only [List.length_cons]
                  omega
                · have h1 : s'.slices.used_count
                      = (sp.modifyUsed slice_idx (fun _ =>
                          { order_idx := curr, qty := min ql (o.qty - o.reserved_qty), next := NIL })).used_count + D'.length := hcntE
                  rw [Pool.modifyUsed_used_count, hcntSp] at h1
                  rw [h1]
                  simp only [List.length_cons]
                  omega
                · have h1 : s'.slices.items.length
                      = (sp.modifyUsed slice_idx (fun _ =>
                          { order_idx := curr, qty := min ql (o.qty - o.reserved_qty), next := NIL })).items.length := hlenE
                  rw [Pool.modifyUsed_length, hlenSp] at h1
                  exact h1
                · intro j
                  have h1 : s'.orders.get j
                      = ((s.orders.modifyUsed curr (fun ord =>
                          { ord with reserved_qty := satAdd64 ord.reserved_qty (min ql (o.qty - o.reserved_qty)) })).get j).map
                        (fun o => { o with reserved_qty := o.reserved_qty + addsOf D' j }) := hordE j
                  rw [h1]
                  by_cases hj : curr = j
                  · subst hj
                    rw [Pool.get_modifyUsed_self, ho]
                    have hsat : satAdd64 o.reserved_qty (min ql (o.qty - o.reserved_qty))
                        = o.reserved_qty + min ql (o.qty - o.reserved_qty) := by
                      apply satAdd64_eq
                      have := Nat.min_le_right ql (o.qty - o.reserved_qty)
                      omega
                    simp [addsOf, hsat, Nat.add_assoc]
                  · rw [Pool.get_modifyUsed_ne _ _ _ _ hj]
                    cases hg : s.orders.get j with
                    | none => rfl
                    | some o2 => simp [addsOf, hj]
                · exact hoffE
    · cases h
      exact walkTraceOut_refl s sh C (n + 1) hwf hbnd hseg hnd (by omega)


/-- `find_reservation` returns the first matching slot. -/
theorem findResvAux_first (hold : Nat) :
    ∀ (items : List (Slot Reservation)) (base tgt : Nat),
      tgt < items.length →
      (∀ j sl, j < tgt → items.get? j = some sl → sl.used = true → sl.val.hold_id ≠ hold) →
      (∀ sl, items.get? tgt = some sl → sl.used = true ∧ sl.val.hold_id = hold) →
      findResvAux hold items base = some (base + tgt) := by
  intro items
  induction items with
  | nil => intro base tgt h; simp at h
  | cons x rest ih =>
    intro base tgt hlt hbefore hat
    unfold findResvAux
    cases tgt with
    | zero =>
      rw [if_pos (hat x rfl)]
      rfl
    | succ t =>
      have hx : ¬(x.used = true ∧ x.val.hold_id = hold) := by
        intro hc
        exact hbefore 0 x (by omega) rfl hc.1 hc.2
      rw [if_neg hx]
      have := ih (base + 1) t (by simpa using hlt)
        (fun j sl hj hsl => hbefore (j + 1) sl (by omega) hsl)
        (fun sl hsl => hat sl hsl)
      rw [this]
      have harith : base + 1 + t = base + (t + 1) := by omega
      rw [harith]

/-- Pool-level first-match specification for `find_reservation`. -/
theorem find_reservation_first (s : SlabState) (hold tgt : Nat)
    (hlt : tgt < s.reservations.items.length)
    (hbefore : ∀ j, j < tgt → ∀ r, s.reservations.get j = some r → r.hold_id ≠ hold)
    (hat : ∃ r, s.reservations.get tgt = some r ∧ r.hold_id = hold) :
    find_reservation s hold = Except.ok tgt := by
  obtain ⟨r, hr, hrh⟩ := hat
  unfold find_reservation
  have hfind : findResvAux hold s.reservations.items 0 = some (0 + tgt) := by
    apply findResvAux_first hold s.reservations.items 0 tgt hlt
    · intro j sl hj hsl hu
      have hg : s.reservations.get j = some sl.val := by
        unfold Pool.get
        rw [← List.get?_eq_getElem?, hsl]
        dsimp only
        rw [if_pos hu]
      exact hbefore j hj sl.val hg
    · intro sl hsl
      unfold Pool.get at hr
      rw [← List.get?_eq_getElem?, hsl] at hr
      dsimp only at hr
      by_cases hu : sl.used = true
      · rw [if_pos hu] at hr
        cases hr
        exact ⟨hu, hrh⟩
      · rw [if_neg hu] at hr
        cases hr
  rw [hfind]
  have : 0 + tgt = tgt := by omega
  rw [this]

/-- Anatomy of a successful `reserve`: the reservation-pool allocation,
the inner walk, and the final reservation write, with the returned
`hold_id` being the pre-state's `next_hold_id`. -/
theorem reserve_ok_spec (fuel : Nat) (s0 : SlabState) (ai ii : Nat) (side : Side)
    (qty px ttl : Nat) (ch : List Nat) (rid : Nat) (res : ReserveResult) (s1 : SlabState)
    (hrun : reserve fuel s0 ai ii side qty px ttl ch rid = some (Except.ok res, s1)) :
    ∃ (resv_idx : Nat) (rp : Pool Reservation) (contra : Side) (head ql2 tn2 wp2 shd : Nat)
      (sC : SlabState) (pop : Reservation),
      s0.reservations.alloc = some (resv_idx, rp) ∧
      walkLoop contra px fuel
        { s0 with reservations := rp, header := (s0.header.nextHoldId).2 }
        head qty 0 px NIL NIL = some (Except.ok (ql2, tn2, wp2, shd), sC) ∧
      s1 = sC.modifyReservation resv_idx (fun _ => pop) ∧
      pop.hold_id = res.hold_id ∧
      pop.committed = false ∧
      pop.slice_head = shd ∧
      res.hold_id = s0.header.next_hold_id := by
  unfold reserve at hrun
  split at hrun
  · cases hrun
  · next ins hins =>
    split at hrun
    · cases hrun
    · split at hrun
      · cases hrun
      · split at hrun
        · cases hrun
        · next resv_idx rp hal =>
          dsimp only at hrun
          split at hrun
          · cases hrun
          · cases hrun
          · next fq tn wpx shd sC hwalk =>
            try dsimp only at hrun
            cases hrun
            unfold walk_and_reserve at hwalk
            split at hwalk
            · cases hwalk
            · next ins2 hins2 =>
              dsimp only at hwalk
              split at hwalk
              · cases hwalk
              · cases hwalk
              · next ql2 tn2 wp2 sh2 sC2 hwl =>
                cases hwalk
                exact ⟨resv_idx, rp, _, _, ql2, tn, wpx, shd, sC, _,
                  hal, hwl, rfl, rfl, rfl, rfl, rfl⟩


/-- C6: Cancel is a left-inverse of Reserve. On any well-formed slab
(duplicate-free slice freelist, `u64`-representable order quantities,
slice capacity below the NIL sentinel, and a `next_hold_id` not already
carried by a live reservation), a successful `reserve` followed by
`cancel` of the returned `hold_id` succeeds, restores every order's
`reserved_qty`, leaves `book_seqno` unchanged (reserve itself never
increments it), and returns the slice- and reservation-pool used counts
to their starting values. -/
theorem claim_C6_cancel_left_inverse_of_reserve
    (fuel : Nat) (s0 : SlabState) (ai ii : Nat) (side : Side)
    (qty px ttl : Nat) (ch : List Nat) (rid : Nat)
    (res : ReserveResult) (s1 : SlabState)
    (hwf : poolWFb s0.slices = true)
    (hbnd : ordersQtyBounded s0.orders = true)
    (hcap : s0.slices.items.length ≤ NIL)
    (hfresh : ∀ sl ∈ s0.reservations.items, sl.used = true →
      sl.val.hold_id ≠ s0.header.next_hold_id)
    (hrun : reserve fuel s0 ai ii side qty px ttl ch rid = some (Except.ok res, s1)) :
    s1.header.book_seqno = s0.header.book_seqno ∧
    ∃ s2, cancel fuel s1 res.hold_id = some (Except.ok (), s2) ∧
      (∀ j : Nat, (s2.orders.get j).map Order.reserved_qty
        = (s0.orders.get j).map Order.reserved_qty) ∧
      s2.slices.used_count = s0.slices.used_count ∧
      s2.reservations.used_count = s0.reservations.used_count ∧
      s2.header.book_seqno = s0.header.book_seqno := by
  obtain ⟨rIdx, rp, contra, head, ql2, tn2, wp2, shd, sC, pop,
    hal, hwl, hs1, hpopH, hpopC, hpopSH, hresH⟩ :=
    reserve_ok_spec fuel s0 ai ii side qty px ttl ch rid res s1 hrun
  obtain ⟨hidx, hcnt0, slR, hslR, hrp⟩ := Pool.alloc_some s0.reservations rIdx rp hal
  have tr := walkLoop_trace contra px fuel
    { s0 with reservations := rp, header := (s0.header.nextHoldId).2 }
    head qty 0 px NIL NIL [] ql2 tn2 wp2 shd sC hwl hwf hbnd hcap rfl (by simp)
    (Or.inr ⟨rfl, rfl, rfl⟩)
  obtain ⟨E, D, hsegE, hndE, hdataE, hDlen, hcntE, hlenE, hwfE, hbndE, hordE, hoffE⟩ := tr
  obtain ⟨hoffH, hoffA, hoffI, hoffIC, hoffP, hoffR, hoffT, hoffTH, hoffTC⟩ := hoffE
  have hdataE' : chainData E = D := by simpa [chainData] using hdataE
  have hElen : E.length = D.length := by
    have := congrArg List.length hdataE'
    simpa [chainData] using this
  have hs1hdr : s1.header = (s0.header.nextHoldId).2 := by
    rw [hs1, SlabState.modifyReservation_header, hoffH]
  have hbook1 : s1.header.book_seqno = s0.header.book_seqno := by
    rw [hs1hdr]
    rfl
  refine ⟨hbook1, ?_⟩
  have hResPool : s1.reservations = rp.modifyUsed rIdx (fun _ => pop) := by
    rw [hs1]
    show sC.reservations.modifyUsed rIdx (fun _ => pop) = rp.modifyUsed rIdx (fun _ => pop)
    rw [hoffR]
  have hslR' : s0.reservations.items[rIdx]? = some slR := by
    rw [hidx]
    exact hslR
  have hltR : rIdx < s0.reservations.items.length := (List.getElem?_eq_some.mp hslR').1
  have hrpItems : rp.items = s0.reservations.items.set rIdx { slR with used := true } := by
    rw [hrp, hidx]
  have hrpGet : rp.get rIdx = some slR.val := by
    unfold Pool.get
    rw [hrpItems, List.getElem?_set_self', hslR']
    rfl
  have hs1Get : s1.reservations.get rIdx = some pop := by
    rw [hResPool, Pool.get_modifyUsed_self, hrpGet]
    rfl
  have hs1ResLen : s1.reservations.items.length = s0.reservations.items.length := by
    rw [hResPool, Pool.modifyUsed_length, hrpItems]
    simp
  have hfind : find_reservation s1 res.hold_id = Except.ok rIdx := by
    refine find_reservation_first s1 res.hold_id rIdx ?_ ?_ ⟨pop, hs1Get, hpopH⟩
    · rw [hs1ResLen]
      exact hltR
    · intro j hj r hgr
      have hne : rIdx ≠ j := by omega
      have hgj : s1.reservations.get j = s0.reservations.get j := by
        rw [hResPool, Pool.get_modifyUsed_ne _ _ _ _ hne]
        apply Pool.get_congr
        rw [List.get?_eq_getElem?, List.get?_eq_getElem?, hrpItems,
          List.getElem?_set_ne hne]
      rw [hgj] at hgr
      unfold Pool.get at hgr
      cases hq : s0.reservations.items[j]? with
      | none => rw [hq] at hgr; cases hgr
      | some slj =>
        rw [hq] at hgr
        dsimp only at hgr
        by_cases hu : slj.used = true
        · rw [if_pos hu] at hgr
          cases hgr
          rw [hresH]
          exact hfresh slj (List.getElem?_mem hq) hu
        · rw [if_neg hu] at hgr
          cases hgr
  have hs1slices : s1.slices = sC.slices := by
    rw [hs1]
    rfl
  have hseg1 : sliceSeg s1 shd E NIL := by
    refine sliceSeg_transport E shd NIL hsegE ?_
    intro x hx
    rw [hs1]
    rfl
  have hcap1 : s1.slices.items.length ≤ NIL := by
    rw [hs1slices]
    have hlenE' : sC.slices.items.length = s0.slices.items.length := hlenE
    rw [hlenE']
    exact hcap
  obtain ⟨t2, hfree, hordT, hcntT, hlenT, hoffT2⟩ :=
    freeSlicesLoop_effects E fuel s1 shd hseg1 hndE hcap1 (by omega)
  refine ⟨{ t2 with reservations := t2.reservations.free rIdx }, ?_, ?_, ?_, ?_, ?_⟩
  · unfold cancel
    rw [hfind]
    dsimp only
    rw [hs1Get]
    dsimp only
    rw [if_neg (by simp [hpopC])]
    rw [hpopSH]
    rw [show free_slices fuel s1 shd = some (Except.ok (), t2) from hfree]
  · intro j
    show (t2.orders.get j).map Order.reserved_qty = (s0.orders.get j).map Order.reserved_qty
    have h1 : t2.orders.get j = (s1.orders.get j).map
        (fun o => { o with reserved_qty := o.reserved_qty - addsOf (chainData E) j }) :=
      hordT j
    have h2 : s1.orders.get j = sC.orders.get j := by
      rw [hs1]
      rfl
    have h3 : sC.orders.get j = (s0.orders.get j).map
        (fun o => { o with reserved_qty := o.reserved_qty + addsOf D j }) := hordE j
    rw [h1, h2, h3, hdataE']
    cases hg : s0.orders.get j with
    | none => rfl
    | some o => simp
  · show t2.slices.used_count = s0.slices.used_count
    rw [hcntT, hs1slices]
    have hcntE' : sC.slices.used_count = s0.slices.used_count + D.length := hcntE
    rw [hcntE', hElen]
    omega
  · show (t2.reservations.free rIdx).used_count = s0.reservations.used_count
    have hT2R : t2.reservations = s1.reservations := hoffT2.2.2.2.2.2.1
    have hg2 : t2.reservations.get rIdx = some pop := by
      rw [hT2R]
      exact hs1Get
    rw [(Pool.free_used_count t2.reservations rIdx pop hg2).1, hT2R, hResPool,
      Pool.modifyUsed_used_count, hrp]
    simp
  · show t2.header.book_seqno = s0.header.book_seqno
    rw [hoffT2.1, hbook1]


/-- Witness for C6 on `slab1`: the sample reserve succeeds and the
paired cancel restores reserved quantities, the book seqno and both pool
counters. -/
theorem claim_C6_witness :
    poolWFb slab1.slices = true ∧
    reserve 20 slab1 0 0 Side.Buy 10 60 1000 [] 0 = some (Except.ok c6res, c6post) ∧
    (c6post.header.book_seqno = slab1.header.book_seqno ∧
      ∃ s2, cancel 20 c6post c6res.hold_id = some (Except.ok (), s2) ∧
        (∀ j : Nat, (s2.orders.get j).map Order.reserved_qty
          = (slab1.orders.get j).map Order.reserved_qty) ∧
        s2.slices.used_count = slab1.slices.used_count ∧
        s2.reservations.used_count = slab1.reservations.used_count ∧
        s2.header.book_seqno = slab1.header.book_seqno) :=
  ⟨by decide, by decide,
    claim_C6_cancel_left_inverse_of_reserve 20 slab1 0 0 Side.Buy 10 60 1000 [] 0
      c6res c6post (by decide) (by decide) (by decide) (by decide) (by decide)⟩


/-! ### Order-chain machinery (C8) -/

/-- Every pair listed by an order-chain walk is live in the order pool. -/
theorem orderSegT_mem {s : SlabState} :
    ∀ C h t, orderSegT s h C t → ∀ x ∈ C, s.orders.get x.1 = some x.2 := by
  intro C
  induction C with
  | nil => intro h t _ x hx; cases hx
  | cons y C ih =>
    intro h t hseg x hx
    obtain ⟨i, o⟩ := y
    obtain ⟨_, hget, hseg'⟩ := hseg
    rcases List.mem_cons.mp hx with hx | hx
    · rw [hx]; exact hget
    · exact ih o.next t hseg' x hx

/-- Order-chain walks transport along states agreeing on the chain. -/
theorem orderSegT_transport {s s2 : SlabState} :
    ∀ C h t, orderSegT s h C t →
      (∀ x ∈ C, s2.orders.get x.1 = s.orders.get x.1) → orderSegT s2 h C t := by
  intro C
  induction C with
  | nil => intro h t hseg _; exact hseg
  | cons y C ih =>
    intro h t hseg hag
    obtain ⟨i, o⟩ := y
    obtain ⟨hsh, hget, hseg'⟩ := hseg
    exact ⟨hsh, by rw [hag (i, o) (by simp)]; exact hget,
      ih o.next t hseg' (fun x hx => hag x (List.mem_cons_of_mem _ hx))⟩

/-- Chain slots are in range, hence distinct from the NIL sentinel. -/
theorem orderSegT_ne_NIL {s : SlabState} (hcap : s.orders.items.length ≤ NIL) :
    ∀ C h t, orderSegT s h C t → ∀ x ∈ C, x.1 ≠ NIL := by
  intro C h t hseg x hx
  have hget := orderSegT_mem C h t hseg x hx
  unfold Pool.get at hget
  cases hq : s.orders.items[x.1]? with
  | none => rw [hq] at hget; cases hget
  | some sl =>
    have hlt : x.1 < s.orders.items.length := (List.getElem?_eq_some.mp hq).1
    intro hc
    rw [hc] at hlt
    unfold NIL at hlt hcap
    omega

/-- Decomposing an order-chain walk across an append. -/
theorem orderSegT_append {s : SlabState} :
    ∀ A B h t, orderSegT s h (A ++ B) t ↔ ∃ m, orderSegT s h A m ∧ orderSegT s m B t := by
  intro A
  induction A with
  | nil =>
    intro B h t
    constructor
    · intro hseg
      exact ⟨h, rfl, hseg⟩
    · intro ⟨m, hm, hseg⟩
      have : h = m := hm
      rw [this]
      exact hseg
  | cons y A ih =>
    intro B h t
    obtain ⟨i, o⟩ := y
    constructor
    · intro ⟨hsh, hget, hseg⟩
      obtain ⟨m, h1, h2⟩ := (ih B o.next t).mp hseg
      exact ⟨m, ⟨hsh, hget, h1⟩, h2⟩
    · intro ⟨m, ⟨hsh, hget, h1⟩, h2⟩
      exact ⟨hsh, hget, (ih B o.next t).mpr ⟨m, h1, h2⟩⟩

/-- `sortedByB` is `sortedPI` after projecting to `(price, order_id)`. -/
theorem sortedByB_eq_sortedPI (side : Side) :
    ∀ l : List Order, sortedByB side l = sortedPI side (l.map prId) := by
  intro l
  induction l with
  | nil => cases side <;> rfl
  | cons a l ih =>
    cases l with
    | nil => cases side <;> rfl
    | cons b r =>
      cases side
      · show bidSortedB (a :: b :: r) = _
        unfold bidSortedB
        rw [show sortedPI Side.Buy ((a :: b :: r).map prId)
            = (pairPI Side.Buy (prId a) (prId b)
                && sortedPI Side.Buy ((b :: r).map prId)) from rfl]
        rw [show bidSortedB (b :: r) = sortedByB Side.Buy (b :: r) from rfl]
        rw [ih]
        rfl
      · show askSortedB (a :: b :: r) = _
        unfold askSortedB
        rw [show sortedPI Side.Sell ((a :: b :: r).map prId)
            = (pairPI Side.Sell (prId a) (prId b)
                && sortedPI Side.Sell ((b :: r).map prId)) from rfl]
        rw [show askSortedB (b :: r) = sortedByB Side.Sell (b :: r) from rfl]
        rw [ih]
        rfl

/-- Two-step unfolding of `sortedPI`. -/
theorem sortedPI_cons_cons (side : Side) (a b : Nat × Nat) (l : List (Nat × Nat)) :
    sortedPI side (a :: b :: l) = (pairPI side a b && sortedPI side (b :: l)) := rfl

/-- The priority comparison is transitive. -/
theorem pairPI_trans (side : Side) (a b c : Nat × Nat)
    (h1 : pairPI side a b = true) (h2 : pairPI side b c = true) :
    pairPI side a c = true := by
  cases side <;>
    (unfold pairPI at h1 h2 ⊢
     rw [decide_eq_true_iff] at h1 h2 ⊢
     omega)

/-- Inserting an element between a compatible left and right context
keeps a projected list sorted. -/
theorem sortedPI_insert_mid (side : Side) (x : Nat × Nat) :
    ∀ A B, sortedPI side (A ++ B) = true →
      (∀ a, A.getLast? = some a → pairPI side a x = true) →
      (∀ b, B.head? = some b → pairPI side x b = true) →
      sortedPI side (A ++ x :: B) = true := by
  intro A
  induction A with
  | nil =>
    intro B hs _ hx
    cases B with
    | nil => rfl
    | cons b B' =>
      show (pairPI side x b && sortedPI side (b :: B')) = true
      rw [hx b rfl, show sortedPI side (b :: B') = true from hs]
      rfl
  | cons a A' ih =>
    intro B hs hlast hx
    cases A' with
    | nil =>
      show sortedPI side (a :: x :: B) = true
      rw [sortedPI_cons_cons, hlast a rfl]
      cases B with
      | nil => rfl
      | cons b B' =>
        have hs' : (pairPI side a b && sortedPI side (b :: B')) = true := hs
        rw [Bool.and_eq_true] at hs'
        show (true && (pairPI side x b && sortedPI side (b :: B'))) = true
        rw [hx b rfl, hs'.2]
        rfl
    | cons a2 A'' =>
      have hs' : (pairPI side a a2 && sortedPI side ((a2 :: A'') ++ B)) = true := hs
      rw [Bool.and_eq_true] at hs'
      have := ih B hs'.2 (fun a h => hlast a (by rw [← h]; rfl)) hx
      show (pairPI side a a2 && sortedPI side ((a2 :: A'') ++ x :: B)) = true
      rw [hs'.1, this]
      rfl

/-- Removing an element keeps a projected list sorted. -/
theorem sortedPI_remove_mid (side : Side) (x : Nat × Nat) :
    ∀ A B, sortedPI side (A ++ x :: B) = true → sortedPI side (A ++ B) = true := by
  intro A
  induction A with
  | nil =>
    intro B hs
    cases B with
    | nil => rfl
    | cons b B' =>
      have hs' : (pairPI side x b && sortedPI side (b :: B')) = true := hs
      rw [Bool.and_eq_true] at hs'
      exact hs'.2
  | cons a A' ih =>
    intro B hs
    cases A' with
    | nil =>
      cases B with
      | nil => rfl
      | cons b B' =>
        have hs1 : (pairPI side a x && sortedPI side (x :: b :: B')) = true := hs
        rw [Bool.and_eq_true] at hs1
        have hs2 : (pairPI side x b && sortedPI side (b :: B')) = true := hs1.2
        rw [Bool.and_eq_true] at hs2
        show (pairPI side a b && sortedPI side (b :: B')) = true
        rw [pairPI_trans side a x b hs1.1 hs2.1, hs2.2]
        rfl
    | cons a2 A'' =>
      have hs' : (pairPI side a a2 && sortedPI side ((a2 :: A'') ++ x :: B)) = true := hs
      rw [Bool.and_eq_true] at hs'
      show (pairPI side a a2 && sortedPI side ((a2 :: A'') ++ B)) = true
      rw [hs'.1, ih B hs'.2]
      rfl

/-- `prevChainB` across an append. -/
theorem prevChainB_append :
    ∀ A B p, prevChainB p (A ++ B)
      = (prevChainB p A && prevChainB ((A.getLast?.map Prod.fst).getD p) B) := by
  intro A
  induction A with
  | nil => intro B p; rfl
  | cons y A' ih =>
    intro B p
    obtain ⟨i, o⟩ := y
    show (decide (o.prev = p) && prevChainB i (A' ++ B))
      = ((decide (o.prev = p) && prevChainB i A')
          && prevChainB (((((i, o) :: A').getLast?).map Prod.fst).getD p) B)
    rw [ih B i]
    cases A' with
    | nil => simp [List.getLast?_singleton, Bool.and_assoc]
    | cons z A'' =>
      rw [List.getLast?_cons_cons]
      cases hz : (z :: A'').getLast? with
      | none => simp at hz
      | some w =>
        simp [Bool.and_assoc]


/-- The search loop of `insert_order` splits the chain at the insertion
point: everything before fails the insert-before test, the found
successor (if any) passes it. -/
theorem insertFindPos_split (s : SlabState) (side : Side) (px nid : Nat) :
    ∀ C fuel h prevI p c,
      orderSegT s h C NIL →
      (∀ x ∈ C, x.1 ≠ NIL) →
      insertFindPos s side px nid fuel h prevI = some (Except.ok (p, c)) →
      ∃ C1 C2, C = C1 ++ C2 ∧
        (∀ x ∈ C1, insBefore side px nid x.2 = false) ∧
        (match C2 with
         | [] => c = NIL
         | (i, _) :: _ => c = i) ∧
        (∀ i2 o2 r2, C2 = (i2, o2) :: r2 → insBefore side px nid o2 = true) ∧
        (match C1 with
         | [] => p = prevI
         | _ => C1.getLast?.map Prod.fst = some p) := by
  intro C
  induction C with
  | nil =>
    intro fuel h prevI p c hseg _ hrun
    have hh : h = NIL := hseg
    cases fuel with
    | zero => cases hrun
    | succ n =>
      unfold insertFindPos at hrun
      rw [if_pos hh] at hrun
      simp only [Option.some.injEq, Except.ok.injEq, Prod.mk.injEq] at hrun
      refine ⟨[], [], rfl, ?_, ?_, ?_, ?_⟩
      · intro x hx; cases hx
      · show c = NIL
        rw [← hrun.2, hh]
      · intro i2 o2 r2 hc; cases hc
      · show p = prevI
        exact hrun.1.symm
  | cons y C ih =>
    intro fuel h prevI p c hseg hnn hrun
    obtain ⟨i, o⟩ := y
    obtain ⟨hh, hget, hseg'⟩ := hseg
    subst hh
    cases fuel with
    | zero => cases hrun
    | succ n =>
      unfold insertFindPos at hrun
      rw [if_neg (hnn (h, o) (by simp))] at hrun
      rw [hget] at hrun
      dsimp only at hrun
      split at hrun
      · next hib =>
        simp only [Option.some.injEq, Except.ok.injEq, Prod.mk.injEq] at hrun
        refine ⟨[], (h, o) :: C, rfl, (by intro x hx; cases hx), ?_, ?_, ?_⟩
        · show c = h
          exact hrun.2.symm
        · intro i2 o2 r2 hc
          cases hc
          exact hib
        · show p = prevI
          exact hrun.1.symm
      · next hib =>
        obtain ⟨C1, C2, hCsplit, hC1, hC2c, hC2ib, hC1p⟩ :=
          ih n o.next h p c hseg' (fun x hx => hnn x (List.mem_cons_of_mem _ hx)) hrun
        refine ⟨(h, o) :: C1, C2, (by rw [hCsplit]; rfl), ?_, hC2c, hC2ib, ?_⟩
        · intro x hx
          rcases List.mem_cons.mp hx with hx | hx
          · rw [hx]
            exact Bool.eq_false_iff.mpr hib
          · exact hC1 x hx
        · cases C1 with
          | nil =>
            show (([(h, o)].getLast?).map Prod.fst) = some p
            rw [List.getLast?_singleton]
            show some h = some p
            rw [show p = h from hC1p]
          | cons z C1' =>
            show ((((h, o) :: z :: C1').getLast?).map Prod.fst) = some p
            rw [List.getLast?_cons_cons]
            exact hC1p

/-- Anatomy of a successful `insert_order`. -/
theorem insert_ok_spec (fuel : Nat) (s : SlabState) (ii oi : Nat) (side : Side)
    (px : Nat) (st : OrderState) (s' : SlabState)
    (hrun : insert_order fuel s ii oi side px st = some (Except.ok (), s')) :
    ∃ ins, s.get_instrument ii = some ins ∧
      ((ins.headOf side st = NIL ∧ s' = insertedHeadState s ii oi side st) ∨
       (ins.headOf side st ≠ NIL ∧ ∃ newO p c,
         s.orders.get oi = some newO ∧
         insertFindPos s side px newO.order_id fuel (ins.headOf side st) NIL
           = some (Except.ok (p, c)) ∧
         s' = insertedState s ii oi side st p c)) := by
  unfold insert_order at hrun
  split at hrun
  · cases hrun
  · next ins hins =>
    try dsimp only at hrun
    split at hrun
    · next hh =>
      cases hrun
      exact ⟨ins, hins, Or.inl ⟨hh, rfl⟩⟩
    · next hh =>
      split at hrun
      · cases hrun
      · next newO hnew =>
        split at hrun
        · cases hrun
        · cases hrun
        · next p c hfind =>
          try dsimp only at hrun
          cases hrun
          exact ⟨ins, hins, Or.inr ⟨hh, newO, p, c, hnew, hfind, rfl⟩⟩

/-- Anatomy of a successful `remove_order`. -/
theorem remove_ok_spec (s : SlabState) (ii oi : Nat) (s' : SlabState)
    (hrun : remove_order s ii oi = (Except.ok (), s')) :
    ∃ o ins, s.orders.get oi = some o ∧ s.get_instrument ii = some ins ∧
      s' = removedState s ii o := by
  unfold remove_order at hrun
  split at hrun
  · cases hrun
  · next o ho =>
    split at hrun
    · cases hrun
    · next ins hins =>
      dsimp only at hrun
      cases hrun
      exact ⟨o, ins, ho, hins, rfl⟩

/-- `remove_order` succeeds on a live order of a live instrument. -/
theorem remove_ok_total (s : SlabState) (ii oi : Nat) (o : Order) (ins : Instrument)
    (ho : s.orders.get oi = some o) (hins : s.get_instrument ii = some ins) :
    remove_order s ii oi = (Except.ok (), removedState s ii o) := by
  unfold remove_order
  rw [ho]
  dsimp only
  rw [hins]
  rfl


/-- `modify_instrument` leaves the order pool alone. -/
theorem SlabState.modifyInstrument_orders (s : SlabState) (ii : Nat)
    (f : Instrument → Instrument) : (s.modifyInstrument ii f).orders = s.orders := by
  unfold SlabState.modifyInstrument
  by_cases hi : ii < s.instrument_count
  · simp only [hi, if_true]
    cases s.instruments[ii]? <;> rfl
  · simp only [hi, if_false]

/-- Order update at the pool level. -/
theorem SlabState.modifyOrder_orders (s : SlabState) (i : Nat) (f : Order → Order) :
    (s.modifyOrder i f).orders = s.orders.modifyUsed i f := rfl

/-- Order updates leave instruments alone. -/
theorem SlabState.modifyOrder_instrument (s : SlabState) (i : Nat) (f : Order → Order)
    (ii : Nat) : (s.modifyOrder i f).get_instrument ii = s.get_instrument ii := rfl

/-- Header updates leave instruments alone. -/
theorem SlabState.get_instrument_setHeader (s : SlabState) (h : SlabHeader) (ii : Nat) :
    SlabState.get_instrument { s with header := h } ii = s.get_instrument ii := rfl

/-- `get_instrument` after `get_instrument_mut`-style update. -/
theorem SlabState.get_modifyInstrument_self (s : SlabState) (ii : Nat)
    (f : Instrument → Instrument) :
    (s.modifyInstrument ii f).get_instrument ii = (s.get_instrument ii).map f := by
  unfold SlabState.modifyInstrument SlabState.get_instrument
  by_cases hi : ii < s.instrument_count
  · simp only [hi, if_true]
    cases hq : s.instruments[ii]? with
    | none => simp [hq, hi]
    | some ins => simp [hq, hi, List.getElem?_set_self']
  · simp [hi]

/-- Writing one head leaves the written combination readable. -/
theorem Instrument.headOf_setHead_self (ins : Instrument) (side : Side) (st : OrderState)
    (v : Nat) : (ins.setHead side st v).headOf side st = v := by
  cases side <;> cases st <;> rfl

/-- Writing one head leaves the other combinations alone. -/
theorem Instrument.headOf_setHead_ne (ins : Instrument) (side side' : Side)
    (st st' : OrderState) (v : Nat) (h : ¬(side' = side ∧ st' = st)) :
    (ins.setHead side st v).headOf side' st' = ins.headOf side' st' := by
  cases side <;> cases side' <;> cases st <;> cases st' <;>
    first
    | rfl
    | exact absurd ⟨rfl, rfl⟩ h

/-- Reads from the spliced state: the new node. -/
theorem insertedState_get_oi (s : SlabState) (ii oi : Nat) (side : Side) (st : OrderState)
    (p c : Nat) (hpo : p ≠ oi) (hco : c ≠ oi) :
    (insertedState s ii oi side st p c).orders.get oi
      = (s.orders.get oi).map (fun o => { o with next := c, prev := p }) := by
  unfold insertedState
  dsimp only
  by_cases hc : c ≠ NIL <;> by_cases hp : p = NIL
  · rw [if_pos hc, if_pos hp, SlabState.modifyOrder_orders,
      Pool.get_modifyUsed_ne _ _ _ _ hco, SlabState.modifyInstrument_orders,
      SlabState.modifyOrder_orders, Pool.get_modifyUsed_self]
  · rw [if_pos hc, if_neg hp, SlabState.modifyOrder_orders,
      Pool.get_modifyUsed_ne _ _ _ _ hco, SlabState.modifyOrder_orders,
      Pool.get_modifyUsed_ne _ _ _ _ hpo, SlabState.modifyOrder_orders,
      Pool.get_modifyUsed_self]
  · rw [if_neg hc, if_pos hp, SlabState.modifyInstrument_orders,
      SlabState.modifyOrder_orders, Pool.get_modifyUsed_self]
  · rw [if_neg hc, if_neg hp, SlabState.modifyOrder_orders,
      Pool.get_modifyUsed_ne _ _ _ _ hpo, SlabState.modifyOrder_orders,
      Pool.get_modifyUsed_self]

/-- Reads from the spliced state: the predecessor. -/
theorem insertedState_get_p (s : SlabState) (ii oi : Nat) (side : Side) (st : OrderState)
    (p c : Nat) (hp : p ≠ NIL) (hcp : c ≠ p) (hop : oi ≠ p) :
    (insertedState s ii oi side st p c).orders.get p
      = (s.orders.get p).map (fun o => { o with next := oi }) := by
  unfold insertedState
  dsimp only
  by_cases hc : c ≠ NIL
  · rw [if_pos hc, if_neg hp, SlabState.modifyOrder_orders,
      Pool.get_modifyUsed_ne _ _ _ _ hcp, SlabState.modifyOrder_orders,
      Pool.get_modifyUsed_self, SlabState.modifyOrder_orders,
      Pool.get_modifyUsed_ne _ _ _ _ hop]
  · rw [if_neg hc, if_neg hp, SlabState.modifyOrder_orders,
      Pool.get_modifyUsed_self, SlabState.modifyOrder_orders,
      Pool.get_modifyUsed_ne _ _ _ _ hop]

/-- Reads from the spliced state: the successor. -/
theorem insertedState_get_c (s : SlabState) (ii oi : Nat) (side : Side) (st : OrderState)
    (p c : Nat) (hc : c ≠ NIL) (hoc : oi ≠ c) (hpc : p ≠ c) :
    (insertedState s ii oi side st p c).orders.get c
      = (s.orders.get c).map (fun o => { o with prev := oi }) := by
  unfold insertedState
  dsimp only
  by_cases hp : p = NIL
  · rw [if_pos hc, if_pos hp, SlabState.modifyOrder_orders,
      Pool.get_modifyUsed_self, SlabState.modifyInstrument_orders,
      SlabState.modifyOrder_orders, Pool.get_modifyUsed_ne _ _ _ _ hoc]
  · rw [if_pos hc, if_neg hp, SlabState.modifyOrder_orders,
      Pool.get_modifyUsed_self, SlabState.modifyOrder_orders,
      Pool.get_modifyUsed_ne _ _ _ _ hpc, SlabState.modifyOrder_orders,
      Pool.get_modifyUsed_ne _ _ _ _ hoc]

/-- Reads from the spliced state: untouched slots. -/
theorem insertedState_get_other (s : SlabState) (ii oi : Nat) (side : Side) (st : OrderState)
    (p c j : Nat) (hjo : oi ≠ j) (hjp : p ≠ j) (hjc : c ≠ j) :
    (insertedState s ii oi side st p c).orders.get j = s.orders.get j := by
  unfold insertedState
  dsimp only
  by_cases hc : c ≠ NIL <;> by_cases hp : p = NIL
  · rw [if_pos hc, if_pos hp, SlabState.modifyOrder_orders,
      Pool.get_modifyUsed_ne _ _ _ _ hjc, SlabState.modifyInstrument_orders,
      SlabState.modifyOrder_orders, Pool.get_modifyUsed_ne _ _ _ _ hjo]
  · rw [if_pos hc, if_neg hp, SlabState.modifyOrder_orders,
      Pool.get_modifyUsed_ne _ _ _ _ hjc, SlabState.modifyOrder_orders,
      Pool.get_modifyUsed_ne _ _ _ _ hjp, SlabState.modifyOrder_orders,
      Pool.get_modifyUsed_ne _ _ _ _ hjo]
  · rw [if_neg hc, if_pos hp, SlabState.modifyInstrument_orders,
      SlabState.modifyOrder_orders, Pool.get_modifyUsed_ne _ _ _ _ hjo]
  · rw [if_neg hc, if_neg hp, SlabState.modifyOrder_orders,
      Pool.get_modifyUsed_ne _ _ _ _ hjp, SlabState.modifyOrder_orders,
      Pool.get_modifyUsed_ne _ _ _ _ hjo]

/-- Instrument read from the spliced state, head-update case. -/
theorem insertedState_instrument_pnil (s : SlabState) (ii oi : Nat) (side : Side)
    (st : OrderState) (p c : Nat) (hp : p = NIL) :
    (insertedState s ii oi side st p c).get_instrument ii
      = (s.get_instrument ii).map (fun i => i.setHead side st oi) := by
  unfold insertedState
  dsimp only
  rw [SlabState.get_instrument_setHeader]
  by_cases hc : c ≠ NIL
  · rw [if_pos hc, if_pos hp, SlabState.modifyOrder_instrument,
      SlabState.get_modifyInstrument_self, SlabState.modifyOrder_instrument]
  · rw [if_neg hc, if_pos hp, SlabState.get_modifyInstrument_self,
      SlabState.modifyOrder_instrument]

/-- Instrument read from the spliced state, interior case. -/
theorem insertedState_instrument_pne (s : SlabState) (ii oi : Nat) (side : Side)
    (st : OrderState) (p c : Nat) (hp : p ≠ NIL) :
    (insertedState s ii oi side st p c).get_instrument ii = s.get_instrument ii := by
  unfold insertedState
  dsimp only
  rw [SlabState.get_instrument_setHeader]
  by_cases hc : c ≠ NIL
  · rw [if_pos hc, if_neg hp, SlabState.modifyOrder_instrument,
      SlabState.modifyOrder_instrument, SlabState.modifyOrder_instrument]
  · rw [if_neg hc, if_neg hp, SlabState.modifyOrder_instrument,
      SlabState.modifyOrder_instrument]

/-- The spliced state keeps the order-pool capacity. -/
theorem insertedState_orders_length (s : SlabState) (ii oi : Nat) (side : Side)
    (st : OrderState) (p c : Nat) :
    (insertedState s ii oi side st p c).orders.items.length = s.orders.items.length := by
  unfold insertedState
  dsimp only
  by_cases hc : c ≠ NIL <;> by_cases hp : p = NIL
  · rw [if_pos hc, if_pos hp, SlabState.modifyOrder_orders, Pool.modifyUsed_length,
      SlabState.modifyInstrument_orders, SlabState.modifyOrder_orders,
      Pool.modifyUsed_length]
  · rw [if_pos hc, if_neg hp, SlabState.modifyOrder_orders, Pool.modifyUsed_length,
      SlabState.modifyOrder_orders, Pool.modifyUsed_length, SlabState.modifyOrder_orders,
      Pool.modifyUsed_length]
  · rw [if_neg hc, if_pos hp, SlabState.modifyInstrument_orders,
      SlabState.modifyOrder_orders, Pool.modifyUsed_length]
  · rw [if_neg hc, if_neg hp, SlabState.modifyOrder_orders, Pool.modifyUsed_length,
      SlabState.modifyOrder_orders, Pool.modifyUsed_length]

/-- Reads from the fresh-head state: the new node. -/
theorem insertedHeadState_get_oi (s : SlabState) (ii oi : Nat) (side : Side)
    (st : OrderState) :
    (insertedHeadState s ii oi side st).orders.get oi
      = (s.orders.get oi).map (fun o => { o with next := NIL, prev := NIL }) := by
  unfold insertedHeadState
  dsimp only
  rw [SlabState.modifyInstrument_orders, SlabState.modifyOrder_orders,
    Pool.get_modifyUsed_self]

/-- Reads from the fresh-head state: untouched slots. -/
theorem insertedHeadState_get_other (s : SlabState) (ii oi : Nat) (side : Side)
    (st : OrderState) (j : Nat) (hjo : oi ≠ j) :
    (insertedHeadState s ii oi side st).orders.get j = s.orders.get j := by
  unfold insertedHeadState
  dsimp only
  rw [SlabState.modifyInstrument_orders, SlabState.modifyOrder_orders,
    Pool.get_modifyUsed_ne _ _ _ _ hjo]

/-- Instrument read from the fresh-head state. -/
theorem insertedHeadState_instrument (s : SlabState) (ii oi : Nat) (side : Side)
    (st : OrderState) :
    (insertedHeadState s ii oi side st).get_instrument ii
      = (s.get_instrument ii).map (fun i => i.setHead side st oi) := by
  unfold insertedHeadState
  dsimp only
  rw [SlabState.get_instrument_setHeader]
  rw [SlabState.get_modifyInstrument_self, SlabState.modifyOrder_instrument]

/-- The fresh-head state keeps the order-pool capacity. -/
theorem insertedHeadState_orders_length (s : SlabState) (ii oi : Nat) (side : Side)
    (st : OrderState) :
    (insertedHeadState s ii oi side st).orders.items.length = s.orders.items.length := by
  unfold insertedHeadState
  dsimp only
  rw [SlabState.modifyInstrument_orders, SlabState.modifyOrder_orders,
    Pool.modifyUsed_length]

/-- Reads from the unlinked state: untouched slots. -/
theorem removedState_get_other (s : SlabState) (ii : Nat) (o : Order) (j : Nat)
    (hjp : o.prev ≠ j) (hjn : o.next ≠ j) :
    (removedState s ii o).orders.get j = s.orders.get j := by
  unfold removedState
  dsimp only
  by_cases hn : o.next ≠ NIL <;> by_cases hp : o.prev = NIL
  · rw [if_pos hn, if_pos hp, SlabState.modifyOrder_orders,
      Pool.get_modifyUsed_ne _ _ _ _ hjn, SlabState.modifyInstrument_orders]
  · rw [if_pos hn, if_neg hp, SlabState.modifyOrder_orders,
      Pool.get_modifyUsed_ne _ _ _ _ hjn, SlabState.modifyOrder_orders,
      Pool.get_modifyUsed_ne _ _ _ _ hjp]
  · rw [if_neg hn, if_pos hp, SlabState.modifyInstrument_orders]
  · rw [if_neg hn, if_neg hp, SlabState.modifyOrder_orders,
      Pool.get_modifyUsed_ne _ _ _ _ hjp]

/-- Reads from the unlinked state: the predecessor. -/
theorem removedState_get_prev (s : SlabState) (ii : Nat) (o : Order)
    (hp : o.prev ≠ NIL) (hnp : o.next ≠ o.prev) :
    (removedState s ii o).orders.get o.prev
      = (s.orders.get o.prev).map (fun q => { q with next := o.next }) := by
  unfold removedState
  dsimp only
  by_cases hn : o.next ≠ NIL
  · rw [if_pos hn, if_neg hp, SlabState.modifyOrder_orders,
      Pool.get_modifyUsed_ne _ _ _ _ hnp, SlabState.modifyOrder_orders,
      Pool.get_modifyUsed_self]
  · rw [if_neg hn, if_neg hp, SlabState.modifyOrder_orders, Pool.get_modifyUsed_self]

/-- Reads from the unlinked state: the successor. -/
theorem removedState_get_next (s : SlabState) (ii : Nat) (o : Order)
    (hn : o.next ≠ NIL) (hpn : o.prev ≠ o.next) :
    (removedState s ii o).orders.get o.next
      = (s.orders.get o.next).map (fun q => { q with prev := o.prev }) := by
  unfold removedState
  dsimp only
  by_cases hp : o.prev = NIL
  · rw [if_pos hn, if_pos hp, SlabState.modifyOrder_orders, Pool.get_modifyUsed_self,
      SlabState.modifyInstrument_orders]
  · rw [if_pos hn, if_neg hp, SlabState.modifyOrder_orders, Pool.get_modifyUsed_self,
      SlabState.modifyOrder_orders, Pool.get_modifyUsed_ne _ _ _ _ hpn]

/-- Instrument read from the unlinked state, head-removal case. -/
theorem removedState_instrument_pnil (s : SlabState) (ii : Nat) (o : Order)
    (hp : o.prev = NIL) :
    (removedState s ii o).get_instrument ii
      = (s.get_instrument ii).map (fun i => i.setHead o.side o.state o.next) := by
  unfold removedState
  dsimp only
  rw [SlabState.get_instrument_setHeader]
  by_cases hn : o.next ≠ NIL
  · rw [if_pos hn, if_pos hp, SlabState.modifyOrder_instrument,
      SlabState.get_modifyInstrument_self]
  · rw [if_neg hn, if_pos hp, SlabState.get_modifyInstrument_self]

/-- Instrument read from the unlinked state, interior case. -/
theorem removedState_instrument_pne (s : SlabState) (ii : Nat) (o : Order)
    (hp : o.prev ≠ NIL) :
    (removedState s ii o).get_instrument ii = s.get_instrument ii := by
  unfold removedState
  dsimp only
  rw [SlabState.get_instrument_setHeader]
  by_cases hn : o.next ≠ NIL
  · rw [if_pos hn, if_neg hp, SlabState.modifyOrder_instrument,
      SlabState.modifyOrder_instrument]
  · rw [if_neg hn, if_neg hp, SlabState.modifyOrder_instrument]

/-- The unlinked state keeps the order-pool capacity. -/
theorem removedState_orders_length (s : SlabState) (ii : Nat) (o : Order) :
    (removedState s ii o).orders.items.length = s.orders.items.length := by
  unfold removedState
  dsimp only
  by_cases hn : o.next ≠ NIL <;> by_cases hp : o.prev = NIL
  · rw [if_pos hn, if_pos hp, SlabState.modifyOrder_orders, Pool.modifyUsed_length,
      SlabState.modifyInstrument_orders]
  · rw [if_pos hn, if_neg hp, SlabState.modifyOrder_orders, Pool.modifyUsed_length,
      SlabState.modifyOrder_orders, Pool.modifyUsed_length]
  · rw [if_neg hn, if_pos hp, SlabState.modifyInstrument_orders]
  · rw [if_neg hn, if_neg hp, SlabState.modifyOrder_orders, Pool.modifyUsed_length]


/-- Rewriting the tail link of a nonempty chain. -/
theorem orderSegT_relink {s s2 : SlabState} (d : Nat) :
    ∀ C1 hd m p lastO,
      orderSegT s hd C1 m →
      C1.getLast? = some (p, lastO) →
      (C1.map Prod.fst).Nodup →
      s2.orders.get p = some { lastO with next := d } →
      (∀ x ∈ C1, x.1 ≠ p → s2.orders.get x.1 = s.orders.get x.1) →
      orderSegT s2 hd (C1.dropLast ++ [(p, { lastO with next := d })]) d := by
  intro C1
  induction C1 with
  | nil => intro hd m p lastO _ hlast; cases hlast
  | cons y C ih =>
    intro hd m p lastO hseg hlast hnd hgp hoth
    obtain ⟨i, o⟩ := y
    obtain ⟨hsh, hget, hseg'⟩ := hseg
    cases C with
    | nil =>
      rw [List.getLast?_singleton] at hlast
      cases hlast
      exact ⟨hsh, hgp, rfl⟩
    | cons z C' =>
      rw [List.getLast?_cons_cons] at hlast
      have hpmem : (p, lastO) ∈ z :: C' := by
        have hdec := dropLast_getLast?_decomp (z :: C') (p, lastO) hlast
        rw [← hdec]
        simp
      have hine : i ≠ p := by
        intro hc
        have h1 := (List.nodup_cons.mp hnd).1
        rw [hc] at h1
        exact h1 (List.mem_map.mpr ⟨(p, lastO), hpmem, rfl⟩)
      refine ⟨hsh, ?_, ?_⟩
      · rw [hoth (i, o) (by simp) hine]
        exact hget
      · exact ih o.next m p lastO hseg' hlast (List.nodup_cons.mp hnd).2 hgp
          (fun x hx hne => hoth x (List.mem_cons_of_mem _ hx) hne)

/-- Slot indices are unchanged by a tail-link rewrite. -/
theorem map_fst_relink (C1 : List (Nat × Order)) (p : Nat) (lastO r : Order)
    (hlast : C1.getLast? = some (p, lastO)) :
    (C1.dropLast ++ [(p, r)]).map Prod.fst = C1.map Prod.fst := by
  conv_rhs => rw [← dropLast_getLast?_decomp C1 (p, lastO) hlast]
  simp

/-- Price-id projections are unchanged by a record change that keeps
price and id. -/
theorem map_prId_relink (C1 : List (Nat × Order)) (p : Nat) (lastO r : Order)
    (hlast : C1.getLast? = some (p, lastO)) (hr : prId r = prId lastO) :
    ((C1.dropLast ++ [(p, r)]).map Prod.snd).map prId
      = ((C1.map Prod.snd).map prId) := by
  conv_rhs => rw [← dropLast_getLast?_decomp C1 (p, lastO) hlast]
  simp [hr]

/-- Back-link checks are unchanged by a record change that keeps `prev`. -/
theorem prevChain_relink (C1 : List (Nat × Order)) (p q : Nat) (lastO r : Order)
    (hlast : C1.getLast? = some (p, lastO)) (hr : r.prev = lastO.prev) :
    prevChainB q (C1.dropLast ++ [(p, r)]) = prevChainB q C1 := by
  conv_rhs => rw [← dropLast_getLast?_decomp C1 (p, lastO) hlast]
  rw [prevChainB_append, prevChainB_append]
  simp [prevChainB, hr]

/-- Side/state checks are unchanged by a record change that keeps them. -/
theorem sideState_relink (side : Side) (st : OrderState) (C1 : List (Nat × Order))
    (p : Nat) (lastO r : Order) (hlast : C1.getLast? = some (p, lastO))
    (h1 : r.side = lastO.side) (h2 : r.state = lastO.state) :
    sideStateB side st (C1.dropLast ++ [(p, r)]) = sideStateB side st C1 := by
  conv_rhs => rw [← dropLast_getLast?_decomp C1 (p, lastO) hlast]
  unfold sideStateB
  simp [h1, h2]

/-- The rewritten chain still ends at the same slot. -/
theorem sideStateB_append (side : Side) (st : OrderState) (A B : List (Nat × Order)) :
    sideStateB side st (A ++ B) = (sideStateB side st A && sideStateB side st B) :=
  List.all_append

theorem getLast_relink (C1 : List (Nat × Order)) (p : Nat) (lastO r : Order)
    (hlast : C1.getLast? = some (p, lastO)) :
    (C1.dropLast ++ [(p, r)]).getLast? = some (p, r) :=
  List.getLast?_concat _


/-- A failed insert-before test means the resting order has priority. -/
theorem insBefore_false_pair (side : Side) (px nid : Nat) (o : Order)
    (h : insBefore side px nid o = false) :
    pairPI side (prId o) (px, nid) = true := by
  cases side <;>
    (unfold insBefore at h
     unfold pairPI prId
     rw [decide_eq_false_iff_not] at h
     rw [decide_eq_true_eq]
     omega)

/-- A passed insert-before test means the new order has priority. -/
theorem insBefore_true_pair (side : Side) (px nid : Nat) (o : Order)
    (h : insBefore side px nid o = true) :
    pairPI side (px, nid) (prId o) = true := by
  cases side <;>
    (unfold insBefore at h
     unfold pairPI prId
     rw [decide_eq_true_eq] at h
     rw [decide_eq_true_eq]
     omega)

/-- `getLast?` commutes with `map`. -/
theorem listGetLast_map {α β : Type} (f : α → β) :
    ∀ l : List α, (l.map f).getLast? = l.getLast?.map f := by
  intro l
  induction l with
  | nil => rfl
  | cons a l ih =>
    cases l with
    | nil => rfl
    | cons b r =>
      rw [show ((a :: b :: r).map f) = f a :: f b :: r.map f from rfl,
        List.getLast?_cons_cons, List.getLast?_cons_cons]
      exact ih

/-- `head?` commutes with `map`. -/
theorem listHead_map {α β : Type} (f : α → β) (l : List α) :
    (l.map f).head? = l.head?.map f := by
  cases l <;> rfl


/-- Membership of the last element. -/
theorem mem_getLast? {α : Type} (l : List α) (a : α) (h : l.getLast? = some a) : a ∈ l := by
  have hdec := dropLast_getLast?_decomp l a h
  rw [← hdec]
  simp

/-- `insert_order` preserves the price-time book invariant, splicing the
new order at its priority position. -/
theorem insert_preserves_bookInv
    (fuel : Nat) (s : SlabState) (ii oi : Nat) (side : Side) (st : OrderState)
    (px : Nat) (C : List (Nat × Order)) (newO : Order) (s' : SlabState)
    (hinv : bookInv s ii side st C)
    (hcap : s.orders.items.length ≤ NIL)
    (hnew : s.orders.get oi = some newO)
    (hfreshC : oi ∉ C.map Prod.fst)
    (hpx : newO.price = px)
    (hside : newO.side = side) (hstate : newO.state = st)
    (hrun : insert_order fuel s ii oi side px st = some (Except.ok (), s')) :
    ∃ C', bookInv s' ii side st C' ∧
      (C'.map Prod.fst).Perm (oi :: C.map Prod.fst) := by
  obtain ⟨ins, hgi, hseg, hnd, hprev, hsort, hss⟩ := hinv
  have hoiNIL : oi ≠ NIL := by
    unfold Pool.get at hnew
    cases hq : s.orders.items[oi]? with
    | none => rw [hq] at hnew; cases hnew
    | some sl =>
      have hlt := (List.getElem?_eq_some.mp hq).1
      intro hc
      rw [hc] at hlt
      unfold NIL at hlt hcap
      omega
  have hnn := orderSegT_ne_NIL hcap C (ins.headOf side st) NIL hseg
  obtain ⟨ins2, hgi2, hbr⟩ := insert_ok_spec fuel s ii oi side px st s' hrun
  rw [hgi] at hgi2
  have hins2 := Option.some.inj hgi2
  subst hins2
  rcases hbr with ⟨hhd, hs'⟩ | ⟨hhd, newO2, p, c, hnew2, hfind, hs'⟩
  · cases C with
    | cons y C0 =>
      exfalso
      obtain ⟨i, o⟩ := y
      have h1 : ins.headOf side st = i := hseg.1
      exact hnn (i, o) (by simp) (by rw [← h1, hhd])
    | nil =>
      refine ⟨[(oi, { newO with next := NIL, prev := NIL })],
        ⟨ins.setHead side st oi, ?_, ?_, by simp, ?_, ?_, ?_⟩, by simp⟩
      · rw [hs', insertedHeadState_instrument, hgi]
        rfl
      · rw [Instrument.headOf_setHead_self]
        refine ⟨rfl, ?_, rfl⟩
        rw [hs', insertedHeadState_get_oi, hnew]
        rfl
      · simp [prevChainB]
      · cases side <;> rfl
      · simp [sideStateB, hside, hstate]
  · have hnewO2 : newO = newO2 := by
      rw [hnew] at hnew2
      exact Option.some.inj hnew2
    subst hnewO2
    obtain ⟨C1, C2, hCsplit, hC1f, hC2c, hC2ib, hC1p⟩ :=
      insertFindPos_split s side px newO.order_id C fuel (ins.headOf side st) NIL p c
        hseg hnn hfind
    subst hCsplit
    obtain ⟨m, hseg1, hseg2⟩ := (orderSegT_append C1 C2 (ins.headOf side st) NIL).mp hseg
    have hmc : c = m := by
      cases C2 with
      | nil =>
        have h1 : m = NIL := hseg2
        have h2 : c = NIL := hC2c
        rw [h1, h2]
      | cons z r2 =>
        obtain ⟨i2, o2⟩ := z
        have h1 : m = i2 := hseg2.1
        have h2 : c = i2 := hC2c
        rw [h1, h2]
    subst hmc
    have hfresh1 : ∀ x ∈ C1, x.1 ≠ oi := fun x hx hc =>
      hfreshC (hc ▸ List.mem_map.mpr ⟨x, List.mem_append_left _ hx, rfl⟩)
    have hfresh2 : ∀ x ∈ C2, x.1 ≠ oi := fun x hx hc =>
      hfreshC (hc ▸ List.mem_map.mpr ⟨x, List.mem_append_right _ hx, rfl⟩)
    rw [List.map_append] at hnd
    obtain ⟨hnd1, hnd2, hdisjnd⟩ := List.nodup_append.mp hnd
    rw [prevChainB_append, Bool.and_eq_true] at hprev
    obtain ⟨hprev1, hprev2⟩ := hprev
    rw [sortedByB_eq_sortedPI, List.map_append, List.map_append] at hsort
    unfold sideStateB at hss
    rw [List.all_append, Bool.and_eq_true] at hss
    obtain ⟨hss1, hss2⟩ := hss
    have hco : c ≠ oi := by
      cases hq2 : C2 with
      | nil =>
        have h2 : c = NIL := by rw [hq2] at hC2c; exact hC2c
        rw [h2]
        exact fun hc => hoiNIL hc.symm
      | cons z r2 =>
        obtain ⟨i2, o2⟩ := z
        have h2 : c = i2 := by rw [hq2] at hC2c; exact hC2c
        rw [h2]
        exact hfresh2 (i2, o2) (by rw [hq2]; simp)
    have hsort' : sortedPI side (((C1.map Prod.snd).map prId)
        ++ (px, newO.order_id) :: ((C2.map Prod.snd).map prId)) = true := by
      refine sortedPI_insert_mid side (px, newO.order_id) _ _ hsort ?_ ?_
      · intro a ha
        rw [listGetLast_map, listGetLast_map] at ha
        cases hgl : C1.getLast? with
        | none => rw [hgl] at ha; cases ha
        | some w =>
          rw [hgl] at ha
          simp only [Option.map_some', Option.some.injEq] at ha
          have hwmem : w ∈ C1 := mem_getLast? C1 w hgl
          have hb := insBefore_false_pair side px newO.order_id w.2 (hC1f w hwmem)
          rw [← ha]
          exact hb
      · intro b hb
        cases hq2 : C2 with
        | nil => rw [hq2] at hb; cases hb
        | cons z r2 =>
          obtain ⟨i2, o2⟩ := z
          rw [hq2] at hb
          simp only [List.map_cons, List.head?_cons, Option.some.injEq] at hb
          have hp2 := insBefore_true_pair side px newO.order_id o2
            (hC2ib i2 o2 r2 (by rw [hq2]))
          rw [← hb]
          exact hp2
    by_cases hC1nil : C1 = []
    · subst hC1nil
      have hpNIL : p = NIL := hC1p
      have hpo : p ≠ oi := by
        rw [hpNIL]
        exact fun hc => hoiNIL hc.symm
      have hinst : s'.get_instrument ii = some (ins.setHead side st oi) := by
        rw [hs', insertedState_instrument_pnil s ii oi side st p c hpNIL, hgi]
        rfl
      have hgetoi : s'.orders.get oi = some { newO with next := c, prev := p } := by
        rw [hs', insertedState_get_oi s ii oi side st p c hpo hco, hnew]
        rfl
      cases C2 with
      | nil =>
        have hcNIL : c = NIL := hC2c
        refine ⟨[(oi, { newO with next := c, prev := p })],
          ⟨ins.setHead side st oi, hinst, ?_, by simp, ?_, ?_, ?_⟩, by simp⟩
        · rw [Instrument.headOf_setHead_self]
          exact ⟨rfl, hgetoi, hcNIL⟩
        · simp [prevChainB, hpNIL]
        · rw [sortedByB_eq_sortedPI]
          cases side <;> rfl
        · simp [sideStateB, hside, hstate]
      | cons z r2 =>
        obtain ⟨c2, o2⟩ := z
        have hcc : c = c2 := hC2c
        subst hcc
        have hcNILn : c ≠ NIL := hnn (c, o2) (by simp)
        have hgc : s.orders.get c = some o2 := hseg2.2.1
        have hpc : p ≠ c := by
          rw [hpNIL]
          exact fun hcx => hcNILn hcx.symm
        have hgetc : s'.orders.get c = some { o2 with prev := oi } := by
          rw [hs', insertedState_get_c s ii oi side st p c hcNILn
            (fun hcx => hco hcx.symm) hpc, hgc]
          rfl
        have hndc : c ∉ r2.map Prod.fst := by
          have h2 : (c :: r2.map Prod.fst).Nodup := hnd2
          exact (List.nodup_cons.mp h2).1
        have hrest : orderSegT s' o2.next r2 NIL := by
          refine orderSegT_transport r2 o2.next NIL hseg2.2.2 ?_
          intro x hx
          rw [hs']
          refine insertedState_get_other s ii oi side st p c x.1 ?_ ?_ ?_
          · exact fun hcx => hfresh2 x (List.mem_cons_of_mem _ hx) hcx.symm
          · rw [hpNIL]
            exact fun hcx => hnn x (by simp [hx]) hcx.symm
          · intro hcx
            exact hndc (hcx ▸ List.mem_map.mpr ⟨x, hx, rfl⟩)
        refine ⟨(oi, { newO with next := c, prev := p })
            :: (c, { o2 with prev := oi }) :: r2,
          ⟨ins.setHead side st oi, hinst, ?_, ?_, ?_, ?_, ?_⟩, ?_⟩
        · rw [Instrument.headOf_setHead_self]
          exact ⟨rfl, hgetoi, rfl, hgetc, hrest⟩
        · rw [List.map_cons, List.map_cons, List.nodup_cons]
          exact ⟨by simpa using hfreshC, hnd2⟩
        · have hp2 : (prevChainB NIL ((c, o2) :: r2)) = true := hprev2
          rw [show prevChainB NIL ((c, o2) :: r2)
              = (decide (o2.prev = NIL) && prevChainB c r2) from rfl,
            Bool.and_eq_true] at hp2
          show (decide (p = NIL) && (decide (oi = oi) && prevChainB c r2)) = true
          rw [hp2.2]
          simp [hpNIL]
        · rw [sortedByB_eq_sortedPI]
          rw [show ((((oi, { newO with next := c, prev := p })
                :: (c, { o2 with prev := oi }) :: r2).map Prod.snd).map prId)
              = [] ++ (px, newO.order_id) :: ((((c, o2) :: r2).map Prod.snd).map prId) from by
            simp [prId, hpx]]
          exact hsort'
        · have hss2' : (decide (o2.side = side ∧ o2.state = st)
              && r2.all (fun x => decide (x.2.side = side ∧ x.2.state = st))) = true := hss2
          rw [Bool.and_eq_true] at hss2'
          show (decide ((newO.side = side ∧ newO.state = st))
              && (decide ((o2.side = side ∧ o2.state = st))
                && r2.all (fun x => decide (x.2.side = side ∧ x.2.state = st)))) = true
          rw [hss2'.1, hss2'.2]
          simp [hside, hstate]
        · exact List.Perm.refl _
    · obtain ⟨w, hgl0⟩ : ∃ w, C1.getLast? = some w := by
        cases hq1 : C1 with
        | nil => exact absurd hq1 hC1nil
        | cons z r1 =>
          cases hg2 : (z :: r1).getLast? with
          | none => simp at hg2
          | some w => exact ⟨w, rfl⟩
      obtain ⟨pw, lastO⟩ := w
      have hwp : pw = p := by
        have h2 : C1.getLast?.map Prod.fst = some p := by
          cases hq1 : C1 with
          | nil => exact absurd hq1 hC1nil
          | cons z r1 =>
            rw [hq1] at hC1p
            exact hC1p
        rw [hgl0] at h2
        simpa using h2
      have hwp2 : p = pw := hwp.symm
      subst hwp2
      have hgl : C1.getLast? = some (p, lastO) := hgl0
      have hpmem : (p, lastO) ∈ C1 := mem_getLast? C1 _ hgl
      have hplive : s.orders.get p = some lastO :=
        orderSegT_mem C1 (ins.headOf side st) c hseg1 (p, lastO) hpmem
      have hpNILn : p ≠ NIL := hnn (p, lastO) (List.mem_append_left _ hpmem)
      have hpo : p ≠ oi := hfresh1 (p, lastO) hpmem
      have hcp : c ≠ p := by
        cases hq2 : C2 with
        | nil =>
          have h2 : c = NIL := by rw [hq2] at hC2c; exact hC2c
          rw [h2]
          exact fun hcx => hpNILn hcx.symm
        | cons z r2 =>
          obtain ⟨i2, o2⟩ := z
          have h2 : c = i2 := by rw [hq2] at hC2c; exact hC2c
          rw [h2]
          intro hcx
          refine hdisjnd (List.mem_map.mpr ⟨(p, lastO), hpmem, rfl⟩) ?_
          rw [← hcx, hq2]
          simp
      have hcnotC1 : ∀ x ∈ C1, c ≠ x.1 := by
        intro x hx
        cases hq2 : C2 with
        | nil =>
          have h2 : c = NIL := by rw [hq2] at hC2c; exact hC2c
          rw [h2]
          exact fun hcx => hnn x (List.mem_append_left _ hx) hcx.symm
        | cons z r2 =>
          obtain ⟨i2, o2⟩ := z
          have h2 : c = i2 := by rw [hq2] at hC2c; exact hC2c
          rw [h2]
          intro hcx
          refine hdisjnd (List.mem_map.mpr ⟨x, hx, rfl⟩) ?_
          rw [← hcx, hq2]
          simp
      have hgetp : s'.orders.get p = some { lastO with next := oi } := by
        rw [hs', insertedState_get_p s ii oi side st p c hpNILn hcp
          (fun hcx => hpo hcx.symm), hplive]
        rfl
      have hothC1 : ∀ x ∈ C1, x.1 ≠ p → s'.orders.get x.1 = s.orders.get x.1 := by
        intro x hx hne
        rw [hs']
        exact insertedState_get_other s ii oi side st p c x.1
          (fun hcx => hfresh1 x hx hcx.symm) (fun hcx => hne hcx.symm) (hcnotC1 x hx)
      have hsegL : orderSegT s' (ins.headOf side st)
          (C1.dropLast ++ [(p, { lastO with next := oi })]) oi :=
        orderSegT_relink oi C1 (ins.headOf side st) c p lastO hseg1 hgl hnd1 hgetp hothC1
      have hinst : s'.get_instrument ii = some ins := by
        rw [hs', insertedState_instrument_pne s ii oi side st p c hpNILn, hgi]
      have hgetoi : s'.orders.get oi = some { newO with next := c, prev := p } := by
        rw [hs', insertedState_get_oi s ii oi side st p c hpo hco, hnew]
        rfl
      have hfstC1u : (C1.dropLast ++ [(p, { lastO with next := oi })]).map Prod.fst
          = C1.map Prod.fst := map_fst_relink C1 p lastO _ hgl
      cases C2 with
      | nil =>
        have hcNIL : c = NIL := hC2c
        refine ⟨(C1.dropLast ++ [(p, { lastO with next := oi })])
            ++ [(oi, { newO with next := c, prev := p })],
          ⟨ins, hinst, ?_, ?_, ?_, ?_, ?_⟩, ?_⟩
        · exact (orderSegT_append _ _ _ _).mpr ⟨oi, hsegL, ⟨rfl, hgetoi, hcNIL⟩⟩
        · rw [List.map_append, hfstC1u]
          refine List.Nodup.append hnd1 (by simp) ?_
          intro a ha hb
          simp only [List.map_cons, List.map_nil, List.mem_singleton] at hb
          subst hb
          obtain ⟨x, hx, hx1⟩ := List.mem_map.mp ha
          exact hfresh1 x hx hx1
        · rw [prevChainB_append, getLast_relink C1 p lastO { lastO with next := oi } hgl,
            prevChain_relink C1 p NIL lastO { lastO with next := oi } hgl rfl]
          rw [hprev1]
          simp [prevChainB]
        · rw [sortedByB_eq_sortedPI, List.map_append, List.map_append,
            map_prId_relink C1 p lastO { lastO with next := oi } hgl rfl]
          rw [show (([(oi, { newO with next := c, prev := p })].map Prod.snd).map prId)
              = [(px, newO.order_id)] from by simp [prId, hpx]]
          exact hsort'
        · rw [sideStateB_append,
            sideState_relink side st C1 p lastO { lastO with next := oi } hgl rfl rfl,
            show sideStateB side st C1 = true from hss1]
          simp [sideStateB, hside, hstate]
        · rw [List.map_append, hfstC1u]
          have hperm := @List.perm_middle Nat oi (C1.map Prod.fst) []
          simpa using hperm
      | cons z r2 =>
        obtain ⟨c2, o2⟩ := z
        have hcc : c = c2 := hC2c
        subst hcc
        have hcNILn : c ≠ NIL := hnn (c, o2) (List.mem_append_right _ (by simp))
        have hgc : s.orders.get c = some o2 := hseg2.2.1
        have hgetc : s'.orders.get c = some { o2 with prev := oi } := by
          rw [hs', insertedState_get_c s ii oi side st p c hcNILn
            (fun hcx => hco hcx.symm) (fun hcx => hcp hcx.symm), hgc]
          rfl
        have hndc : c ∉ r2.map Prod.fst := by
          have h2 : (c :: r2.map Prod.fst).Nodup := hnd2
          exact (List.nodup_cons.mp h2).1
        have hrest : orderSegT s' o2.next r2 NIL := by
          refine orderSegT_transport r2 o2.next NIL hseg2.2.2 ?_
          intro x hx
          rw [hs']
          refine insertedState_get_other s ii oi side st p c x.1 ?_ ?_ ?_
          · exact fun hcx => hfresh2 x (List.mem_cons_of_mem _ hx) hcx.symm
          · intro hcx
            refine hdisjnd (List.mem_map.mpr ⟨(p, lastO), hpmem, rfl⟩) ?_
            rw [hcx]
            exact List.mem_cons_of_mem _ (List.mem_map.mpr ⟨x, hx, rfl⟩)
          · intro hcx
            exact hndc (hcx ▸ List.mem_map.mpr ⟨x, hx, rfl⟩)
        refine ⟨(C1.dropLast ++ [(p, { lastO with next := oi })])
            ++ (oi, { newO with next := c, prev := p })
              :: (c, { o2 with prev := oi }) :: r2,
          ⟨ins, hinst, ?_, ?_, ?_, ?_, ?_⟩, ?_⟩
        · exact (orderSegT_append _ _ _ _).mpr
            ⟨oi, hsegL, ⟨rfl, hgetoi, rfl, hgetc, hrest⟩⟩
        · rw [List.map_append, hfstC1u, List.map_cons, List.map_cons]
          rw [show ((oi : Nat) :: (c, { o2 with prev := oi }).1 :: r2.map Prod.fst)
              = (oi :: (c :: r2.map Prod.fst)) from rfl]
          refine (List.nodup_middle).mpr ?_
          rw [List.nodup_cons]
          constructor
          · intro hcx
            rcases List.mem_append.mp hcx with hcx | hcx
            · obtain ⟨x, hx, hx1⟩ := List.mem_map.mp hcx
              exact hfresh1 x hx hx1
            · exact hfreshC (by rw [List.map_append]; exact List.mem_append_right _ hcx)
          · exact List.nodup_append.mpr ⟨hnd1, hnd2, hdisjnd⟩
        · rw [prevChainB_append, getLast_relink C1 p lastO { lastO with next := oi } hgl,
            prevChain_relink C1 p NIL lastO { lastO with next := oi } hgl rfl, hprev1]
          have hp2 : (decide (o2.prev = ((C1.getLast?.map Prod.fst).getD NIL))
              && prevChainB c r2) = true := hprev2
          rw [Bool.and_eq_true] at hp2
          show (true && (decide (p = p) && (decide (oi = oi) && prevChainB c r2))) = true
          rw [hp2.2]
          simp
        · rw [sortedByB_eq_sortedPI, List.map_append, List.map_append,
            map_prId_relink C1 p lastO { lastO with next := oi } hgl rfl]
          rw [show ((((oi, { newO with next := c, prev := p })
                :: (c, { o2 with prev := oi }) :: r2).map Prod.snd).map prId)
              = (px, newO.order_id) :: ((((c, o2) :: r2).map Prod.snd).map prId) from by
            simp [prId, hpx]]
          exact hsort'
        · rw [sideStateB_append,
            sideState_relink side st C1 p lastO { lastO with next := oi } hgl rfl rfl,
            show sideStateB side st C1 = true from hss1]
          have hss2' : (decide (o2.side = side ∧ o2.state = st)
              && r2.all (fun x => decide (x.2.side = side ∧ x.2.state = st))) = true := hss2
          rw [Bool.and_eq_true] at hss2'
          show (true && (decide ((newO.side = side ∧ newO.state = st))
              && (decide ((o2.side = side ∧ o2.state = st))
                && r2.all (fun x => decide (x.2.side = side ∧ x.2.state = st))))) = true
          rw [hss2'.1, hss2'.2]
          simp [hside, hstate]
        · rw [List.map_append, hfstC1u, List.map_cons, List.map_cons]
          have hperm := @List.perm_middle Nat oi (C1.map Prod.fst) (c :: r2.map Prod.fst)
          simpa using hperm

/-- A side-list invariant transports to any state that agrees on the
chain slots and on the relevant head. -/
theorem bookInv_transport (s s2 : SlabState) (ii : Nat) (side : Side) (st : OrderState)
    (C : List (Nat × Order)) (hinv : bookInv s ii side st C)
    (hag : ∀ x ∈ C, s2.orders.get x.1 = s.orders.get x.1)
    (hhd : (s2.get_instrument ii).map (fun i => i.headOf side st)
      = (s.get_instrument ii).map (fun i => i.headOf side st)) :
    bookInv s2 ii side st C := by
  obtain ⟨ins, hgi, hseg, hnd, hprev, hsort, hss⟩ := hinv
  rw [hgi] at hhd
  cases hgi2 : s2.get_instrument ii with
  | none => rw [hgi2] at hhd; cases hhd
  | some ins2 =>
    rw [hgi2] at hhd
    simp only [Option.map_some', Option.some.injEq] at hhd
    refine ⟨ins2, hgi2, ?_, hnd, hprev, hsort, hss⟩
    rw [hhd]
    exact orderSegT_transport C _ NIL hseg hag

/-- The inner search of `promote_side` returns a member of the pending
chain together with that member's stored price. -/
theorem promoteFind_mem (s : SlabState) (epoch : Nat) :
    ∀ C fuel h oi px, orderSegT s h C NIL → (∀ x ∈ C, x.1 ≠ NIL) →
      promoteFind s epoch fuel h = some (some (oi, px)) →
      ∃ o, (oi, o) ∈ C ∧ s.orders.get oi = some o ∧ o.price = px := by
  intro C
  induction C with
  | nil =>
    intro fuel h oi px hseg _ hrun
    have hh : h = NIL := hseg
    cases fuel with
    | zero => cases hrun
    | succ fuel =>
      unfold promoteFind at hrun
      rw [if_pos hh] at hrun
      cases hrun
  | cons y r ih =>
    intro fuel h oi px hseg hnn hrun
    obtain ⟨i, o⟩ := y
    obtain ⟨hsh, hget, hseg'⟩ := hseg
    cases fuel with
    | zero => cases hrun
    | succ fuel =>
      unfold promoteFind at hrun
      rw [if_neg (by rw [hsh]; exact hnn (i, o) (by simp))] at hrun
      rw [hsh, hget] at hrun
      dsimp only at hrun
      by_cases he : o.eligible_epoch ≤ epoch
      · rw [if_pos he] at hrun
        cases hrun
        exact ⟨o, by simp, hget, rfl⟩
      · rw [if_neg he] at hrun
        obtain ⟨o2, hmem, hgeto, hpx⟩ := ih fuel o.next oi px hseg'
          (fun x hx => hnn x (List.mem_cons_of_mem _ hx)) hrun
        exact ⟨o2, List.mem_cons_of_mem _ hmem, hgeto, hpx⟩

/-- Unlinking touches only the removed order's own list head. -/
theorem removedState_heads (s : SlabState) (ii : Nat) (o : Order)
    (side2 : Side) (st2 : OrderState) (hne : ¬(side2 = o.side ∧ st2 = o.state)) :
    ((removedState s ii o).get_instrument ii).map (fun i => i.headOf side2 st2)
      = (s.get_instrument ii).map (fun i => i.headOf side2 st2) := by
  by_cases hp : o.prev = NIL
  · rw [removedState_instrument_pnil s ii o hp]
    cases hq : s.get_instrument ii with
    | none => rfl
    | some ins =>
      simp only [Option.map_some', Option.some.injEq]
      exact Instrument.headOf_setHead_ne ins o.side side2 o.state st2 o.next hne
  · rw [removedState_instrument_pne s ii o hp]

/-- Splicing touches only the target list's head. -/
theorem insertedState_heads (s : SlabState) (ii oi : Nat) (side : Side)
    (st : OrderState) (p c : Nat) (side2 : Side) (st2 : OrderState)
    (hne : ¬(side2 = side ∧ st2 = st)) :
    ((insertedState s ii oi side st p c).get_instrument ii).map (fun i => i.headOf side2 st2)
      = (s.get_instrument ii).map (fun i => i.headOf side2 st2) := by
  by_cases hp : p = NIL
  · rw [insertedState_instrument_pnil s ii oi side st p c hp]
    cases hq : s.get_instrument ii with
    | none => rfl
    | some ins =>
      simp only [Option.map_some', Option.some.injEq]
      exact Instrument.headOf_setHead_ne ins side side2 st st2 oi hne
  · rw [insertedState_instrument_pne s ii oi side st p c hp]

/-- A fresh-head insert touches only the target list's head. -/
theorem insertedHeadState_heads (s : SlabState) (ii oi : Nat) (side : Side)
    (st : OrderState) (side2 : Side) (st2 : OrderState)
    (hne : ¬(side2 = side ∧ st2 = st)) :
    ((insertedHeadState s ii oi side st).get_instrument ii).map (fun i => i.headOf side2 st2)
      = (s.get_instrument ii).map (fun i => i.headOf side2 st2) := by
  rw [insertedHeadState_instrument s ii oi side st]
  cases hq : s.get_instrument ii with
  | none => rfl
  | some ins =>
    simp only [Option.map_some', Option.some.injEq]
    exact Instrument.headOf_setHead_ne ins side side2 st st2 oi hne

/-- Slots off the target list (other than the new node) keep their
contents across `insert_order`; so do the pool capacity and the other
three list heads. -/
theorem insert_order_frame (fuel : Nat) (s : SlabState) (ii oi : Nat) (side : Side)
    (st : OrderState) (px : Nat) (C : List (Nat × Order)) (s' : SlabState)
    (hinv : bookInv s ii side st C)
    (hcap : s.orders.items.length ≤ NIL)
    (hrun : insert_order fuel s ii oi side px st = some (Except.ok (), s')) :
    (∀ j, j ∉ C.map Prod.fst → j ≠ oi → j ≠ NIL → s'.orders.get j = s.orders.get j) ∧
    s'.orders.items.length = s.orders.items.length ∧
    (∀ side2 st2, ¬(side2 = side ∧ st2 = st) →
      (s'.get_instrument ii).map (fun i => i.headOf side2 st2)
        = (s.get_instrument ii).map (fun i => i.headOf side2 st2)) := by
  obtain ⟨ins, hgi, hseg, hnd, hprev, hsort, hss⟩ := hinv
  obtain ⟨ins2, hgi2, hcase⟩ := insert_ok_spec fuel s ii oi side px st s' hrun
  rw [hgi] at hgi2
  cases hgi2
  rcases hcase with ⟨hh, hs'⟩ | ⟨hh, newO, p, c, hnew, hfind, hs'⟩
  · refine ⟨?_, ?_, ?_⟩
    · intro j _ hjoi _
      rw [hs']
      exact insertedHeadState_get_other s ii oi side st j (fun hc => hjoi hc.symm)
    · rw [hs']
      exact insertedHeadState_orders_length s ii oi side st
    · intro side2 st2 hne
      rw [hs']
      exact insertedHeadState_heads s ii oi side st side2 st2 hne
  · have hnn : ∀ x ∈ C, x.1 ≠ NIL := orderSegT_ne_NIL hcap C _ NIL hseg
    obtain ⟨C1, C2, hCsplit, hins1, hC2c, hins2b, hC1p⟩ :=
      insertFindPos_split s side px newO.order_id C fuel (ins.headOf side st) NIL p c
        hseg hnn hfind
    have hpmem : p = NIL ∨ p ∈ C.map Prod.fst := by
      cases hq1 : C1 with
      | nil =>
        rw [hq1] at hC1p
        exact Or.inl hC1p
      | cons z r1 =>
        rw [hq1] at hC1p
        cases hgl : (z :: r1).getLast? with
        | none => simp at hgl
        | some w =>
          rw [hgl] at hC1p
          have hw1 : w.1 = p := by simpa using hC1p
          have hwmem : w ∈ C1 := by rw [hq1]; exact mem_getLast? _ _ hgl
          refine Or.inr ?_
          rw [hCsplit, ← hw1]
          exact List.mem_map.mpr ⟨w, List.mem_append_left _ hwmem, rfl⟩
    have hcmem : c = NIL ∨ c ∈ C.map Prod.fst := by
      cases hq2 : C2 with
      | nil =>
        rw [hq2] at hC2c
        exact Or.inl hC2c
      | cons z r2 =>
        obtain ⟨i2, o2⟩ := z
        rw [hq2] at hC2c
        refine Or.inr ?_
        rw [hCsplit, hq2, hC2c]
        exact List.mem_map.mpr ⟨(i2, o2), List.mem_append_right _ (by simp), rfl⟩
    refine ⟨?_, ?_, ?_⟩
    · intro j hjn hjoi hjNIL
      rw [hs']
      refine insertedState_get_other s ii oi side st p c j (fun hc => hjoi hc.symm) ?_ ?_
      · rcases hpmem with h | h
        · rw [h]; exact fun hc => hjNIL hc.symm
        · intro hc; rw [hc] at h; exact hjn h
      · rcases hcmem with h | h
        · rw [h]; exact fun hc => hjNIL hc.symm
        · intro hc; rw [hc] at h; exact hjn h
    · rw [hs']
      exact insertedState_orders_length s ii oi side st p c
    · intro side2 st2 hne
      rw [hs']
      exact insertedState_heads s ii oi side st p c side2 st2 hne

/-- `remove_order` unlinks one member of a well-formed side list and
leaves a well-formed side list over the remaining members; the removed
slot itself, slots off the list, the pool capacity, and the other three
list heads are untouched. -/
theorem remove_preserves_bookInv
    (s : SlabState) (ii oi : Nat) (side : Side) (st : OrderState)
    (C : List (Nat × Order)) (s' : SlabState)
    (hinv : bookInv s ii side st C)
    (hcap : s.orders.items.length ≤ NIL)
    (hmem : oi ∈ C.map Prod.fst)
    (hrun : remove_order s ii oi = (Except.ok (), s')) :
    ∃ C', bookInv s' ii side st C' ∧ (oi :: C'.map Prod.fst).Perm (C.map Prod.fst) ∧
      s'.orders.get oi = s.orders.get oi ∧
      (∀ j, j ∉ C.map Prod.fst → j ≠ NIL → s'.orders.get j = s.orders.get j) ∧
      s'.orders.items.length = s.orders.items.length ∧
      (∀ side2 st2, ¬(side2 = side ∧ st2 = st) →
        (s'.get_instrument ii).map (fun i => i.headOf side2 st2)
          = (s.get_instrument ii).map (fun i => i.headOf side2 st2)) := by
  obtain ⟨ins, hgi, hseg, hnd, hprev, hsort, hss⟩ := hinv
  obtain ⟨o0, ins2, ho0, hgi2, hs'⟩ := remove_ok_spec s ii oi s' hrun
  obtain ⟨x, hxC, hx1⟩ := List.mem_map.mp hmem
  obtain ⟨oi2, o⟩ := x
  have hoiC : (oi, o) ∈ C := by
    have h2 : oi2 = oi := hx1
    rw [← h2]
    exact hxC
  have hgeto : s.orders.get oi = some o := orderSegT_mem C _ NIL hseg (oi, o) hoiC
  have ho : o0 = o := by
    rw [ho0] at hgeto
    exact (Option.some.injEq _ _).mp hgeto
  rw [ho] at hs'
  have hgetoS : s.orders.get oi = some o := orderSegT_mem C _ NIL hseg (oi, o) hoiC
  obtain ⟨C1, C2, hCsplit⟩ := List.append_of_mem hoiC
  subst hCsplit
  obtain ⟨m, hseg1, hseg2⟩ :=
    (orderSegT_append C1 ((oi, o) :: C2) (ins.headOf side st) NIL).mp hseg
  obtain ⟨hmoi, hgetoi, hseg2p⟩ := hseg2
  rw [hmoi] at hseg1
  rw [prevChainB_append, Bool.and_eq_true] at hprev
  obtain ⟨hprev1, hprev2⟩ := hprev
  have hprev2p : (decide (o.prev = ((C1.getLast?.map Prod.fst).getD NIL))
      && prevChainB oi C2) = true := hprev2
  rw [Bool.and_eq_true] at hprev2p
  have hoprev : o.prev = (C1.getLast?.map Prod.fst).getD NIL :=
    of_decide_eq_true hprev2p.1
  rw [sortedByB_eq_sortedPI, List.map_append, List.map_append] at hsort
  rw [List.map_append] at hnd
  have hndp : (C1.map Prod.fst ++ oi :: C2.map Prod.fst).Nodup := hnd
  have hndm := (List.nodup_middle).mp hndp
  rw [List.nodup_cons] at hndm
  obtain ⟨hoiNotIn, hndRest⟩ := hndm
  have hnd1 : (C1.map Prod.fst).Nodup := (List.nodup_append.mp hndRest).1
  have hnd2f : (C2.map Prod.fst).Nodup := (List.nodup_append.mp hndRest).2.1
  have hdisj12 : List.Disjoint (C1.map Prod.fst) (C2.map Prod.fst) :=
    (List.nodup_append.mp hndRest).2.2
  have hnnAll : ∀ x ∈ C1 ++ (oi, o) :: C2, x.1 ≠ NIL :=
    orderSegT_ne_NIL hcap _ _ _ hseg
  have hoiNIL : oi ≠ NIL := hnnAll (oi, o) (by simp)
  have hssp : ((C1 ++ (oi, o) :: C2).all
      (fun x => decide (x.2.side = side ∧ x.2.state = st))) = true := hss
  rw [List.all_append, Bool.and_eq_true] at hssp
  have hss1 : sideStateB side st C1 = true := hssp.1
  have hss2h : (decide ((o.side = side ∧ o.state = st))
      && C2.all (fun x => decide (x.2.side = side ∧ x.2.state = st))) = true := hssp.2
  rw [Bool.and_eq_true] at hss2h
  have hsso : o.side = side ∧ o.state = st := of_decide_eq_true hss2h.1
  have honext : (C2 = [] ∧ o.next = NIL)
      ∨ ∃ c2 oc r2, C2 = (c2, oc) :: r2 ∧ o.next = c2 := by
    cases hq : C2 with
    | nil =>
      rw [hq] at hseg2p
      exact Or.inl ⟨rfl, hseg2p⟩
    | cons z r2 =>
      obtain ⟨c2, oc⟩ := z
      rw [hq] at hseg2p
      exact Or.inr ⟨c2, oc, r2, rfl, hseg2p.1⟩
  have hoprevFact : (C1 = [] ∧ o.prev = NIL)
      ∨ ∃ p1 lastO, C1.getLast? = some (p1, lastO) ∧ o.prev = p1 := by
    cases hq : C1 with
    | nil =>
      rw [hq] at hoprev
      exact Or.inl ⟨rfl, by simpa using hoprev⟩
    | cons z r1 =>
      rw [hq] at hoprev
      cases hgl : (z :: r1).getLast? with
      | none => simp at hgl
      | some w =>
        obtain ⟨p1, lastO⟩ := w
        rw [hgl] at hoprev
        exact Or.inr ⟨p1, lastO, rfl, by simpa using hoprev⟩
  have hprevMemOrNIL : o.prev = NIL ∨ o.prev ∈ C1.map Prod.fst := by
    rcases hoprevFact with ⟨_, h⟩ | ⟨p1, lastO, hgl, hp⟩
    · exact Or.inl h
    · refine Or.inr ?_
      rw [hp]
      exact List.mem_map.mpr ⟨(p1, lastO), mem_getLast? _ _ hgl, rfl⟩
  have hnextMemOrNIL : o.next = NIL ∨ o.next ∈ C2.map Prod.fst := by
    rcases honext with ⟨_, h⟩ | ⟨c2, oc, r2, hq, hn⟩
    · exact Or.inl h
    · refine Or.inr ?_
      rw [hq, hn]
      exact List.mem_map.mpr ⟨(c2, oc), by simp, rfl⟩
  have hprevNe_oi : o.prev ≠ oi := by
    rcases hprevMemOrNIL with h | h
    · rw [h]
      exact fun hc => hoiNIL hc.symm
    · intro hc
      rw [hc] at h
      exact hoiNotIn (List.mem_append_left _ h)
  have hnextNe_oi : o.next ≠ oi := by
    rcases hnextMemOrNIL with h | h
    · rw [h]
      exact fun hc => hoiNIL hc.symm
    · intro hc
      rw [hc] at h
      exact hoiNotIn (List.mem_append_right _ h)
  have hframeOi : s'.orders.get oi = s.orders.get oi := by
    rw [hs']
    exact removedState_get_other s ii o oi hprevNe_oi hnextNe_oi
  have hframe : ∀ j, j ∉ (C1 ++ (oi, o) :: C2).map Prod.fst → j ≠ NIL →
      s'.orders.get j = s.orders.get j := by
    intro j hjn hjNIL
    rw [hs']
    refine removedState_get_other s ii o j ?_ ?_
    · rcases hprevMemOrNIL with h | h
      · rw [h]
        exact fun hc => hjNIL hc.symm
      · intro hc
        rw [hc] at h
        exact hjn (by rw [List.map_append]; exact List.mem_append_left _ h)
    · rcases hnextMemOrNIL with h | h
      · rw [h]
        exact fun hc => hjNIL hc.symm
      · intro hc
        rw [hc] at h
        refine hjn ?_
        rw [List.map_append]
        exact List.mem_append_right _ (List.mem_cons_of_mem _ h)
  have hlen : s'.orders.items.length = s.orders.items.length := by
    rw [hs']
    exact removedState_orders_length s ii o
  have hheads : ∀ side2 st2, ¬(side2 = side ∧ st2 = st) →
      (s'.get_instrument ii).map (fun i => i.headOf side2 st2)
        = (s.get_instrument ii).map (fun i => i.headOf side2 st2) := by
    intro side2 st2 hne
    rw [hs']
    refine removedState_heads s ii o side2 st2 ?_
    rw [hsso.1, hsso.2]
    exact hne
  rcases hoprevFact with ⟨hC1nil, hprevNIL⟩ | ⟨p1, lastO, hgl, hprevP1⟩
  · subst hC1nil
    rcases honext with ⟨hC2nil, hnextNIL⟩ | ⟨c2, oc, r2, hC2eq, hnextC2⟩
    · subst hC2nil
      have hins2 : s'.get_instrument ii
          = some (ins.setHead o.side o.state o.next) := by
        rw [hs', removedState_instrument_pnil s ii o hprevNIL, hgi]
        rfl
      refine ⟨[], ⟨ins.setHead o.side o.state o.next, hins2, ?_, by simp, rfl, ?_, rfl⟩,
        ?_, hframeOi, hframe, hlen, hheads⟩
      · show (ins.setHead o.side o.state o.next).headOf side st = NIL
        rw [hsso.1, hsso.2, Instrument.headOf_setHead_self, hnextNIL]
      · rw [sortedByB_eq_sortedPI]
        cases side <;> rfl
      · exact List.Perm.refl _
    · subst hC2eq
      have hins2 : s'.get_instrument ii
          = some (ins.setHead o.side o.state o.next) := by
        rw [hs', removedState_instrument_pnil s ii o hprevNIL, hgi]
        rfl
      have hc2NIL : c2 ≠ NIL := hnnAll (c2, oc) (by simp)
      have hgc2 : s.orders.get c2 = some oc := hseg2p.2.1
      have hpn : o.prev ≠ o.next := by
        rw [hprevNIL, hnextC2]
        exact fun hc => hc2NIL hc.symm
      have hgetc2 : s'.orders.get c2 = some { oc with prev := NIL } := by
        have h4 : s'.orders.get o.next
            = (s.orders.get o.next).map (fun q => { q with prev := o.prev }) := by
          rw [hs']
          exact removedState_get_next s ii o (by rw [hnextC2]; exact hc2NIL) hpn
        rw [hnextC2, hgc2, hprevNIL] at h4
        exact h4
      have hrest : orderSegT s' oc.next r2 NIL := by
        refine orderSegT_transport r2 oc.next NIL hseg2p.2.2 ?_
        intro x hx
        rw [hs']
        refine removedState_get_other s ii o x.1 ?_ ?_
        · rw [hprevNIL]
          exact fun hc => (hnnAll x (by simp [hx])) hc.symm
        · rw [hnextC2]
          intro hc
          have hxm : x.1 ∈ r2.map Prod.fst := List.mem_map.mpr ⟨x, hx, rfl⟩
          rw [← hc] at hxm
          exact (List.nodup_cons.mp hnd2f).1 hxm
      have hp3 : (decide (oc.prev = oi) && prevChainB c2 r2) = true := hprev2p.2
      rw [Bool.and_eq_true] at hp3
      refine ⟨(c2, { oc with prev := NIL }) :: r2,
        ⟨ins.setHead o.side o.state o.next, hins2, ⟨?_, hgetc2, hrest⟩, hnd2f, ?_, ?_, ?_⟩,
        ?_, hframeOi, hframe, hlen, hheads⟩
      · show (ins.setHead o.side o.state o.next).headOf side st = c2
        rw [hsso.1, hsso.2, Instrument.headOf_setHead_self, hnextC2]
      · show (decide (NIL = NIL) && prevChainB c2 r2) = true
        rw [hp3.2]
        simp
      · rw [sortedByB_eq_sortedPI]
        have h6 := sortedPI_remove_mid side (prId o) []
          (((((c2, oc) :: r2).map Prod.snd)).map prId) hsort
        exact h6
      · show (decide ((oc.side = side ∧ oc.state = st))
            && r2.all (fun x => decide (x.2.side = side ∧ x.2.state = st))) = true
        exact hss2h.2
      · exact List.Perm.refl _
  · have hp1NIL : p1 ≠ NIL :=
      hnnAll (p1, lastO) (List.mem_append_left _ (mem_getLast? _ _ hgl))
    have hp1mem : (p1, lastO) ∈ C1 := mem_getLast? _ _ hgl
    have hglast : s.orders.get p1 = some lastO :=
      orderSegT_mem C1 _ oi hseg1 (p1, lastO) hp1mem
    have hins2 : s'.get_instrument ii = s.get_instrument ii := by
      rw [hs']
      exact removedState_instrument_pne s ii o (by rw [hprevP1]; exact hp1NIL)
    rcases honext with ⟨hC2nil, hnextNIL⟩ | ⟨c2, oc, r2, hC2eq, hnextC2⟩
    · subst hC2nil
      have hnp : o.next ≠ o.prev := by
        rw [hprevP1, hnextNIL]
        exact fun hc => hp1NIL hc.symm
      have hgetp1 : s'.orders.get p1 = some { lastO with next := NIL } := by
        have h4 : s'.orders.get o.prev
            = (s.orders.get o.prev).map (fun q => { q with next := o.next }) := by
          rw [hs']
          exact removedState_get_prev s ii o (by rw [hprevP1]; exact hp1NIL) hnp
        rw [hprevP1, hglast, hnextNIL] at h4
        exact h4
      have hoth : ∀ x ∈ C1, x.1 ≠ p1 → s'.orders.get x.1 = s.orders.get x.1 := by
        intro x hx hne
        rw [hs']
        refine removedState_get_other s ii o x.1 ?_ ?_
        · rw [hprevP1]
          exact fun hc => hne hc.symm
        · rw [hnextNIL]
          exact fun hc => (hnnAll x (List.mem_append_left _ hx)) hc.symm
      have hsegL : orderSegT s' (ins.headOf side st)
          (C1.dropLast ++ [(p1, { lastO with next := NIL })]) NIL :=
        orderSegT_relink NIL C1 (ins.headOf side st) oi p1 lastO hseg1 hgl hnd1
          hgetp1 hoth
      refine ⟨C1.dropLast ++ [(p1, { lastO with next := NIL })],
        ⟨ins, by rw [hins2]; exact hgi, hsegL, ?_, ?_, ?_, ?_⟩,
        ?_, hframeOi, hframe, hlen, hheads⟩
      · rw [map_fst_relink C1 p1 lastO { lastO with next := NIL } hgl]
        exact hnd1
      · rw [prevChain_relink C1 p1 NIL lastO { lastO with next := NIL } hgl rfl]
        exact hprev1
      · rw [sortedByB_eq_sortedPI,
          map_prId_relink C1 p1 lastO { lastO with next := NIL } hgl rfl]
        have h6 := sortedPI_remove_mid side (prId o) ((C1.map Prod.snd).map prId)
          [] hsort
        rw [List.append_nil] at h6
        exact h6
      · rw [sideState_relink side st C1 p1 lastO { lastO with next := NIL } hgl rfl rfl]
        exact hss1
      · rw [map_fst_relink C1 p1 lastO { lastO with next := NIL } hgl,
          List.map_append]
        have hperm := @List.perm_middle Nat oi (C1.map Prod.fst) ([] : List Nat)
        simpa using hperm.symm
    · subst hC2eq
      have hc2NIL : c2 ≠ NIL := hnnAll (c2, oc) (by simp)
      have hgc2 : s.orders.get c2 = some oc := hseg2p.2.1
      have hp1memf : p1 ∈ C1.map Prod.fst := List.mem_map.mpr ⟨(p1, lastO), hp1mem, rfl⟩
      have hc2memf : c2 ∈ ((c2, oc) :: r2).map Prod.fst := by simp
      have hp1c2 : p1 ≠ c2 := by
        intro hc
        rw [hc] at hp1memf
        exact hdisj12 hp1memf hc2memf
      have hpn : o.prev ≠ o.next := by
        rw [hprevP1, hnextC2]
        exact hp1c2
      have hnp : o.next ≠ o.prev := fun hc => hpn hc.symm
      have hgetp1 : s'.orders.get p1 = some { lastO with next := c2 } := by
        have h4 : s'.orders.get o.prev
            = (s.orders.get o.prev).map (fun q => { q with next := o.next }) := by
          rw [hs']
          exact removedState_get_prev s ii o (by rw [hprevP1]; exact hp1NIL) hnp
        rw [hprevP1, hglast, hnextC2] at h4
        exact h4
      have hgetc2 : s'.orders.get c2 = some { oc with prev := p1 } := by
        have h4 : s'.orders.get o.next
            = (s.orders.get o.next).map (fun q => { q with prev := o.prev }) := by
          rw [hs']
          exact removedState_get_next s ii o (by rw [hnextC2]; exact hc2NIL) hpn
        rw [hnextC2, hgc2, hprevP1] at h4
        exact h4
      have hoth : ∀ x ∈ C1, x.1 ≠ p1 → s'.orders.get x.1 = s.orders.get x.1 := by
        intro x hx hne
        rw [hs']
        refine removedState_get_other s ii o x.1 ?_ ?_
        · rw [hprevP1]
          exact fun hc => hne hc.symm
        · rw [hnextC2]
          intro hc
          have hxm : x.1 ∈ C1.map Prod.fst := List.mem_map.mpr ⟨x, hx, rfl⟩
          rw [← hc] at hxm
          exact hdisj12 hxm hc2memf
      have hsegL : orderSegT s' (ins.headOf side st)
          (C1.dropLast ++ [(p1, { lastO with next := c2 })]) c2 :=
        orderSegT_relink c2 C1 (ins.headOf side st) oi p1 lastO hseg1 hgl hnd1
          hgetp1 hoth
      have hrest : orderSegT s' oc.next r2 NIL := by
        refine orderSegT_transport r2 oc.next NIL hseg2p.2.2 ?_
        intro x hx
        rw [hs']
        refine removedState_get_other s ii o x.1 ?_ ?_
        · rw [hprevP1]
          intro hc
          have hxm : x.1 ∈ ((c2, oc) :: r2).map Prod.fst := by
            simp only [List.map_cons]
            exact List.mem_cons_of_mem _ (List.mem_map.mpr ⟨x, hx, rfl⟩)
          rw [← hc] at hxm
          exact hdisj12 hp1memf hxm
        · rw [hnextC2]
          intro hc
          have hxm : x.1 ∈ r2.map Prod.fst := List.mem_map.mpr ⟨x, hx, rfl⟩
          rw [← hc] at hxm
          exact (List.nodup_cons.mp hnd2f).1 hxm
      have hsegR : orderSegT s' c2 ((c2, { oc with prev := p1 }) :: r2) NIL :=
        ⟨rfl, hgetc2, hrest⟩
      have hp3 : (decide (oc.prev = oi) && prevChainB c2 r2) = true := hprev2p.2
      rw [Bool.and_eq_true] at hp3
      refine ⟨(C1.dropLast ++ [(p1, { lastO with next := c2 })])
          ++ (c2, { oc with prev := p1 }) :: r2,
        ⟨ins, by rw [hins2]; exact hgi,
          (orderSegT_append _ _ _ _).mpr ⟨c2, hsegL, hsegR⟩, ?_, ?_, ?_, ?_⟩,
        ?_, hframeOi, hframe, hlen, hheads⟩
      · rw [List.map_append, map_fst_relink C1 p1 lastO { lastO with next := c2 } hgl]
        exact List.nodup_append.mpr ⟨hnd1, hnd2f, hdisj12⟩
      · rw [prevChainB_append,
          getLast_relink C1 p1 lastO { lastO with next := c2 } hgl,
          prevChain_relink C1 p1 NIL lastO { lastO with next := c2 } hgl rfl, hprev1]
        show (true && (decide (p1 = p1) && prevChainB c2 r2)) = true
        rw [hp3.2]
        simp
      · rw [sortedByB_eq_sortedPI, List.map_append, List.map_append,
          map_prId_relink C1 p1 lastO { lastO with next := c2 } hgl rfl]
        exact sortedPI_remove_mid side (prId o) ((C1.map Prod.snd).map prId)
          (((((c2, oc) :: r2).map Prod.snd)).map prId) hsort
      · rw [sideStateB_append,
          sideState_relink side st C1 p1 lastO { lastO with next := c2 } hgl rfl rfl,
          hss1]
        show (true && (decide ((oc.side = side ∧ oc.state = st))
            && r2.all (fun x => decide (x.2.side = side ∧ x.2.state = st)))) = true
        rw [show (decide ((oc.side = side ∧ oc.state = st))
            && r2.all (fun x => decide (x.2.side = side ∧ x.2.state = st))) = true
          from hss2h.2]
        simp
      · have hfst : ((C1.dropLast ++ [(p1, { lastO with next := c2 })])
            ++ (c2, { oc with prev := p1 }) :: r2).map Prod.fst
            = C1.map Prod.fst ++ c2 :: r2.map Prod.fst := by
          rw [List.map_append,
            map_fst_relink C1 p1 lastO { lastO with next := c2 } hgl]
          rfl
        rw [hfst, List.map_append]
        exact (@List.perm_middle Nat oi (C1.map Prod.fst) (c2 :: r2.map Prod.fst)).symm

/-- The `promote_side` loop preserves the well-formedness of both the
live and the pending side lists: each iteration removes the found order
from the pending list, relabels it `LIVE`, and re-inserts it into the
live list, each step keeping the respective list invariant. -/
theorem promote_preserves_bookInv :
    ∀ fuel s ii side epoch s' CL CP,
      bookInv s ii side OrderState.LIVE CL →
      bookInv s ii side OrderState.PENDING CP →
      List.Disjoint (CL.map Prod.fst) (CP.map Prod.fst) →
      s.orders.items.length ≤ NIL →
      promote_side s ii side epoch fuel = some (Except.ok (), s') →
      ∃ CL' CP', bookInv s' ii side OrderState.LIVE CL' ∧
        bookInv s' ii side OrderState.PENDING CP' := by
  intro fuel
  induction fuel with
  | zero =>
    intro s ii side epoch s' CL CP _ _ _ _ hrun
    cases hrun
  | succ fuel ih =>
    intro s ii side epoch s' CL CP hinvL hinvP hdisj hcap hrun
    obtain ⟨insP, hgiP, hsegP, hndP, hprevP, hsortP, hssP⟩ := hinvP
    unfold promote_side at hrun
    rw [hgiP] at hrun
    dsimp only at hrun
    split at hrun
    · cases hrun
    · cases hrun
      exact ⟨CL, CP, hinvL, ⟨insP, hgiP, hsegP, hndP, hprevP, hsortP, hssP⟩⟩
    · next oi price hpf =>
        have hnnP : ∀ x ∈ CP, x.1 ≠ NIL :=
          orderSegT_ne_NIL hcap CP _ NIL hsegP
        have hnnPf : ∀ a ∈ CP.map Prod.fst, a ≠ NIL := by
          intro a ha
          obtain ⟨y, hy, hy1⟩ := List.mem_map.mp ha
          rw [← hy1]
          exact hnnP y hy
        obtain ⟨o, hoiMem, hgetoi, hpr⟩ :=
          promoteFind_mem s epoch CP (fuel + 1) (insP.headOf side OrderState.PENDING)
            oi price hsegP hnnP hpf
        have hrem := remove_ok_total s ii oi o insP hgetoi hgiP
        rw [hrem] at hrun
        dsimp only at hrun
        have hoiCPf : oi ∈ CP.map Prod.fst := List.mem_map.mpr ⟨(oi, o), hoiMem, rfl⟩
        obtain ⟨CP2, hinvP1, hpermP, hoiframe, hframeP, hlen1, hheads1⟩ :=
          remove_preserves_bookInv s ii oi side OrderState.PENDING CP
            (removedState s ii o)
            ⟨insP, hgiP, hsegP, hndP, hprevP, hsortP, hssP⟩ hcap hoiCPf hrem
        obtain ⟨insL, hgiL, hsegL0, hndL, hprevL, hsortL, hssL⟩ := hinvL
        have hnnL : ∀ x ∈ CL, x.1 ≠ NIL :=
          orderSegT_ne_NIL hcap CL _ NIL hsegL0
        have hinvL1 : bookInv (removedState s ii o) ii side OrderState.LIVE CL :=
          bookInv_transport s (removedState s ii o) ii side OrderState.LIVE CL
            ⟨insL, hgiL, hsegL0, hndL, hprevL, hsortL, hssL⟩
            (fun x hx => hframeP x.1
              (fun hc => hdisj (List.mem_map.mpr ⟨x, hx, rfl⟩) hc) (hnnL x hx))
            (hheads1 side OrderState.LIVE (fun hc => OrderState.noConfusion hc.2))
        set s2 : SlabState := (removedState s ii o).modifyOrder oi
          (fun q => { q with state := OrderState.LIVE }) with hs2
        have hoiNotCP2 : oi ∉ CP2.map Prod.fst := by
          have hnodup : (oi :: CP2.map Prod.fst).Nodup :=
            (hpermP.nodup_iff).mpr hndP
          exact (List.nodup_cons.mp hnodup).1
        have hCP2sub : ∀ a, a ∈ CP2.map Prod.fst → a ∈ CP.map Prod.fst := by
          intro a ha
          exact hpermP.mem_iff.mp (List.mem_cons_of_mem _ ha)
        have hg12 : ∀ j, j ≠ oi →
            s2.orders.get j = (removedState s ii o).orders.get j := by
          intro j hj
          rw [hs2, SlabState.modifyOrder_orders]
          exact Pool.get_modifyUsed_ne _ _ _ _ (fun hc => hj hc.symm)
        have hinst12 : ∀ jj, s2.get_instrument jj
            = (removedState s ii o).get_instrument jj := by
          intro jj
          rw [hs2]
          exact SlabState.modifyOrder_instrument _ _ _ jj
        have hinvL2 : bookInv s2 ii side OrderState.LIVE CL :=
          bookInv_transport _ _ _ _ _ CL hinvL1
            (fun x hx => hg12 x.1
              (fun hc => hdisj (List.mem_map.mpr ⟨x, hx, rfl⟩)
                (by rw [hc]; exact hoiCPf)))
            (by rw [hinst12 ii])
        have hinvP2 : bookInv s2 ii side OrderState.PENDING CP2 :=
          bookInv_transport _ _ _ _ _ CP2 hinvP1
            (fun x hx => hg12 x.1
              (fun hc => hoiNotCP2 (by rw [← hc]; exact List.mem_map.mpr ⟨x, hx, rfl⟩)))
            (by rw [hinst12 ii])
        have hgetoi2 : s2.orders.get oi = some { o with state := OrderState.LIVE } := by
          rw [hs2, SlabState.modifyOrder_orders, Pool.get_modifyUsed_self, hoiframe,
            hgetoi]
          rfl
        have hcap2 : s2.orders.items.length ≤ NIL := by
          rw [hs2, SlabState.modifyOrder_orders, Pool.modifyUsed_length, hlen1]
          exact hcap
        have hsso : o.side = side ∧ o.state = OrderState.PENDING := by
          have hssPb : (CP.all
              (fun x => decide (x.2.side = side ∧ x.2.state = OrderState.PENDING)))
              = true := hssP
          exact of_decide_eq_true (List.all_eq_true.mp hssPb (oi, o) hoiMem)
        cases hins : insert_order (fuel + 1) s2 ii oi side price OrderState.LIVE with
        | none =>
          rw [hins] at hrun
          cases hrun
        | some res =>
          rw [hins] at hrun
          obtain ⟨er, s3⟩ := res
          cases er with
          | error e =>
            dsimp only at hrun
            simp at hrun
          | ok u =>
            cases u
            dsimp only at hrun
            have hfreshL : oi ∉ CL.map Prod.fst := fun hc => hdisj hc hoiCPf
            obtain ⟨CL2, hinvL3, hpermL⟩ :=
              insert_preserves_bookInv (fuel + 1) s2 ii oi side OrderState.LIVE price CL
                { o with state := OrderState.LIVE } s3 hinvL2 hcap2 hgetoi2 hfreshL
                hpr hsso.1 rfl hins
            obtain ⟨hfr3, hlen3, hheads3⟩ :=
              insert_order_frame (fuel + 1) s2 ii oi side OrderState.LIVE price CL s3
                hinvL2 hcap2 hins
            have hinvP3 : bookInv s3 ii side OrderState.PENDING CP2 :=
              bookInv_transport s2 s3 ii side OrderState.PENDING CP2 hinvP2
                (fun x hx => hfr3 x.1
                  (fun hc => hdisj hc (hCP2sub x.1 (List.mem_map.mpr ⟨x, hx, rfl⟩)))
                  (fun hc => hoiNotCP2 (by rw [← hc]; exact List.mem_map.mpr ⟨x, hx, rfl⟩))
                  (hnnPf x.1 (hCP2sub x.1 (List.mem_map.mpr ⟨x, hx, rfl⟩))))
                (hheads3 side OrderState.PENDING (fun hc => OrderState.noConfusion hc.2))
            have hdisj3 : List.Disjoint (CL2.map Prod.fst) (CP2.map Prod.fst) := by
              intro a haL haP
              have h2 : a ∈ oi :: CL.map Prod.fst := hpermL.mem_iff.mp haL
              rcases List.mem_cons.mp h2 with h2 | h2
              · rw [h2] at haP
                exact hoiNotCP2 haP
              · exact hdisj h2 (hCP2sub a haP)
            have hcap3 : s3.orders.items.length ≤ NIL := by
              rw [hlen3]
              exact hcap2
            exact ih s3 ii side epoch s' CL2 CP2 hinvL3 hinvP3 hdisj3 hcap3 hrun

/-- **C8.** Price-time priority is an invariant of every book mutation:
`insert_order`, `remove_order`, and the pending-to-live promotion loop
`promote_side` each carry a well-formed side list (`bookInv`: the list
obtained by traversing the instrument's head pointer, duplicate-free,
correctly back-linked, `sortedByB`-sorted — bids by non-increasing
price, asks by non-decreasing price, equal-price ties by ascending
`order_id` — and uniform in side and state) to a well-formed side list
over the expected members: insertion adds exactly the new order,
removal deletes exactly the removed one, and promotion keeps both the
live and the pending list well-formed. -/
theorem claim_C8_price_time_priority_invariant :
    (∀ fuel s ii oi side st px C newO s',
      bookInv s ii side st C → s.orders.items.length ≤ NIL →
      s.orders.get oi = some newO → oi ∉ C.map Prod.fst →
      newO.price = px → newO.side = side → newO.state = st →
      insert_order fuel s ii oi side px st = some (Except.ok (), s') →
      ∃ C', bookInv s' ii side st C' ∧ (C'.map Prod.fst).Perm (oi :: C.map Prod.fst)) ∧
    (∀ s ii oi side st C s',
      bookInv s ii side st C → s.orders.items.length ≤ NIL →
      oi ∈ C.map Prod.fst →
      remove_order s ii oi = (Except.ok (), s') →
      ∃ C', bookInv s' ii side st C' ∧ (oi :: C'.map Prod.fst).Perm (C.map Prod.fst)) ∧
    (∀ fuel s ii side epoch s' CL CP,
      bookInv s ii side OrderState.LIVE CL →
      bookInv s ii side OrderState.PENDING CP →
      List.Disjoint (CL.map Prod.fst) (CP.map Prod.fst) →
      s.orders.items.length ≤ NIL →
      promote_side s ii side epoch fuel = some (Except.ok (), s') →
      ∃ CL' CP', bookInv s' ii side OrderState.LIVE CL' ∧
        bookInv s' ii side OrderState.PENDING CP') :=
  ⟨fun fuel s ii oi side st px C newO s' h1 h2 h3 h4 h5 h6 h7 h8 =>
      insert_preserves_bookInv fuel s ii oi side st px C newO s' h1 h2 h3 h4 h5 h6 h7 h8,
   fun s ii oi side st C s' h1 h2 h3 h4 =>
      (remove_preserves_bookInv s ii oi side st C s' h1 h2 h3 h4).imp
        (fun C' hh => ⟨hh.1, hh.2.1⟩),
   fun fuel s ii side epoch s' CL CP h1 h2 h3 h4 h5 =>
      promote_preserves_bookInv fuel s ii side epoch s' CL CP h1 h2 h3 h4 h5⟩

/-- The promotion conjunct of C8 at a concrete slab: `slab5` holds live
asks 70/80/90 and an eligible pending ask 85; the loop promotes it and
both resulting lists are again well-formed. -/
theorem claim_C8_witness :
    promote_side slab5 0 Side.Sell 0 10 = some (Except.ok (), slab5post) ∧
    ∃ CL' CP', bookInv slab5post 0 Side.Sell OrderState.LIVE CL' ∧
      bookInv slab5post 0 Side.Sell OrderState.PENDING CP' :=
  ⟨rfl,
    claim_C8_price_time_priority_invariant.2.2 10 slab5 0 Side.Sell 0 slab5post
      [(0, ask70q5), (1, { ask80q5 with next := 2 }), (2, ask90q5)]
      [(4, pendingAsk85)]
      ⟨{ inst0 with asks_pending_head := 4 }, rfl,
        ⟨rfl, rfl, rfl, rfl, rfl, rfl, rfl⟩, by decide, rfl, rfl, rfl⟩
      ⟨{ inst0 with asks_pending_head := 4 }, rfl, ⟨rfl, rfl, rfl⟩,
        by decide, rfl, rfl, rfl⟩
      (by intro a ha hb; simp at ha hb; omega)
      (by decide) rfl⟩

end Solster
